import Mathlib

/-!
Verification development for the AST-graph extraction/resolution pipeline
(ast_parser.py and graph_builder.py).

Modelling conventions:
* A decoded syntax-tree document is a `JVal` (JSON-like value).
  Python `None` is `JVal.null`; `dict.get` returning `None` for an absent
  key is therefore modelled by `lookupF … |>.getD .null`.
* A Python exception (AttributeError / TypeError / RecursionError) aborts
  the surrounding computation; fallible functions return `Option`, with
  `none` meaning "raises".
* `pyStr` / `pyRepr` model Python `str()` / `repr()` (string `repr` is
  simplified to plain single-quote wrapping, enough for the scalar values
  that reach it).
* The recursive call-site walker mutates a temporary `_parent_type` key
  into each child; the embedding threads the mutated tree explicitly and
  uses fuel, with fuel exhaustion (`none`) modelling Python's recursion
  limit.
* Filesystem-dependent pieces are parameters: `relativize` models the
  `Path.relative_to(cwd)` attempt in the extractor, and `resolver` models
  `resolve_internal_path` (which probes the filesystem-derived candidate
  list) in the graph builder.
-/

/-- Generic tagged tree decoded from one syntax-tree JSON document. -/
inductive JVal where
  | null : JVal
  | bool : Bool → JVal
  | int : Int → JVal
  | str : String → JVal
  | arr : List JVal → JVal
  | obj : List (String × JVal) → JVal
deriving Repr

mutual

def jvalBeq : JVal → JVal → Bool
  | .null, .null => true
  | .bool a, .bool b => a == b
  | .int a, .int b => a == b
  | .str a, .str b => a == b
  | .arr a, .arr b => jvalListBeq a b
  | .obj a, .obj b => jvalFieldsBeq a b
  | _, _ => false

def jvalListBeq : List JVal → List JVal → Bool
  | [], [] => true
  | x :: xs, y :: ys => jvalBeq x y && jvalListBeq xs ys
  | _, _ => false

def jvalFieldsBeq : List (String × JVal) → List (String × JVal) → Bool
  | [], [] => true
  | (k, v) :: xs, (l, w) :: ys => k == l && jvalBeq v w && jvalFieldsBeq xs ys
  | _, _ => false

end

mutual

def jvalBeq_eq : ∀ a b : JVal, jvalBeq a b = true → a = b
  | .null, .null, _ => rfl
  | .bool a, .bool b, h => by
      simp [jvalBeq] at h; simp [h]
  | .int a, .int b, h => by
      simp [jvalBeq] at h; simp [h]
  | .str a, .str b, h => by
      simp [jvalBeq] at h; simp [h]
  | .arr a, .arr b, h => by
      simp [jvalBeq] at h
      exact congrArg JVal.arr (jvalListBeq_eq a b h)
  | .obj a, .obj b, h => by
      simp [jvalBeq] at h
      exact congrArg JVal.obj (jvalFieldsBeq_eq a b h)
  | .null, .bool _, h => by simp [jvalBeq] at h
  | .null, .int _, h => by simp [jvalBeq] at h
  | .null, .str _, h => by simp [jvalBeq] at h
  | .null, .arr _, h => by simp [jvalBeq] at h
  | .null, .obj _, h => by simp [jvalBeq] at h
  | .bool _, .null, h => by simp [jvalBeq] at h
  | .bool _, .int _, h => by simp [jvalBeq] at h
  | .bool _, .str _, h => by simp [jvalBeq] at h
  | .bool _, .arr _, h => by simp [jvalBeq] at h
  | .bool _, .obj _, h => by simp [jvalBeq] at h
  | .int _, .null, h => by simp [jvalBeq] at h
  | .int _, .bool _, h => by simp [jvalBeq] at h
  | .int _, .str _, h => by simp [jvalBeq] at h
  | .int _, .arr _, h => by simp [jvalBeq] at h
  | .int _, .obj _, h => by simp [jvalBeq] at h
  | .str _, .null, h => by simp [jvalBeq] at h
  | .str _, .bool _, h => by simp [jvalBeq] at h
  | .str _, .int _, h => by simp [jvalBeq] at h
  | .str _, .arr _, h => by simp [jvalBeq] at h
  | .str _, .obj _, h => by simp [jvalBeq] at h
  | .arr _, .null, h => by simp [jvalBeq] at h
  | .arr _, .bool _, h => by simp [jvalBeq] at h
  | .arr _, .int _, h => by simp [jvalBeq] at h
  | .arr _, .str _, h => by simp [jvalBeq] at h
  | .arr _, .obj _, h => by simp [jvalBeq] at h
  | .obj _, .null, h => by simp [jvalBeq] at h
  | .obj _, .bool _, h => by simp [jvalBeq] at h
  | .obj _, .int _, h => by simp [jvalBeq] at h
  | .obj _, .str _, h => by simp [jvalBeq] at h
  | .obj _, .arr _, h => by simp [jvalBeq] at h

def jvalListBeq_eq : ∀ a b : List JVal, jvalListBeq a b = true → a = b
  | [], [], _ => rfl
  | x :: xs, y :: ys, h => by
      simp only [jvalListBeq, Bool.and_eq_true] at h
      rw [jvalBeq_eq x y h.1, jvalListBeq_eq xs ys h.2]
  | [], _ :: _, h => by simp [jvalListBeq] at h
  | _ :: _, [], h => by simp [jvalListBeq] at h

def jvalFieldsBeq_eq : ∀ a b : List (String × JVal), jvalFieldsBeq a b = true → a = b
  | [], [], _ => rfl
  | (k, v) :: xs, (l, w) :: ys, h => by
      simp only [jvalFieldsBeq, Bool.and_eq_true] at h
      obtain ⟨⟨h1, h2⟩, h3⟩ := h
      simp only [beq_iff_eq] at h1
      rw [h1, jvalBeq_eq v w h2, jvalFieldsBeq_eq xs ys h3]
  | [], _ :: _, h => by simp [jvalFieldsBeq] at h
  | _ :: _, [], h => by simp [jvalFieldsBeq] at h

end

mutual

def jvalBeq_refl : ∀ a : JVal, jvalBeq a a = true
  | .null => rfl
  | .bool a => by simp [jvalBeq]
  | .int a => by simp [jvalBeq]
  | .str a => by simp [jvalBeq]
  | .arr a => by simp [jvalBeq]; exact jvalListBeq_refl a
  | .obj a => by simp [jvalBeq]; exact jvalFieldsBeq_refl a

def jvalListBeq_refl : ∀ a : List JVal, jvalListBeq a a = true
  | [] => rfl
  | x :: xs => by
      simp only [jvalListBeq, Bool.and_eq_true]
      exact ⟨jvalBeq_refl x, jvalListBeq_refl xs⟩

def jvalFieldsBeq_refl : ∀ a : List (String × JVal), jvalFieldsBeq a a = true
  | [] => rfl
  | (k, v) :: xs => by
      simp only [jvalFieldsBeq, Bool.and_eq_true]
      exact ⟨⟨by simp, jvalBeq_refl v⟩, jvalFieldsBeq_refl xs⟩

end

instance : DecidableEq JVal := fun a b =>
  if h : jvalBeq a b = true then
    isTrue (jvalBeq_eq a b h)
  else
    isFalse (fun he => h (he ▸ jvalBeq_refl a))

/-- Python truthiness of a decoded value. -/
def pyTruthy : JVal → Bool
  | .null => false
  | .bool b => b
  | .int n => n ≠ 0
  | .str s => s ≠ ""
  | .arr xs => !xs.isEmpty
  | .obj fs => !fs.isEmpty

/-- First binding of a key in an ordered field list (Python dict lookup). -/
def lookupF : List (String × JVal) → String → Option JVal
  | [], _ => none
  | (k, v) :: fs, s => if k = s then some v else lookupF fs s

/-- Python `node.get(key)`: `none` models the AttributeError raised when the
receiver is not a dict; an absent key yields Python `None` (`JVal.null`). -/
def pyGet (v : JVal) (k : String) : Option JVal :=
  match v with
  | .obj fs => some ((lookupF fs k).getD .null)
  | _ => none

/-- Python `node.get(key, default)` on a possibly non-dict receiver. -/
def pyGetD (v : JVal) (k : String) (d : JVal) : Option JVal :=
  match v with
  | .obj fs => some ((lookupF fs k).getD d)
  | _ => none

/-- Python dict assignment `d[k] = v`: replaces an existing binding in place,
otherwise appends at the end (insertion order). -/
def setKeyF : List (String × JVal) → String → JVal → List (String × JVal)
  | [], s, w => [(s, w)]
  | (k, v) :: fs, s, w => if k = s then (k, w) :: fs else (k, v) :: setKeyF fs s w

/-- Python `del d[k]`: removes the (unique, given dict keys) binding. -/
def delKeyF : List (String × JVal) → String → List (String × JVal)
  | [], _ => []
  | (k, v) :: fs, s => if k = s then fs else (k, v) :: delKeyF fs s

/-- Python `for x in v` where the loop body dereferences each element:
lists yield their elements, dicts their keys, strings their characters,
and other values raise TypeError (`none`). -/
def pyIter : JVal → Option (List JVal)
  | .arr xs => some xs
  | .obj fs => some (fs.map (fun kv => .str kv.1))
  | .str s => some (s.toList.map (fun c => .str (String.singleton c)))
  | _ => none

/-- Single-quote character, used by the Python repr model and by the
diagnostic message strings of the graph builder. -/
def sqt : String := String.singleton (Char.ofNat 39)

mutual

/-- Python `repr` of a decoded value (string quoting simplified). -/
def pyRepr : JVal → String
  | .null => "None"
  | .bool b => if b then "True" else "False"
  | .int n => toString n
  | .str s => sqt ++ s ++ sqt
  | .arr xs => "[" ++ String.intercalate ", " (pyReprList xs) ++ "]"
  | .obj fs => "\x7b" ++ String.intercalate ", " (pyReprFields fs) ++ "\x7d"

def pyReprList : List JVal → List String
  | [] => []
  | x :: xs => pyRepr x :: pyReprList xs

def pyReprFields : List (String × JVal) → List String
  | [] => []
  | (k, v) :: fs => (sqt ++ k ++ sqt ++ ": " ++ pyRepr v) :: pyReprFields fs

end

/-- Python `str()` of a decoded value. -/
def pyStr : JVal → String
  | .str s => s
  | v => pyRepr v

/-- Python `sep.join(xs)`: raises TypeError (`none`) unless every element
is a string. -/
def pyJoin (sep : String) : List JVal → Option String
  | [] => some ""
  | [.str s] => some s
  | .str s :: x :: xs => (pyJoin sep (x :: xs)).map (fun r => s ++ sep ++ r)
  | _ => none

/-- Python str.startswith, computed over the character list (the library
String.startsWith does not reduce inside the kernel). -/
def pyStartsWith (s pre : String) : Bool := pre.toList.isPrefixOf s.toList

/-- Python str.endswith over the character list. -/
def pyEndsWith (s suf : String) : Bool := suf.toList.isSuffixOf s.toList

/-- Replacement loop of pyReplace; the fuel is the input length, consumed
at least one character per step. An empty pattern is never replaced (no
call site passes one). -/
def replaceL (pat rep : List Char) : Nat → List Char → List Char
  | 0, l => l
  | _ + 1, [] => []
  | n + 1, c :: rest =>
    if pat ≠ [] ∧ pat.isPrefixOf (c :: rest) then
      rep ++ replaceL pat rep n (rest.drop (pat.length - 1))
    else c :: replaceL pat rep n rest

/-- Python str.replace (all non-overlapping occurrences, left to right). -/
def pyReplace (s pat rep : String) : String :=
  ⟨replaceL pat.toList rep.toList s.toList.length s.toList⟩

/-- Python str.lower over the character list. -/
def pyToLower (s : String) : String := ⟨s.toList.map Char.toLower⟩

/-- Split on the path separator, keeping empty components. -/
def splitSlashAux : List Char → List Char → List String
  | [], acc => [⟨acc.reverse⟩]
  | c :: rest, acc =>
    if c = Char.ofNat 47 then ⟨acc.reverse⟩ :: splitSlashAux rest []
    else splitSlashAux rest (c :: acc)

def splitSlash (s : String) : List String := splitSlashAux s.toList []

/-- Embeds ast_parser.get_node_name. The result is the raw Python return
value: `JVal.null` models Python `None`; `none` models a raised exception,
including exhaustion of the recursion limit modelled by the fuel. -/
def get_node_name : Nat → JVal → Option JVal
  | 0, _ => none
  | Nat.succ fuel, v =>
    if pyTruthy v = false then some .null
    else
      match pyGet v "type" with
      | none => none
      | some nt =>
        if nt = .str "Identifier" ∨ nt = .str "PrivateName" then
          pyGet v "name"
        else if nt = .str "ClassDeclaration" then
          match pyGetD v "id" (.obj []) with
          | none => none
          | some idv => pyGet idv "name"
        else if nt = .str "MethodDefinition" then
          match pyGet v "key" with
          | none => none
          | some k => get_node_name fuel k
        else if nt = .str "TSInterfaceDeclaration" then
          match pyGetD v "id" (.obj []) with
          | none => none
          | some idv => pyGet idv "name"
        else if nt = .str "FunctionDeclaration" then
          match pyGetD v "id" (.obj []) with
          | none => none
          | some idv => pyGet idv "name"
        else if nt = .str "VariableDeclarator" then
          match pyGetD v "id" (.obj []) with
          | none => none
          | some idv => pyGet idv "name"
        else if nt = .str "MemberExpression" then
          match pyGet v "object" with
          | none => none
          | some o =>
            match get_node_name fuel o with
            | none => none
            | some onm =>
              match pyGet v "property" with
              | none => none
              | some p =>
                match get_node_name fuel p with
                | none => none
                | some pnm =>
                  if pyTruthy onm && pyTruthy pnm then
                    some (.str (pyStr onm ++ "." ++ pyStr pnm))
                  else some pnm
        else if nt = .str "Literal" then
          match pyGet v "value" with
          | none => none
          | some val => some (.str (pyStr val))
        else some .null

/-- One argument of ast_parser.format_arguments: the string appended for it,
or `none` when Python raises (including the TypeError that the later
string join raises on a non-string element). -/
def format_one_argument (fuel : Nat) (arg : JVal) : Option String :=
  match get_node_name fuel arg with
  | none => none
  | some nm =>
    if pyTruthy nm then
      match nm with
      | .str s => some s
      | _ => none
    else
      match arg with
      | .obj fs =>
        let t := (lookupF fs "type").getD .null
        if t = .str "Literal" then
          some (pyRepr ((lookupF fs "value").getD .null))
        else if t = .str "ObjectExpression" then some "\x7b...\x7d"
        else if t = .str "ArrayExpression" then some "[...]"
        else
          match lookupF fs "type" with
          | none => some "unknown"
          | some (.str s) => some s
          | some _ => none
      | _ => none

/-- Embeds ast_parser.format_arguments. -/
def format_arguments (fuel : Nat) (argsNodes : JVal) : Option String :=
  if pyTruthy argsNodes = false then some "()"
  else
    match pyIter argsNodes with
    | none => none
    | some xs =>
      match xs.mapM (format_one_argument fuel) with
      | none => none
      | some strs => some ("(" ++ String.intercalate ", " strs ++ ")")

/-- The annotation-resolution cascade at the top of
ast_parser.get_type_annotation_str: `node.get('typeAnnotation')`, then the
`parameter` chain, then the `id` chain; the first truthy value wins and
`JVal.null` marks that every chain came up falsy. -/
def resolveTA (v : JVal) : Option JVal :=
  match pyGet v "typeAnnotation" with
  | none => none
  | some ta0 =>
    if pyTruthy ta0 then some ta0
    else
      match pyGetD v "parameter" (.obj []) with
      | none => none
      | some p1 =>
        match pyGetD p1 "typeAnnotation" (.obj []) with
        | none => none
        | some p2 =>
          match pyGet p2 "typeAnnotation" with
          | none => none
          | some ta1 =>
            if pyTruthy ta1 then some ta1
            else
              match pyGetD v "id" (.obj []) with
              | none => none
              | some i1 =>
                match pyGetD i1 "typeAnnotation" (.obj []) with
                | none => none
                | some i2 =>
                  match pyGet i2 "typeAnnotation" with
                  | none => none
                  | some ta2 =>
                    if pyTruthy ta2 then some ta2 else some .null

/-- Primitive keyword annotation tags recognized by the reconstruction. -/
def recognizedKeywords : List String :=
  ["TSStringKeyword", "TSNumberKeyword", "TSBooleanKeyword", "TSVoidKeyword",
   "TSAnyKeyword", "TSNullKeyword", "TSUndefinedKeyword", "TSNeverKeyword",
   "TSUnknownKeyword", "TSSymbolKeyword", "TSObjectKeyword"]

/-- The per-element cleanup applied to generic-argument strings
(the ": any" suffix hack in the source). -/
def tsArgFix (x : JVal) : JVal :=
  match x with
  | .str s => if pyEndsWith s ": any" then .str (pyReplace s ": any" "") else .str s
  | _ => x

/-- Embeds ast_parser.get_type_annotation_str. The result is the raw Python
return value (a string in all branches except the argument-free reference
case, which returns the raw name value); `none` models a raised exception. -/
def get_type_annotation_str : Nat → JVal → Option JVal
  | 0, _ => none
  | Nat.succ fuel, v =>
    if pyTruthy v = false then some (.str "any")
    else
      match resolveTA v with
      | none => none
      | some ta =>
        if pyTruthy ta = false then some (.str "any")
        else
          match pyGet ta "type" with
          | none => none
          | some tk =>
            let tks := match tk with | .str s => s | _ => ""
            if tks = "TSTypeReference" then
              match pyGet ta "typeName" with
              | none => none
              | some tn =>
                match get_node_name fuel tn with
                | none => none
                | some nm =>
                  match pyGetD ta "typeArguments" (.obj []) with
                  | none => none
                  | some targs =>
                    match pyGetD targs "params" (.arr []) with
                    | none => none
                    | some parms =>
                      if pyTruthy parms then
                        match pyIter parms with
                        | none => none
                        | some xs =>
                          match xs.mapM (get_type_annotation_str fuel) with
                          | none => none
                          | some rs =>
                            match pyJoin ", " (rs.map tsArgFix) with
                            | none => none
                            | some j =>
                              some (.str (pyStr nm ++ "<" ++ j ++ ">"))
                      else
                        if pyTruthy nm then some nm else some (.str "unknown")
            else if recognizedKeywords.contains tks then
              some (.str (pyToLower (pyReplace (pyReplace tks "Keyword" "") "TS" "")))
            else if tks = "TSUnionType" then
              match pyGetD ta "types" (.arr []) with
              | none => none
              | some tys =>
                match pyIter tys with
                | none => none
                | some xs =>
                  match xs.mapM (get_type_annotation_str fuel) with
                  | none => none
                  | some rs =>
                    match pyJoin " | " rs with
                    | none => none
                    | some j => some (.str j)
            else if tks = "TSIntersectionType" then
              match pyGetD ta "types" (.arr []) with
              | none => none
              | some tys =>
                match pyIter tys with
                | none => none
                | some xs =>
                  match xs.mapM (get_type_annotation_str fuel) with
                  | none => none
                  | some rs =>
                    match pyJoin " & " rs with
                    | none => none
                    | some j => some (.str j)
            else if tks = "TSTypeLiteral" then some (.str "\x7b...\x7d")
            else if tks = "TSArrayType" then
              match pyGet ta "elementType" with
              | none => none
              | some et =>
                match get_type_annotation_str fuel et with
                | none => none
                | some es => some (.str (pyStr es ++ "[]"))
            else if tks = "TSTupleType" then
              match pyGetD ta "elementTypes" (.arr []) with
              | none => none
              | some tys =>
                match pyIter tys with
                | none => none
                | some xs =>
                  match xs.mapM (get_type_annotation_str fuel) with
                  | none => none
                  | some rs =>
                    match pyJoin ", " rs with
                    | none => none
                    | some j => some (.str ("[" ++ j ++ "]"))
            else some (.str "any")

/-- Tests whether a value is a mapping (Python `isinstance(x, dict)`). -/
def isObjB : JVal → Bool
  | .obj _ => true
  | _ => false

/-- Ordinary parameter of a method (`{'name': …, 'type': …}`, with the
`default` marker of AssignmentPattern parameters). -/
structure Param where
  pname : JVal
  ptype : JVal
  has_default : Bool
deriving DecidableEq, Repr

/-- Constructor parameter-property, recorded as an injected dependency. -/
structure Dep where
  dname : JVal
  dtype : JVal
  accessibility : JVal
  readonly : JVal
deriving DecidableEq, Repr

/-- One iteration of the ast_parser.extract_parameters loop: the parameter
or dependency this node contributes. -/
def extract_one_param (fuel : Nat) (p : JVal) : Option (Sum Param Dep) :=
  match pyGet p "type" with
  | none => none
  | some pt =>
    if pt = .str "Identifier" then
      match get_node_name fuel p with
      | none => none
      | some nm =>
        match pyGet p "typeAnnotation" with
        | none => none
        | some tav =>
          match get_type_annotation_str fuel tav with
          | none => none
          | some ty => some (Sum.inl ⟨nm, ty, false⟩)
    else if pt = .str "TSParameterProperty" then
      match pyGet p "parameter" with
      | none => none
      | some pn =>
        if pyTruthy pn then
          match pyGet pn "type" with
          | none => none
          | some pnt =>
            if pnt = .str "Identifier" then
              match get_node_name fuel pn with
              | none => none
              | some nm =>
                match pyGet pn "typeAnnotation" with
                | none => none
                | some tav =>
                  match get_type_annotation_str fuel tav with
                  | none => none
                  | some ty =>
                    match pyGet p "accessibility" with
                    | none => none
                    | some acc =>
                      match pyGetD p "readonly" (.bool false) with
                      | none => none
                      | some ro => some (Sum.inr ⟨nm, ty, acc, ro⟩)
            else some (Sum.inl ⟨.str "unknown", .str "any", false⟩)
        else some (Sum.inl ⟨.str "unknown", .str "any", false⟩)
    else if pt = .str "AssignmentPattern" then
      match pyGet p "left" with
      | none => none
      | some l =>
        if pyTruthy l then
          match pyGet l "type" with
          | none => none
          | some lt =>
            if lt = .str "Identifier" then
              match get_node_name fuel l with
              | none => none
              | some nm =>
                match pyGet l "typeAnnotation" with
                | none => none
                | some tav =>
                  match get_type_annotation_str fuel tav with
                  | none => none
                  | some ty => some (Sum.inl ⟨nm, ty, true⟩)
            else some (Sum.inl ⟨.str "unknown", .str "any", false⟩)
        else some (Sum.inl ⟨.str "unknown", .str "any", false⟩)
    else some (Sum.inl ⟨.str "unknown", .str "any", false⟩)

/-- Embeds ast_parser.extract_parameters: splits a parameter list into
ordinary parameters and constructor-injected dependencies. -/
def extract_parameters (fuel : Nat) (paramNodes : JVal) :
    Option (List Param × List Dep) :=
  if pyTruthy paramNodes = false then some ([], [])
  else
    match pyIter paramNodes with
    | none => none
    | some xs =>
      xs.foldlM
        (fun (acc : List Param × List Dep) p =>
          (extract_one_param fuel p).map
            (fun r =>
              match r with
              | Sum.inl pa => (acc.1 ++ [pa], acc.2)
              | Sum.inr d => (acc.1, acc.2 ++ [d])))
        ([], [])

/-- Decorator applied to an entity or method. -/
structure Decorator where
  dec_name : JVal
  dec_args : String
deriving DecidableEq, Repr

/-- One iteration of the ast_parser.extract_decorators loop. -/
def extract_one_decorator (fuel : Nat) (dec : JVal) : Option (Option Decorator) :=
  match pyGet dec "expression" with
  | none => none
  | some ex =>
    if pyTruthy ex = false then some none
    else
      match pyGet ex "type" with
      | none => none
      | some ety =>
        if ety = .str "CallExpression" then
          match pyGet ex "callee" with
          | none => none
          | some cal =>
            match get_node_name fuel cal with
            | none => none
            | some nm =>
              match pyGet ex "arguments" with
              | none => none
              | some ags =>
                match format_arguments fuel ags with
                | none => none
                | some astr =>
                  if pyTruthy nm then some (some ⟨nm, astr⟩) else some none
        else if ety = .str "Identifier" then
          match get_node_name fuel ex with
          | none => none
          | some nm =>
            if pyTruthy nm then some (some ⟨nm, "()"⟩) else some none
        else some none

/-- Embeds ast_parser.extract_decorators. -/
def extract_decorators (fuel : Nat) (decoratorNodes : JVal) :
    Option (List Decorator) :=
  if pyTruthy decoratorNodes = false then some []
  else
    match pyIter decoratorNodes with
    | none => none
    | some xs =>
      xs.foldlM
        (fun acc dec =>
          (extract_one_decorator fuel dec).map
            (fun r => match r with | none => acc | some d => acc ++ [d]))
        []

/-- Call site found by the walker. -/
structure CallInfo where
  base_expression : JVal
  called_method_name : JVal
  arguments_str : String
  is_await : Bool
deriving DecidableEq, Repr

/-- Callee classification of a call expression: the pair
(base_expression, called_method_name), with `JVal.null` for Python None. -/
def callee_base_name (fuel : Nat) (cal : JVal) : Option (JVal × JVal) :=
  if pyTruthy cal = false then some (.null, .null)
  else
    match pyGet cal "type" with
    | none => none
    | some cty =>
      if cty = .str "MemberExpression" then
        match pyGet cal "object" with
        | none => none
        | some bn =>
          match pyGet cal "property" with
          | none => none
          | some mn =>
            let baseRes : Option JVal :=
              if pyTruthy bn = false then some .null
              else
                match pyGet bn "type" with
                | none => none
                | some bt =>
                  if bt = .str "ThisExpression" then some (.str "this")
                  else
                    match get_node_name fuel bn with
                    | none => none
                    | some bname =>
                      some (if pyTruthy bname then bname else .str "unknown_base")
            match baseRes with
            | none => none
            | some be =>
              match get_node_name fuel mn with
              | none => none
              | some nme => some (be, nme)
      else if cty = .str "Identifier" then
        match get_node_name fuel cal with
        | none => none
        | some nme => some (.null, nme)
      else if cty = .str "Super" then
        some (.null, .str "super")
      else some (.null, .null)

/-- The CallExpression case of the walker: records a call when a method
name could be identified; `is_await` is read from the temporary
`_parent_type` marker. -/
def call_record_step (fuel : Nat) (v : JVal) (cs : List CallInfo) :
    Option (List CallInfo) :=
  match pyGet v "callee" with
  | none => none
  | some cal =>
    match callee_base_name fuel cal with
    | none => none
    | some (be, nme) =>
      if pyTruthy nme then
        match pyGet v "arguments" with
        | none => none
        | some ags =>
          match format_arguments fuel ags with
          | none => none
          | some astr =>
            match pyGet v "_parent_type" with
            | none => none
            | some pv =>
              some (cs ++ [⟨be, nme, astr, pv = .str "AwaitExpression"⟩])
      else some cs

/-- List-field loop of extract_calls: visits dict items with the supplied
child visitor, marking and unmarking `_parent_type`, and leaves the rest. -/
def walk_items (visit : JVal → List CallInfo → Option (JVal × List CallInfo))
    (ntv : JVal) : List JVal → List CallInfo →
    Option (List JVal × List CallInfo)
  | [], cs => some ([], cs)
  | it :: rest, cs =>
    match it with
    | .obj ws =>
      match visit (.obj (setKeyF ws "_parent_type" ntv)) cs with
      | none => none
      | some (it2, cs2) =>
        let it3 := match it2 with
          | .obj fs2 => JVal.obj (delKeyF fs2 "_parent_type")
          | other => other
        match walk_items visit ntv rest cs2 with
        | none => none
        | some (rest2, cs3) => some (it3 :: rest2, cs3)
    | _ =>
      match walk_items visit ntv rest cs with
      | none => none
      | some (rest2, cs2) => some (it :: rest2, cs2)

/-- Field loop of extract_calls: descends into dict- and list-valued
fields, setting and then deleting the `_parent_type` marker on each
visited child dict. -/
def walk_fields (visit : JVal → List CallInfo → Option (JVal × List CallInfo))
    (ntv : JVal) : List (String × JVal) → List CallInfo →
    Option (List (String × JVal) × List CallInfo)
  | [], cs => some ([], cs)
  | (k, w) :: rest, cs =>
    if k = "range" ∨ k = "loc" ∨ k = "decorators" then
      match walk_fields visit ntv rest cs with
      | none => none
      | some (rest2, cs2) => some ((k, w) :: rest2, cs2)
    else
      match w with
      | .obj ws =>
        match visit (.obj (setKeyF ws "_parent_type" ntv)) cs with
        | none => none
        | some (w2, cs2) =>
          let w3 := match w2 with
            | .obj fs2 => JVal.obj (delKeyF fs2 "_parent_type")
            | other => other
          match walk_fields visit ntv rest cs2 with
          | none => none
          | some (rest2, cs3) => some ((k, w3) :: rest2, cs3)
      | .arr items =>
        match walk_items visit ntv items cs with
        | none => none
        | some (items2, cs2) =>
          match walk_fields visit ntv rest cs2 with
          | none => none
          | some (rest2, cs3) => some ((k, .arr items2) :: rest2, cs3)
      | _ =>
        match walk_fields visit ntv rest cs with
        | none => none
        | some (rest2, cs2) => some ((k, w) :: rest2, cs2)

/-- Embeds ast_parser.extract_calls: the recursive walk over one tree,
threading the list of recorded calls and the (temporarily mutated) tree.
Fuel decreases with tree depth, modelling Python's recursion limit. -/
def extract_calls : Nat → JVal → List CallInfo → Option (JVal × List CallInfo)
  | 0, _, _ => none
  | Nat.succ fuel, v, cs =>
    match v with
    | .obj fs =>
      let ntv := (lookupF fs "type").getD .null
      match (if ntv = .str "CallExpression"
             then call_record_step fuel (.obj fs) cs else some cs) with
      | none => none
      | some cs1 =>
        match walk_fields (extract_calls fuel) ntv fs cs1 with
        | none => none
        | some (fs2, cs2) => some (.obj fs2, cs2)
    | _ => some (v, cs)

/-- Extracted import statement. -/
structure ImportRecord where
  source : String
  specifiers : List JVal
  is_external : Bool
deriving DecidableEq, Repr

/-- Extracted export statement. -/
structure ExportRecord where
  ename : JVal
  ekind : String
deriving DecidableEq, Repr

/-- Extracted top-level entity (class, interface, function or variable). -/
structure Entity where
  entity_id : String
  ename : JVal
  ekind : String
  efile_id : String
  superClass : Option JVal
  implements : Option (List JVal)
  kind_detail : Option JVal
  var_kind : Option JVal
  description : Option String
deriving DecidableEq, Repr

/-- Extracted method of a class. -/
structure Method where
  method_id : String
  mname : JVal
  mkind : JVal
  mentity_id : String
  is_async : JVal
  parameters : List Param
  return_type : JVal
  summary : Option String
deriving DecidableEq, Repr

/-- Per-file record produced by the feature extractor: the maps are ordered
association lists mirroring Python dict insertion order. -/
structure FileRecord where
  file_id : String
  file_path : String
  imports : List ImportRecord
  exports : List ExportRecord
  entities : List (String × Entity)
  methods : List (String × Method)
  calls : List (String × List CallInfo)
  dependencies : List (String × List Dep)
  decorators : List (String × List Decorator)
deriving DecidableEq, Repr

/-- Python dict assignment on a string-keyed association list. -/
def alSet {α : Type} : List (String × α) → String → α → List (String × α)
  | [], k, v => [(k, v)]
  | (k2, v2) :: rest, k, v =>
    if k2 = k then (k2, v) :: rest else (k2, v2) :: alSet rest k v

/-- Python dict lookup on a string-keyed association list. -/
def alGet {α : Type} : List (String × α) → String → Option α
  | [], _ => none
  | (k2, v2) :: rest, k => if k2 = k then some v2 else alGet rest k

/-- The empty-but-valid record for a file identity. -/
def emptyRecord (fid : String) : FileRecord :=
  ⟨fid, fid, [], [], [], [], [], [], []⟩

/-- Finds the local name of the first default-import specifier
(the `next((s.get('local',{}).get('name') …))` generator). -/
def default_specifier_of : List JVal → Option JVal
  | [] => some .null
  | sn :: rest =>
    match sn with
    | .obj sfs =>
      if (lookupF sfs "type").getD .null = .str "ImportDefaultSpecifier" then
        match pyGetD (.obj sfs) "local" (.obj []) with
        | none => none
        | some lv => pyGet lv "name"
      else default_specifier_of rest
    | _ => none

/-- The ImportDeclaration case of the extractor. -/
def import_stmt_step (fuel : Nat) (source_root : String) (rec : FileRecord)
    (node : JVal) : Option FileRecord :=
  match pyGetD node "source" (.obj []) with
  | none => none
  | some sv =>
    match pyGet sv "value" with
    | none => none
    | some src =>
      if pyTruthy src = false then some rec
      else
        match src with
        | .str s =>
          let is_ext := !(pyStartsWith s "." || pyStartsWith s "/" ||
            pyStartsWith s source_root)
          match pyGetD node "specifiers" (.arr []) with
          | none => none
          | some spv =>
            match pyIter spv with
            | none => none
            | some sns =>
              match sns.mapM (fun sn =>
                  match sn with
                  | .obj sfs =>
                    let tgt := match lookupF sfs "imported" with
                      | some w => w
                      | none => (lookupF sfs "local").getD .null
                    get_node_name fuel tgt
                  | _ => none) with
              | none => none
              | some specs =>
                match default_specifier_of sns with
                | none => none
                | some ds =>
                  let specs2 :=
                    if pyTruthy ds ∧ ds ∉ specs then
                      specs ++ [.str ("default(" ++ pyStr ds ++ ")")]
                    else specs
                  some { rec with imports := rec.imports ++ [⟨s, specs2, is_ext⟩] }
        | _ => none

/-- The ExportNamedDeclaration case of the extractor. -/
def export_named_step (fuel : Nat) (rec : FileRecord) (node : JVal) :
    Option FileRecord :=
  match pyGet node "declaration" with
  | none => none
  | some dec =>
    if pyTruthy dec then
      match pyGet dec "type" with
      | none => none
      | some dty =>
        match get_node_name fuel dec with
        | none => none
        | some nm =>
          if pyTruthy nm then
            match dty with
            | .str ds =>
              some { rec with
                exports := rec.exports ++ [⟨nm, pyReplace ds "Declaration" ""⟩] }
            | _ => none
          else some rec
    else
      match pyGetD node "specifiers" (.arr []) with
      | none => none
      | some spv =>
        match pyIter spv with
        | none => none
        | some sns =>
          sns.foldlM
            (fun r sn =>
              match pyGet sn "exported" with
              | none => none
              | some ev =>
                match get_node_name fuel ev with
                | none => none
                | some nm =>
                  some (if pyTruthy nm then
                    { r with exports := r.exports ++ [⟨nm, "Unknown"⟩] }
                  else r))
            rec

/-- The ExportDefaultDeclaration case of the extractor. -/
def export_default_step (fuel : Nat) (rec : FileRecord) (node : JVal) :
    Option FileRecord :=
  match pyGet node "declaration" with
  | none => none
  | some dec =>
    match get_node_name fuel dec with
    | none => none
    | some nm0 =>
      let nm := if pyTruthy nm0 then nm0 else .str "default"
      if nm ≠ .str "default" then
        match pyGetD dec "type" (.str "Unknown") with
        | none => none
        | some dty =>
          match dty with
          | .str ds =>
            some { rec with
              exports := rec.exports ++ [⟨nm, pyReplace ds "Declaration" ""⟩] }
          | _ => none
      else some { rec with exports := rec.exports ++ [⟨nm, "Unknown"⟩] }

/-- One class-body member (the MethodDefinition case of the extractor). -/
def member_step (fid : String) (entity_id : String) (fuel : Nat)
    (rec : FileRecord) (member : JVal) : Option FileRecord :=
  match pyGet member "type" with
  | none => none
  | some mty =>
    if mty = .str "MethodDefinition" then
      match get_node_name fuel member with
      | none => none
      | some mnm =>
        if pyTruthy mnm = false then some rec
        else
          let method_id := entity_id ++ "::" ++ pyStr mnm
          match pyGetD member "value" (.obj []) with
          | none => none
          | some mv =>
            match pyGetD mv "async" (.bool false) with
            | none => none
            | some asy =>
              match pyGet mv "params" with
              | none => none
              | some pv =>
                match extract_parameters fuel pv with
                | none => none
                | some (params, cdeps) =>
                  match pyGet mv "returnType" with
                  | none => none
                  | some rtv =>
                    match get_type_annotation_str fuel rtv with
                    | none => none
                    | some rty =>
                      match pyGet member "decorators" with
                      | none => none
                      | some mdv =>
                        match extract_decorators fuel mdv with
                        | none => none
                        | some mdecs =>
                          let rec1 := if mdecs.isEmpty then rec
                            else { rec with
                              decorators := alSet rec.decorators method_id mdecs }
                          match pyGetD member "kind" (.str "method") with
                          | none => none
                          | some mk =>
                            let meth : Method :=
                              ⟨method_id, mnm, mk, entity_id, asy, params, rty, none⟩
                            let rec2 := { rec1 with
                              methods := alSet rec1.methods method_id meth }
                            let rec3 :=
                              if mk = .str "constructor" ∧ ¬cdeps.isEmpty then
                                { rec2 with
                                  dependencies := alSet rec2.dependencies entity_id cdeps }
                              else rec2
                            match pyGet mv "body" with
                            | none => none
                            | some bodyv =>
                              if pyTruthy bodyv then
                                match extract_calls fuel bodyv [] with
                                | none => none
                                | some (_, calls) =>
                                  if calls.isEmpty then some rec3
                                  else some { rec3 with
                                    calls := alSet rec3.calls method_id calls }
                              else some rec3
    else some rec

/-- The ClassDeclaration / TSInterfaceDeclaration / FunctionDeclaration
case of the extractor. -/
def entity_stmt_step (fid : String) (fuel : Nat) (rec : FileRecord)
    (node : JVal) (nty : String) : Option FileRecord :=
  match get_node_name fuel node with
  | none => none
  | some enm =>
    if pyTruthy enm = false then some rec
    else
      let entity_id := fid ++ "::" ++ pyStr enm
      let kind := pyReplace nty "Declaration" ""
      match pyGet node "decorators" with
      | none => none
      | some dv =>
        match extract_decorators fuel dv with
        | none => none
        | some edecs =>
          let rec1 := if edecs.isEmpty then rec
            else { rec with decorators := alSet rec.decorators entity_id edecs }
          if nty = "ClassDeclaration" then
            match pyGet node "superClass" with
            | none => none
            | some scv =>
              match (if pyTruthy scv then (get_node_name fuel scv).map some
                     else some none) with
              | none => none
              | some sc =>
                match pyGetD node "implements" (.arr []) with
                | none => none
                | some impv =>
                  match pyIter impv with
                  | none => none
                  | some imps =>
                    match imps.mapM (fun imp =>
                        match pyGet imp "expression" with
                        | none => none
                        | some ev => get_node_name fuel ev) with
                    | none => none
                    | some inames =>
                      let impls := inames.filter (fun n => pyTruthy n)
                      let ent : Entity :=
                        ⟨entity_id, enm, kind, fid, sc, some impls, none, none, none⟩
                      let rec2 := { rec1 with
                        entities := alSet rec1.entities entity_id ent }
                      match pyGetD node "body" (.obj []) with
                      | none => none
                      | some bv =>
                        match pyGetD bv "body" (.arr []) with
                        | none => none
                        | some cbv =>
                          match pyIter cbv with
                          | none => none
                          | some members =>
                            members.foldlM (member_step fid entity_id fuel) rec2
          else
            let ent : Entity :=
              ⟨entity_id, enm, kind, fid, none, none, none, none, none⟩
            some { rec1 with entities := alSet rec1.entities entity_id ent }

/-- The VariableDeclaration case of the extractor. -/
def variable_stmt_step (fid : String) (fuel : Nat) (rec : FileRecord)
    (node : JVal) : Option FileRecord :=
  match pyGetD node "declarations" (.arr []) with
  | none => none
  | some dv =>
    match pyIter dv with
    | none => none
    | some decls =>
      decls.foldlM
        (fun r dcl =>
          match pyGet dcl "type" with
          | none => none
          | some dty =>
            if dty = .str "VariableDeclarator" then
              match get_node_name fuel dcl with
              | none => none
              | some vnm =>
                if pyTruthy vnm = false then some r
                else
                  let entity_id := fid ++ "::" ++ pyStr vnm
                  match pyGet dcl "init" with
                  | none => none
                  | some iv =>
                    match (if pyTruthy iv then pyGetD iv "type" (.str "Unknown")
                           else some (.str "Unknown")) with
                    | none => none
                    | some kd =>
                      match pyGet node "kind" with
                      | none => none
                      | some vk =>
                        let ent : Entity :=
                          ⟨entity_id, vnm, "Variable", fid, none, none,
                           some kd, some vk, none⟩
                        some { r with entities := alSet r.entities entity_id ent }
            else some r)
        rec

/-- Dispatch over one top-level statement of the body. -/
def stmt_step (source_root : String) (fid : String) (fuel : Nat)
    (rec : FileRecord) (node : JVal) : Option FileRecord :=
  match pyGet node "type" with
  | none => none
  | some nt =>
    if nt = .str "ImportDeclaration" then
      import_stmt_step fuel source_root rec node
    else if nt = .str "ExportNamedDeclaration" then export_named_step fuel rec node
    else if nt = .str "ExportDefaultDeclaration" then
      export_default_step fuel rec node
    else if nt = .str "ClassDeclaration" then
      entity_stmt_step fid fuel rec node "ClassDeclaration"
    else if nt = .str "TSInterfaceDeclaration" then
      entity_stmt_step fid fuel rec node "TSInterfaceDeclaration"
    else if nt = .str "FunctionDeclaration" then
      entity_stmt_step fid fuel rec node "FunctionDeclaration"
    else if nt = .str "VariableDeclaration" then
      variable_stmt_step fid fuel rec node
    else some rec

/-- Embeds ast_parser.extract_features_from_ast. The result pairs the
Python return value (`none` = the function returned None) with the warning
diagnostics it logged; the outer `none` models a raised exception.
`relativize` stands for the cwd-dependent `Path.relative_to` attempt, and
`cfgRoot` for the optional source_code_root_prefix configuration value. -/
def extract_features_from_ast (fuel : Nat) (relativize : String → String)
    (astData : JVal) (filePathStr : String) (cfgRoot : Option String) :
    Option (Option FileRecord × List String) :=
  if (pyTruthy astData && isObjB astData) = false then
    some (none, ["Invalid or empty AST data for " ++ filePathStr])
  else
    let fid := relativize filePathStr
    let rec0 := emptyRecord fid
    let source_root := cfgRoot.getD "src/"
    match pyGetD astData "body" (.arr []) with
    | none => none
    | some body =>
      if pyTruthy body = false then
        some (some rec0, ["AST body is empty for " ++ filePathStr])
      else
        match pyIter body with
        | none => none
        | some stmts =>
          match stmts.foldlM (stmt_step source_root fid fuel) rec0 with
          | none => none
          | some recF => some (some recF, [])

/-- Attributes of one graph node; optional fields model networkx node
attributes that a given add_node call may or may not set (an attribute set
to Python None is `some none`). -/
structure NodeAttrs where
  ntype : String
  label : JVal
  nname : Option JVal
  nfile_id : Option String
  npath : Option String
  nentity_id : Option String
  ntitle : Option String
  ndescription : Option (Option String)
  nsummary : Option (Option String)
deriving DecidableEq, Repr

/-- Attributes of one directed edge. -/
structure EdgeAttrs where
  etype : String
  elabel : Option JVal
deriving DecidableEq, Repr

/-- Directed graph with at most one edge per ordered node pair, mirroring
networkx.DiGraph; both lists are keyed association lists in insertion
order. -/
structure Graph where
  nodes : List (String × NodeAttrs)
  edges : List ((String × String) × EdgeAttrs)
deriving DecidableEq, Repr

/-- Edge-map assignment, keyed by the ordered endpoint pair. -/
def egSet : List ((String × String) × EdgeAttrs) → (String × String) → EdgeAttrs →
    List ((String × String) × EdgeAttrs)
  | [], k, v => [(k, v)]
  | (k2, v2) :: rest, k, v =>
    if k2 = k then (k2, v) :: rest else (k2, v2) :: egSet rest k v

/-- Edge-map lookup, keyed by the ordered endpoint pair. -/
def egGet : List ((String × String) × EdgeAttrs) → (String × String) →
    Option EdgeAttrs
  | [], _ => none
  | (k2, v2) :: rest, k => if k2 = k then some v2 else egGet rest k

def emptyAttrs : NodeAttrs := ⟨"", .null, none, none, none, none, none, none, none⟩

/-- networkx add_node: merges the given attribute updates into the existing
attribute set, creating the node when absent. -/
def addNode (g : Graph) (id : String) (f : NodeAttrs → NodeAttrs) : Graph :=
  { g with nodes := alSet g.nodes id (f ((alGet g.nodes id).getD emptyAttrs)) }

def hasNode (g : Graph) (id : String) : Bool := (alGet g.nodes id).isSome

/-- networkx add_edge: merges the attribute updates into the (unique) edge
for the ordered pair. Every add_edge call site in build_graph is guarded so
both endpoints already exist, hence no implicit node creation is modelled. -/
def addEdge (g : Graph) (u v : String) (f : EdgeAttrs → EdgeAttrs) : Graph :=
  { g with edges := egSet g.edges (u, v) (f ((egGet g.edges (u, v)).getD ⟨"", none⟩)) }

/-- Final path component, as pathlib Path(...).name on POSIX paths. -/
def pathName (p : String) : String :=
  (((splitSlash p).filter (fun c => c != "" && c != ".")).getLast?).getD ""

/-- Attribute updates of a typed edge with no label argument. -/
def plain_edge (t : String) (a : EdgeAttrs) : EdgeAttrs := { a with etype := t }

/-- Attribute updates of a typed edge with a label argument. -/
def labeled_edge (t : String) (l : JVal) (_ : EdgeAttrs) : EdgeAttrs := ⟨t, some l⟩

def file_node_attrs (data : FileRecord) (a : NodeAttrs) : NodeAttrs :=
  { a with ntype := "File", npath := some data.file_path,
           label := .str (pathName data.file_path) }

def entity_title (fid : String) (e : Entity) : String :=
  let base := "Kind: " ++ e.ekind ++ "\nFile: " ++ fid
  match e.description with
  | some d => base ++ "\nDesc: " ++ d
  | none => base

def entity_node_attrs (fid : String) (e : Entity) (a : NodeAttrs) : NodeAttrs :=
  { a with ntype := e.ekind, nname := some e.ename, nfile_id := some fid,
           label := e.ename, ntitle := some (entity_title fid e),
           ndescription := some e.description }

def method_title (fid : String) (m : Method) : String :=
  let base := "Method: " ++ pyStr m.mname ++ "\nKind: " ++ pyStr m.mkind ++
    "\nEntity: " ++ (if m.mentity_id ≠ "" then m.mentity_id else "N/A") ++
    "\nFile: " ++ fid
  match m.summary with
  | some s => base ++ "\nSummary: " ++ s
  | none => base

def method_node_attrs (fid : String) (m : Method) (a : NodeAttrs) : NodeAttrs :=
  { a with ntype := "Method", nname := some m.mname,
           nentity_id := some m.mentity_id, nfile_id := some fid,
           label := .str (pyStr m.mname ++ "()"),
           ntitle := some (method_title fid m), nsummary := some m.summary }

def external_node_attrs (source : String) (a : NodeAttrs) : NodeAttrs :=
  { a with ntype := "External", label := .str source,
           ntitle := some ("External Library: " ++ source) }

def add_entity_nodes (fid : String) (g : Graph) (es : List (String × Entity)) :
    Graph :=
  es.foldl
    (fun g p =>
      addEdge (addNode g p.1 (entity_node_attrs fid p.2)) fid p.1
        (plain_edge "CONTAINS"))
    g

def add_method_nodes (fid : String) (g : Graph) (ms : List (String × Method)) :
    Graph :=
  ms.foldl
    (fun g p =>
      let g1 := addNode g p.1 (method_node_attrs fid p.2)
      let eid := p.2.mentity_id
      if eid ≠ "" ∧ hasNode g1 eid = true then
        addEdge g1 eid p.1 (plain_edge "HAS_METHOD")
      else if fid ≠ "" then
        addEdge g1 fid p.1 (plain_edge "CONTAINS_FUNC")
      else g1)
    g

/-- Node phase of graph_builder.build_graph for one file. -/
def add_phase1_file (g : Graph) (p : String × FileRecord) : Graph :=
  add_method_nodes p.1
    (add_entity_nodes p.1 (addNode g p.1 (file_node_attrs p.2)) p.2.entities)
    p.2.methods

/-- Running state of the edge phase: graph, already materialized external
sources, and the debug diagnostics in emission order. -/
structure BuildSt where
  g : Graph
  seen : List String
  diags : List String
deriving DecidableEq, Repr

def msg_import_skip (source fid : String) : String :=
  "Import edge skipped: Cannot resolve internal import " ++ sqt ++ source ++ sqt ++
    " from " ++ sqt ++ fid ++ sqt

def msg_inject_skip (depType : JVal) (eid : String) : String :=
  "Injection edge skipped: Cannot resolve dependency type " ++ sqt ++
    pyStr depType ++ sqt ++ " for " ++ sqt ++ eid ++ sqt

def msg_call_skip (base nme : JVal) (mid : String) : String :=
  "Call edge skipped: Cannot resolve target for " ++ pyStr base ++ "." ++
    pyStr nme ++ "() from " ++ sqt ++ mid ++ sqt

def msg_global_skip (nme : JVal) (mid : String) : String :=
  "Call edge skipped: Cannot resolve target for global/local func " ++
    pyStr nme ++ "() from " ++ sqt ++ mid ++ sqt

/-- One import of one file in the edge phase. The only failure point of
build_graph is here: joining a specifier list containing a non-string. -/
def import_edge_step (resolver : String → String → List String → Option String)
    (allIds : List String) (fid fpath : String) (st : BuildSt)
    (imp : ImportRecord) : Option BuildSt :=
  if imp.is_external then
    let st1 :=
      if imp.source ∈ st.seen then st
      else { st with
        g := addNode st.g imp.source (external_node_attrs imp.source),
        seen := st.seen ++ [imp.source] }
    match pyJoin ", " imp.specifiers with
    | none => none
    | some lbl =>
      some { st1 with
        g := addEdge st1.g fid imp.source (labeled_edge "IMPORTS_EXT" (.str lbl)) }
  else
    match resolver fpath imp.source allIds with
    | some t =>
      if t ≠ "" ∧ hasNode st.g t = true then
        some { st with
          g := addEdge st.g fid t
            (labeled_edge "IMPORTS_INT" (.str (pathName imp.source))) }
      else some { st with diags := st.diags ++ [msg_import_skip imp.source fid] }
    | none => some { st with diags := st.diags ++ [msg_import_skip imp.source fid] }

/-- First entity of the owning file whose declared name equals the type. -/
def own_entity_lookup (es : List (String × Entity)) (t : JVal) : Option String :=
  (es.find? (fun p => p.2.ename = t)).map (·.1)

/-- First entity of any file (in record-map order) whose declared name
equals the type: the global fallback search. -/
def global_entity_lookup (d : List (String × FileRecord)) (t : JVal) :
    Option String :=
  (((d.map (·.2.entities)).flatten).find? (fun p => p.2.ename = t)).map (·.1)

/-- Dependency-injection edges of one entity. -/
def inject_step (d : List (String × FileRecord)) (data : FileRecord)
    (st : BuildSt) (eid : String) (deps : List Dep) : BuildSt :=
  if hasNode st.g eid = false then st
  else
    deps.foldl
      (fun st dep =>
        let t1 := own_entity_lookup data.entities dep.dtype
        let tgt := if (t1.getD "") = "" then global_entity_lookup d dep.dtype else t1
        match tgt with
        | some t =>
          if t ≠ "" ∧ hasNode st.g t = true then
            { st with
              g := addEdge st.g eid t
                (labeled_edge "INJECTS" (.str ("as " ++ pyStr dep.dname))) }
          else { st with diags := st.diags ++ [msg_inject_skip dep.dtype eid] }
        | none => { st with diags := st.diags ++ [msg_inject_skip dep.dtype eid] })
      st

/-- Resolution and edge emission for one recorded call. -/
def call_one_step (d : List (String × FileRecord)) (data : FileRecord)
    (mid : String) (ceid : Option String) (st : BuildSt) (call : CallInfo) :
    BuildSt :=
  let base := call.base_expression
  let nme := call.called_method_name
  let ceidT : Bool := match ceid with | some s => s ≠ "" | none => false
  let target : Option String :=
    if base = .str "this" ∧ ceidT = true then
      some ((ceid.getD "") ++ "::" ++ pyStr nme)
    else if pyTruthy base then
      let cdeps := match ceid with
        | some c => (alGet data.dependencies c).getD []
        | none => []
      match cdeps.find? (fun dep => dep.dname = base) with
      | some dep =>
        match global_entity_lookup d dep.dtype with
        | some deid =>
          if deid ≠ "" then some (deid ++ "::" ++ pyStr nme) else none
        | none => none
      | none => none
    else none
  let targetT : Bool := match target with | some s => s ≠ "" | none => false
  if targetT = true ∧ hasNode st.g (target.getD "") = true then
    { st with
      g := addEdge st.g mid (target.getD "")
        (labeled_edge "CALLS" (.str (if call.is_await then "await" else ""))) }
  else if pyTruthy base ∧ targetT = false then
    match base with
    | .str bs =>
      if hasNode st.g bs then
        { st with g := addEdge st.g mid bs (labeled_edge "CALLS_EXT" nme) }
      else { st with diags := st.diags ++ [msg_call_skip base nme mid] }
    | _ => { st with diags := st.diags ++ [msg_call_skip base nme mid] }
  else if pyTruthy base = false ∧ pyTruthy nme then
    { st with diags := st.diags ++ [msg_global_skip nme mid] }
  else st

/-- Call edges of one method. -/
def calls_step (d : List (String × FileRecord)) (data : FileRecord)
    (st : BuildSt) (mid : String) (calls : List CallInfo) : BuildSt :=
  if hasNode st.g mid = false then st
  else
    let ceid := match alGet st.g.nodes mid with
      | some a => a.nentity_id
      | none => none
    calls.foldl (call_one_step d data mid ceid) st

/-- Edge phase of build_graph for one file: imports, then injected
dependencies, then calls. -/
def add_phase2_file (d : List (String × FileRecord))
    (resolver : String → String → List String → Option String)
    (allIds : List String) (st : BuildSt) (p : String × FileRecord) :
    Option BuildSt :=
  match p.2.imports.foldlM (import_edge_step resolver allIds p.1 p.2.file_path) st with
  | none => none
  | some st1 =>
    let st2 := p.2.dependencies.foldl (fun s q => inject_step d p.2 s q.1 q.2) st1
    some (p.2.calls.foldl (fun s q => calls_step d p.2 s q.1 q.2) st2)

/-- Node phase of build_graph over the whole record map. -/
def phase1_graph (d : List (String × FileRecord)) : Graph :=
  d.foldl add_phase1_file ⟨[], []⟩

/-- Embeds graph_builder.build_graph: nodes first, then edges, returning
the graph together with the debug diagnostics; `none` models the TypeError
raised when an external import has a non-string specifier entry.
`resolver` stands for resolve_internal_path, whose candidate probing is
filesystem-dependent. -/
def build_graph (d : List (String × FileRecord))
    (resolver : String → String → List String → Option String) :
    Option (Graph × List String) :=
  match d.foldlM (add_phase2_file d resolver (d.map (·.1)))
      ⟨phase1_graph d, [], []⟩ with
  | none => none
  | some st => some (st.g, st.diags)

/-- Type attribute of a node. -/
def node_type_of (g : Graph) (id : String) : Option String :=
  (alGet g.nodes id).map (·.ntype)

/-- Type attribute of the edge on an ordered pair. -/
def edge_type_of (g : Graph) (u v : String) : Option String :=
  (egGet g.edges (u, v)).map (·.etype)

/-- Label attribute of the edge on an ordered pair. -/
def edge_label_of (g : Graph) (u v : String) : Option (Option JVal) :=
  (egGet g.edges (u, v)).map (·.elabel)

/-- The external-import classification rule of the data model:
a source is internal exactly when it starts with ".", "/" or the
configured source root. -/
def external_rule (root : String) (s : String) : Bool :=
  pyStartsWith s "." || pyStartsWith s "/" || pyStartsWith s root

/-- Grammar of well-formed annotation nodes (the documented reference /
union / intersection / array / tuple / keyword shapes, with an explicit
constructor for arbitrary other kind tags). -/
inductive Ann where
  | tag : String → Ann
  | ref : Option String → List Ann → Ann
  | union : List Ann → Ann
  | inter : List Ann → Ann
  | arrOf : Option Ann → Ann
  | tup : List Ann → Ann

def annNameToJVal : Option String → JVal
  | some n => .obj [("type", .str "Identifier"), ("name", .str n)]
  | none => .null

mutual

/-- Decodes an annotation-grammar node into its tree shape. -/
def annToJVal : Ann → JVal
  | .tag t => .obj [("type", .str t)]
  | .ref nm args =>
      .obj [("type", .str "TSTypeReference"),
            ("typeName", annNameToJVal nm),
            ("typeArguments", .obj [("params", .arr (annListToJVal args))])]
  | .union ts => .obj [("type", .str "TSUnionType"), ("types", .arr (annListToJVal ts))]
  | .inter ts =>
      .obj [("type", .str "TSIntersectionType"), ("types", .arr (annListToJVal ts))]
  | .arrOf e =>
      .obj (("type", .str "TSArrayType") ::
        (match e with | some a => [("elementType", annToJVal a)] | none => []))
  | .tup ts => .obj [("type", .str "TSTupleType"), ("elementTypes", .arr (annListToJVal ts))]

def annListToJVal : List Ann → List JVal
  | [] => []
  | a :: rest => annToJVal a :: annListToJVal rest

end

/-- The annotation wrapper the source reads through
(`node.get('typeAnnotation')`). -/
def wrapAnn (a : Ann) : JVal := .obj [("typeAnnotation", annToJVal a)]

/-- Kind tags for which get_type_annotation_str has a dedicated branch. -/
def structuredKinds : List String :=
  ["TSTypeReference", "TSUnionType", "TSIntersectionType", "TSTypeLiteral",
   "TSArrayType", "TSTupleType"]

mutual

/-- True when no node of the tree carries a `_parent_type` field. -/
def noPT : JVal → Bool
  | .obj fs => noPTF fs
  | .arr xs => noPTL xs
  | _ => true

def noPTF : List (String × JVal) → Bool
  | [] => true
  | (k, v) :: fs => (k != "_parent_type") && noPT v && noPTF fs

def noPTL : List JVal → Bool
  | [] => true
  | x :: xs => noPT x && noPTL xs

end

/-- Weakened marker-freedom used in the restoration invariant: every field
value of a mapping is marker-free, while the top-level keys themselves may
include the temporary marker. -/
def valsNoPT : JVal → Prop
  | .obj fs => ∀ kv ∈ fs, noPT kv.2 = true
  | _ => True

/-- File identities of a record map. -/
def fileIdsOf (d : List (String × FileRecord)) : List String := d.map (·.1)

/-- Entity keys of a record map, in processing order. -/
def entityKeysOf (d : List (String × FileRecord)) : List String :=
  (d.map (fun p => p.2.entities.map (·.1))).flatten

/-- Method keys of a record map, in processing order. -/
def methodKeysOf (d : List (String × FileRecord)) : List String :=
  (d.map (fun p => p.2.methods.map (·.1))).flatten

/-- All node identities the node phase materializes. -/
def allIdsOf (d : List (String × FileRecord)) : List String :=
  fileIdsOf d ++ entityKeysOf d ++ methodKeysOf d

/-- External import source strings of a record map, in processing order. -/
def extSourcesOf (d : List (String × FileRecord)) : List String :=
  (d.map (fun p => (p.2.imports.filter (·.is_external)).map (·.source))).flatten

/-- Internal consistency of one record, as the extractor produces it:
keys match the stored ids, methods point at entities of the same record,
and entity kinds are none of the reserved node types. -/
def record_ok (fid : String) (r : FileRecord) : Bool :=
  r.file_id == fid &&
  r.entities.all (fun p =>
    p.1 == p.2.entity_id && p.2.efile_id == fid &&
    p.2.ekind != "File" && p.2.ekind != "External" && p.2.ekind != "Method") &&
  r.methods.all (fun p =>
    p.1 == p.2.method_id && (r.entities.map (·.1)).contains p.2.mentity_id &&
    p.2.mentity_id != "") &&
  r.calls.all (fun p => (r.methods.map (·.1)).contains p.1) &&
  r.dependencies.all (fun p => (r.entities.map (·.1)).contains p.1)

/-- Collision-freedom and record consistency under which the identity
space of the built graph is unambiguous. -/
def wf_data (d : List (String × FileRecord)) : Prop :=
  (allIdsOf d).Nodup ∧
  (∀ p ∈ d, record_ok p.1 p.2 = true) ∧
  (∀ p ∈ d, ∀ imp ∈ p.2.imports, imp.is_external = true → imp.source ∉ allIdsOf d)

/-- The import-path resolver only ever answers with a known file id (the
behaviour of resolve_internal_path, which checks membership before
returning). -/
def resolver_ok (resolver : String → String → List String → Option String) : Prop :=
  ∀ fp src ids t, resolver fp src ids = some t → t ∈ ids

/-- One hop along a containment-type edge. -/
def restricted_step (g : Graph) (a b : String) : Prop :=
  ∃ e, egGet g.edges (a, b) = some e ∧
    (e.etype = "CONTAINS" ∨ e.etype = "CONTAINS_FUNC" ∨ e.etype = "HAS_METHOD")

/-- Reachability along containment-type edges. -/
def ReachR (g : Graph) : String → String → Prop :=
  Relation.ReflTransGen (restricted_step g)

/-- A node carrying the File type. -/
def is_file_node (g : Graph) (f : String) : Prop :=
  node_type_of g f = some "File"

/-- The always-failing import resolver (no internal import resolves). -/
def res_none : String → String → List String → Option String := fun _ _ _ => none

/-- Identity relativization (input paths already relative). -/
def rel_id : String → String := fun s => s

/-- Concrete record data: file a.ts declares class B with method go. -/
def ent_aB : Entity := ⟨"a.ts::B", .str "B", "Class", "a.ts", none, some [], none, none, none⟩

def meth_aBgo : Method :=
  ⟨"a.ts::B::go", .str "go", .str "method", "a.ts::B", .bool false, [], .str "any", none⟩

def rec_a : FileRecord :=
  ⟨"a.ts", "a.ts", [], [], [("a.ts::B", ent_aB)], [("a.ts::B::go", meth_aBgo)], [], [], []⟩

/-- Concrete record data: file b.ts declares class A (with constructor
dependency b : B and method m calling b.go()) and its own class B with
method go. -/
def ent_bB : Entity := ⟨"b.ts::B", .str "B", "Class", "b.ts", none, some [], none, none, none⟩

def meth_bBgo : Method :=
  ⟨"b.ts::B::go", .str "go", .str "method", "b.ts::B", .bool false, [], .str "any", none⟩

def ent_bA : Entity := ⟨"b.ts::A", .str "A", "Class", "b.ts", none, some [], none, none, none⟩

def meth_bAm : Method :=
  ⟨"b.ts::A::m", .str "m", .str "method", "b.ts::A", .bool false, [], .str "any", none⟩

def call_b_go : CallInfo := ⟨.str "b", .str "go", "()", false⟩

def rec_b : FileRecord :=
  ⟨"b.ts", "b.ts", [], [],
   [("b.ts::A", ent_bA), ("b.ts::B", ent_bB)],
   [("b.ts::A::m", meth_bAm), ("b.ts::B::go", meth_bBgo)],
   [("b.ts::A::m", [call_b_go])],
   [("b.ts::A", [⟨.str "b", .str "B", .null, .bool false⟩])], []⟩

/-- Two-file record map where the dependency type B has a same-named
entity in the owning file b.ts and in the earlier file a.ts. -/
def d_c1 : List (String × FileRecord) := [("a.ts", rec_a), ("b.ts", rec_b)]

/-- Single file whose class E has a method M calling this.n() although no
method n exists. -/
def ent_fE : Entity := ⟨"f.ts::E", .str "E", "Class", "f.ts", none, some [], none, none, none⟩

def meth_fEM : Method :=
  ⟨"f.ts::E::M", .str "M", .str "method", "f.ts::E", .bool false, [], .str "any", none⟩

def rec_f : FileRecord :=
  ⟨"f.ts", "f.ts", [], [], [("f.ts::E", ent_fE)], [("f.ts::E::M", meth_fEM)],
   [("f.ts::E::M", [⟨.str "this", .str "n", "()", false⟩])], [], []⟩

def d_c2 : List (String × FileRecord) := [("f.ts", rec_f)]

/-- Input whose top-level body is absent: the empty mapping. -/
def ast_c3 : JVal := .obj []

/-- Import declaration with one default-import specifier of local name n. -/
def ast_c4 : JVal := .obj [("type", .str "Program"), ("body", .arr [
  .obj [("type", .str "ImportDeclaration"),
        ("source", .obj [("type", .str "Literal"), ("value", .str "lodash")]),
        ("specifiers", .arr [
          .obj [("type", .str "ImportDefaultSpecifier"),
                ("local", .obj [("type", .str "Identifier"), ("name", .str "n")])]])]])]

/-- A file x/y.ts that imports the source string lib/a.ts externally and
also imports ../lib/a internally; the probe resolves the latter to the
known file id lib/a.ts. -/
def rec_lib : FileRecord := emptyRecord "lib/a.ts"

def rec_xy : FileRecord :=
  { emptyRecord "x/y.ts" with imports :=
      [⟨"lib/a.ts", [.str "A"], true⟩, ⟨"../lib/a", [.str "A"], false⟩] }

def d_c5 : List (String × FileRecord) := [("lib/a.ts", rec_lib), ("x/y.ts", rec_xy)]

/-- Resolver behaviour of resolve_internal_path on d_c5: probing ../lib/a
from x/y.ts yields the known id lib/a.ts. -/
def res_c5 : String → String → List String → Option String :=
  fun _ src ids => if src = "../lib/a" ∧ "lib/a.ts" ∈ ids then some "lib/a.ts" else none

/-- Mapping node whose typeAnnotation field holds a bare (truthy) string. -/
def ann_c6 : JVal := .obj [("typeAnnotation", .str "foo")]

/-- Program with one external and one internal import, for exercising the
classification rule. -/
def ast_c7 : JVal := .obj [("type", .str "Program"), ("body", .arr [
  .obj [("type", .str "ImportDeclaration"),
        ("source", .obj [("type", .str "Literal"), ("value", .str "lodash")]),
        ("specifiers", .arr [])],
  .obj [("type", .str "ImportDeclaration"),
        ("source", .obj [("type", .str "Literal"), ("value", .str "./util")]),
        ("specifiers", .arr [])]])]

/-- File lib/a.ts declares class A; file x.ts imports the source string
lib/a.ts, which is classified external yet equals the known file id. -/
def ent_libA : Entity :=
  ⟨"lib/a.ts::A", .str "A", "Class", "lib/a.ts", none, some [], none, none, none⟩

def rec_lib2 : FileRecord :=
  { emptyRecord "lib/a.ts" with entities := [("lib/a.ts::A", ent_libA)] }

def rec_x2 : FileRecord :=
  { emptyRecord "x.ts" with imports := [⟨"lib/a.ts", [.str "A"], true⟩] }

def d_c8 : List (String × FileRecord) := [("lib/a.ts", rec_lib2), ("x.ts", rec_x2)]

/-- The graph built from d_c8 (the collision input of the orphan claim). -/
def g_c8 : Graph := ((build_graph d_c8 res_none).getD (⟨[], []⟩, [])).1

/-- Well-formed single-file record map used as determinism witness data. -/
def d_c9 : List (String × FileRecord) := [("f.ts", rec_f)]

/-- Tree containing a pre-existing `_parent_type` field, which the walker
deletes. -/
def t_c10 : JVal :=
  .obj [("type", .str "P"), ("k", .obj [("_parent_type", .str "old")])]

/-- The graph built from d_c1 together with its diagnostics. -/
def gd_c1 : Graph × List String := (build_graph d_c1 res_none).getD (⟨[], []⟩, [])

/-- The graph built from d_c2 together with its diagnostics. -/
def gd_c2 : Graph × List String := (build_graph d_c2 res_none).getD (⟨[], []⟩, [])

/-- The graph built from d_c5 together with its diagnostics. -/
def gd_c5 : Graph × List String := (build_graph d_c5 res_c5).getD (⟨[], []⟩, [])

/-- Marker-free tree used as restoration witness data. -/
def t_w10 : JVal := .obj [("type", .str "X"), ("c", .obj [("type", .str "Y")])]

/-- The per-entity fold step of the node phase. -/
def enode_step (fid : String) (g : Graph) (p : String × Entity) : Graph :=
  addEdge (addNode g p.1 (entity_node_attrs fid p.2)) fid p.1 (plain_edge "CONTAINS")

/-- The per-method fold step of the node phase. -/
def mnode_step (fid : String) (g : Graph) (p : String × Method) : Graph :=
  let g1 := addNode g p.1 (method_node_attrs fid p.2)
  let eid := p.2.mentity_id
  if eid ≠ "" ∧ hasNode g1 eid = true then
    addEdge g1 eid p.1 (plain_edge "HAS_METHOD")
  else if fid ≠ "" then
    addEdge g1 fid p.1 (plain_edge "CONTAINS_FUNC")
  else g1

/-- The record that declares x as an entity (first in map order). -/
def entOwner (d : List (String × FileRecord)) (x : String) :
    Option (String × FileRecord) :=
  d.find? (fun p => (alGet p.2.entities x).isSome)

/-- The record that declares x as a method (first in map order). -/
def methOwner (d : List (String × FileRecord)) (x : String) :
    Option (String × FileRecord) :=
  d.find? (fun p => (alGet p.2.methods x).isSome)

/-- The node attributes the node phase gives identity x (none when x is
not an identity of the data). -/
def p1attr (d : List (String × FileRecord)) (x : String) : Option NodeAttrs :=
  match d.find? (fun p => p.1 == x) with
  | some p => some (file_node_attrs p.2 emptyAttrs)
  | none =>
    match entOwner d x with
    | some p => (alGet p.2.entities x).map (fun e => entity_node_attrs p.1 e emptyAttrs)
    | none =>
      match methOwner d x with
      | some p => (alGet p.2.methods x).map (fun m => method_node_attrs p.1 m emptyAttrs)
      | none => none

/-- The containment parent of identity x in the data: the declaring file
for an entity, the owning entity for a method. -/
def parentOf (d : List (String × FileRecord)) (x : String) : Option String :=
  match entOwner d x with
  | some p => some p.1
  | none =>
    match methOwner d x with
    | some p => (alGet p.2.methods x).map (·.mentity_id)
    | none => none

/-- The containment edge type into identity x. -/
def p1etype (d : List (String × FileRecord)) (x : String) : Option String :=
  match entOwner d x with
  | some _ => some "CONTAINS"
  | none =>
    match methOwner d x with
    | some _ => some "HAS_METHOD"
    | none => none

/-- Invariant of the edge phase: containment-pair edges keep their node
phase value, and every edge elsewhere carries a non-containment type. -/
def edges_inv (d : List (String × FileRecord)) (g : Graph) : Prop :=
  (∀ a b, parentOf d b = some a →
    egGet g.edges (a, b) = egGet (phase1_graph d).edges (a, b)) ∧
  (∀ a b e, parentOf d b ≠ some a → egGet g.edges (a, b) = some e →
    e.etype ≠ "CONTAINS" ∧ e.etype ≠ "CONTAINS_FUNC" ∧ e.etype ≠ "HAS_METHOD")

/-- Invariant of the edge phase: data identities keep their node-phase
attributes, and every other node is an External node for one of the
external import sources. -/
def nodes_inv (d : List (String × FileRecord)) (g : Graph) : Prop :=
  (∀ x, x ∈ allIdsOf d → alGet g.nodes x = alGet (phase1_graph d).nodes x) ∧
  (∀ x a, x ∉ allIdsOf d → alGet g.nodes x = some a →
    a.ntype = "External" ∧ x ∈ extSourcesOf d)

/-- The mark the edge phase leaves for one processed external import:
an External node for the source and the labeled IMPORTS_EXT edge from the
importing file. -/
def ext_mark (fid src lbl : String) (g : Graph) : Prop :=
  (∃ a, alGet g.nodes src = some a ∧ a.ntype = "External") ∧
  egGet g.edges (fid, src) = some ⟨"IMPORTS_EXT", some (.str lbl)⟩

/-- Every source in the seen set has its External node. -/
def seen_ok (st : BuildSt) : Prop :=
  ∀ s ∈ st.seen, ∃ a, alGet st.g.nodes s = some a ∧ a.ntype = "External"

theorem alGet_mem {α : Type} (l : List (String × α)) (k : String) (v : α)
    (h : alGet l k = some v) : k ∈ l.map (·.1) := by
  induction l with
  | nil => simp [alGet] at h
  | cons p rest ih =>
    simp only [alGet] at h
    by_cases hk : p.1 = k
    · simp [hk]
    · rw [if_neg hk] at h
      simp [ih h]

theorem egGet_mem (l : List ((String × String) × EdgeAttrs)) (k : String × String)
    (v : EdgeAttrs) (h : egGet l k = some v) : k ∈ l.map (·.1) := by
  induction l with
  | nil => simp [egGet] at h
  | cons p rest ih =>
    simp only [egGet] at h
    by_cases hk : p.1 = k
    · simp [hk]
    · rw [if_neg hk] at h
      simp [ih h]

/-- C9: graph assembly is a deterministic pure function of the extracted
record map (given equal path-resolution behaviour): equal inputs yield
equal node and edge sets. In this state-free embedding build_graph builds
its result afresh from its arguments, so no run can mutate a previous
run's graph in place. -/
theorem build_graph_deterministic (d d' : List (String × FileRecord))
    (r r' : String → String → List String → Option String)
    (hd : d = d') (hr : r = r') :
    build_graph d r = build_graph d' r' := by
  rw [hd, hr]

theorem build_graph_deterministic_witness :
    d_c9 = d_c9 ∧ build_graph d_c9 res_none = build_graph d_c9 res_none :=
  ⟨rfl, build_graph_deterministic d_c9 d_c9 res_none res_none rfl rfl⟩

/-- C3 counterexample: the empty mapping is an input whose top-level body
is absent, yet the extractor returns Python None — not an empty-but-valid
FileRecord — together with its diagnostic. -/
theorem extract_returns_none_on_empty_mapping :
    extract_features_from_ast 100 rel_id ast_c3 "p.ts" none =
      some (none, ["Invalid or empty AST data for p.ts"]) := by decide

/-- C3 (amended): a falsy or non-mapping input (which includes the empty
mapping) makes the extractor return None with a diagnostic, while a truthy
mapping whose body is absent or falsy yields the empty-but-valid record
(file_id set, all lists and maps empty) with a diagnostic; in both cases
the extractor returns normally, so the caller can continue the batch. -/
theorem extract_degrades_on_missing_body (fuel : Nat) (relativize : String → String)
    (ast : JVal) (path : String) (root : Option String) :
    (¬ (pyTruthy ast = true ∧ isObjB ast = true) →
      extract_features_from_ast fuel relativize ast path root =
        some (none, ["Invalid or empty AST data for " ++ path])) ∧
    (∀ fs, ast = .obj fs → pyTruthy ast = true →
      pyTruthy ((lookupF fs "body").getD (.arr [])) = false →
      extract_features_from_ast fuel relativize ast path root =
        some (some (emptyRecord (relativize path)),
          ["AST body is empty for " ++ path])) := by
  constructor
  · intro h
    unfold extract_features_from_ast
    have : (pyTruthy ast && isObjB ast) = false := by
      cases ht : pyTruthy ast
      · simp
      · cases ho : isObjB ast
        · simp
        · exact absurd ⟨ht, ho⟩ h
    simp [this]
  · intro fs hfs ht hb
    subst hfs
    unfold extract_features_from_ast
    have hobj : isObjB (JVal.obj fs) = true := rfl
    simp only [ht, hobj, Bool.and_self, Bool.true_and]
    simp [pyGetD, hb]

theorem extract_degrades_on_missing_body_witness :
    extract_features_from_ast 5 rel_id (.obj [("x", .null)]) "w.ts" none =
      some (some (emptyRecord "w.ts"), ["AST body is empty for w.ts"]) :=
  (extract_degrades_on_missing_body 5 rel_id (.obj [("x", .null)]) "w.ts" none).2
    [("x", .null)] rfl (by decide) (by decide)

/-- C4: at an import declaration carrying one default-import specifier of
local name n, the extracted specifier list is exactly ["n"]: the distinct
marker "default(n)" is absent, because the main specifier comprehension
already collected the local name and the dedup guard then suppresses the
marker. The import itself (source, external flag) is extracted normally. -/
theorem default_import_marker_missing :
    (extract_features_from_ast 100 rel_id ast_c4 "a.ts" none).map
        (fun p => p.1.map (·.imports)) =
      some (some [⟨"lodash", [.str "n"], true⟩]) := by decide

/-- C10 counterexample: on a tree that already contains a `_parent_type`
field the walker returns an altered tree — the field has been deleted —
so the tree is not always unchanged after the scan. -/
theorem extract_calls_mutates_marked_tree :
    extract_calls 10 t_c10 [] =
      some (.obj [("type", .str "P"), ("k", .obj [])], []) ∧
    (JVal.obj [("type", .str "P"), ("k", .obj [])]) ≠ t_c10 := by
  constructor
  · decide
  · decide

/-- C6 counterexample: a mapping node whose typeAnnotation field holds a
truthy non-mapping makes get_type_annotation_str raise (AttributeError on
`type_ann.get`), so the reconstruction is not total on all annotation
nodes. -/
theorem type_annotation_raises_on_malformed_node :
    get_type_annotation_str 10 ann_c6 = none := by decide

/-- C1 counterexample: in d_c1 the caller's entity b.ts::A declares the
dependency b of type B, and the owning file b.ts itself declares an entity
named B with method go; dependency-injection-style resolution would pick
b.ts::B, yet the CALLS edge of the call b.go() targets a.ts::B::go — the
first global match in record-map order — and no edge to b.ts::B::go
exists. -/
theorem call_dep_resolution_ignores_owning_file :
    (build_graph d_c1 res_none).map
        (fun p => (edge_type_of p.1 "b.ts::A::m" "a.ts::B::go",
                   edge_type_of p.1 "b.ts::A::m" "b.ts::B::go")) =
      some (some "CALLS", none) := by decide

/-- C2 counterexample: in d_c2 the method f.ts::E::M calls this.n() and E
has no method n; the built graph indeed contains no CALLS edge (its only
edges are the containment edges), but the diagnostics list is empty — no
diagnostic is recorded for the unresolved this-call. -/
theorem this_call_unresolved_no_diagnostic :
    (build_graph d_c2 res_none).map
        (fun p => (edge_type_of p.1 "f.ts::E::M" "f.ts::E::n",
                   p.1.edges.map (·.1), p.2)) =
      some (none, [("f.ts", "f.ts::E"), ("f.ts::E", "f.ts::E::M")], []) := by
  decide

/-- C5 counterexample: file x/y.ts imports the external source lib/a.ts
and also an internal path that resolves to the file id lib/a.ts; because
edges are keyed by their endpoint pair, the later internal import
overwrites the IMPORTS_EXT edge, so the importing file ends up with no
IMPORTS_EXT edge to the shared External node. -/
theorem external_import_edge_overwritten :
    (build_graph d_c5 res_c5).map
        (fun p => (edge_type_of p.1 "x/y.ts" "lib/a.ts",
                   node_type_of p.1 "lib/a.ts")) =
      some (some "IMPORTS_INT", some "External") := by decide

/-- C8 counterexample: in d_c8 the external import source string equals
the known file id lib/a.ts, so materializing the External node overwrites
the File node's type; the entity lib/a.ts::A (type Class, not External)
is then reachable from no File node at all — refuting reachability from
exactly one File node. -/
theorem orphan_entity_on_source_id_collision :
    build_graph d_c8 res_none = some (g_c8, []) ∧
    node_type_of g_c8 "lib/a.ts::A" = some "Class" ∧
    ¬ ∃ f, is_file_node g_c8 f ∧ ReachR g_c8 f "lib/a.ts::A" := by
  refine ⟨by decide, by decide, ?_⟩
  rintro ⟨f, hf, hre⟩
  obtain ⟨a, ha, hat⟩ : ∃ a, alGet g_c8.nodes f = some a ∧ a.ntype = "File" := by
    unfold is_file_node node_type_of at hf
    cases h : alGet g_c8.nodes f with
    | none => rw [h] at hf; simp at hf
    | some a =>
      rw [h] at hf
      simp at hf
      exact ⟨a, rfl, hf⟩
  have hmem := alGet_mem g_c8.nodes f a ha
  have hkeys : g_c8.nodes.map (·.1) = ["lib/a.ts", "lib/a.ts::A", "x.ts"] := by
    decide
  rw [hkeys] at hmem
  have hcases : f = "lib/a.ts" ∨ f = "lib/a.ts::A" ∨ f = "x.ts" := by
    simpa using hmem
  rcases hcases with h1 | h2 | h3
  · subst h1
    unfold is_file_node at hf
    revert hf
    decide
  · subst h2
    unfold is_file_node at hf
    revert hf
    decide
  · subst h3
    rcases Relation.ReflTransGen.cases_head hre with heq | ⟨c, hstep, _⟩
    · exact absurd heq (by decide)
    · obtain ⟨e, hege, ht⟩ := hstep
      have hedges : g_c8.edges =
          [(("lib/a.ts", "lib/a.ts::A"), ⟨"CONTAINS", none⟩),
           (("x.ts", "lib/a.ts"), ⟨"IMPORTS_EXT", some (.str "A")⟩)] := by decide
      rw [hedges] at hege
      by_cases hc : c = "lib/a.ts"
      · subst hc
        rw [show (egGet
            [(("lib/a.ts", "lib/a.ts::A"), (⟨"CONTAINS", none⟩ : EdgeAttrs)),
             (("x.ts", "lib/a.ts"), ⟨"IMPORTS_EXT", some (.str "A")⟩)]
            ("x.ts", "lib/a.ts")) =
          some (⟨"IMPORTS_EXT", some (.str "A")⟩ : EdgeAttrs) from by decide] at hege
        simp only [Option.some.injEq] at hege
        subst hege
        rcases ht with ht | ht | ht <;> revert ht <;> decide
      · have h1 : (("lib/a.ts", "lib/a.ts::A") : String × String) ≠ ("x.ts", c) := by
          intro hq
          rw [Prod.mk.injEq] at hq
          exact absurd hq.1 (by decide)
        have h2 : (("x.ts", "lib/a.ts") : String × String) ≠ ("x.ts", c) := by
          intro hq
          rw [Prod.mk.injEq] at hq
          exact hc hq.2.symm
        simp only [egGet, if_neg h1, if_neg h2] at hege
        exact absurd hege (by simp)

theorem lookupF_mem (fs : List (String × JVal)) (k : String) (w : JVal)
    (h : lookupF fs k = some w) : (k, w) ∈ fs := by
  induction fs with
  | nil => simp [lookupF] at h
  | cons p rest ih =>
    simp only [lookupF] at h
    by_cases hk : p.1 = k
    · rw [if_pos hk] at h
      simp only [Option.some.injEq] at h
      obtain ⟨pk, pv⟩ := p
      dsimp at hk h
      subst hk
      subst h
      exact List.mem_cons_self _ _
    · rw [if_neg hk] at h
      exact List.mem_cons_of_mem _ (ih h)

theorem noPT_obj_vals (ws : List (String × JVal)) (h : noPT (.obj ws) = true) :
    (∀ kv ∈ ws, noPT kv.2 = true) ∧ ("_parent_type" ∉ ws.map (·.1)) := by
  simp only [noPT] at h
  induction ws with
  | nil => simp
  | cons p rest ih =>
    simp only [noPTF, Bool.and_eq_true, bne_iff_ne] at h
    obtain ⟨⟨hk, hv⟩, hrest⟩ := h
    obtain ⟨ih1, ih2⟩ := ih hrest
    constructor
    · intro kv hkv
      cases hkv with
      | head => exact hv
      | tail _ hm => exact ih1 _ hm
    · simp only [List.map_cons, List.mem_cons]
      rintro (he | hm)
      · exact hk he.symm
      · exact ih2 hm

theorem noPT_arr_elems (xs : List JVal) (h : noPT (.arr xs) = true) :
    ∀ x ∈ xs, noPT x = true := by
  simp only [noPT] at h
  induction xs with
  | nil => simp
  | cons y rest ih =>
    simp only [noPTL, Bool.and_eq_true] at h
    intro x hx
    cases hx with
    | head => exact h.1
    | tail _ hm => exact ih h.2 _ hm

theorem setKeyF_absent (ws : List (String × JVal)) (k : String) (pt : JVal)
    (h : k ∉ ws.map (·.1)) : setKeyF ws k pt = ws ++ [(k, pt)] := by
  induction ws with
  | nil => rfl
  | cons p rest ih =>
    simp only [List.map_cons, List.mem_cons] at h
    push_neg at h
    have hne : p.1 ≠ k := fun hq => h.1 hq.symm
    simp only [setKeyF, if_neg hne, List.cons_append]
    rw [ih h.2]

theorem delKeyF_append_absent (ws : List (String × JVal)) (k : String) (pt : JVal)
    (h : k ∉ ws.map (·.1)) : delKeyF (ws ++ [(k, pt)]) k = ws := by
  induction ws with
  | nil => simp [delKeyF]
  | cons p rest ih =>
    obtain ⟨pk, pv⟩ := p
    simp only [List.map_cons, List.mem_cons] at h
    push_neg at h
    have hne : pk ≠ k := fun hq => h.1 hq.symm
    dsimp at hne h
    show delKeyF ((pk, pv) :: (rest ++ [(k, pt)])) k = (pk, pv) :: rest
    simp only [delKeyF, if_neg hne]
    rw [ih h.2]

theorem valsNoPT_of_noPT (v : JVal) (h : noPT v = true) : valsNoPT v := by
  cases v with
  | obj fs => exact (noPT_obj_vals fs h).1
  | null => trivial
  | bool b => trivial
  | int n => trivial
  | str s => trivial
  | arr xs => trivial

theorem walk_items_restores
    (visit : JVal → List CallInfo → Option (JVal × List CallInfo))
    (hvisit : ∀ v cs res, valsNoPT v → visit v cs = some res → res.1 = v)
    (ntv : JVal) (hntv : noPT ntv = true) :
    ∀ its cs res, (∀ x ∈ its, noPT x = true) →
      walk_items visit ntv its cs = some res → res.1 = its := by
  intro its
  induction its with
  | nil =>
    intro cs res _ h
    simp only [walk_items, Option.some.injEq] at h
    rw [← h]
  | cons it rest ih =>
    intro cs res hall h
    have hit : noPT it = true := hall it (List.mem_cons_self _ _)
    have hrest : ∀ x ∈ rest, noPT x = true :=
      fun x hx => hall x (List.mem_cons_of_mem _ hx)
    cases it with
    | obj ws =>
      obtain ⟨hvals, hkeys2⟩ := noPT_obj_vals ws hit
      simp only [walk_items] at h
      rw [setKeyF_absent ws "_parent_type" ntv hkeys2] at h
      cases hv : visit (.obj (ws ++ [("_parent_type", ntv)])) cs with
      | none => rw [hv] at h; exact absurd h (by simp)
      | some r1 =>
        obtain ⟨r11, r12⟩ := r1
        have hr11 : r11 = .obj (ws ++ [("_parent_type", ntv)]) := by
          have hvn : valsNoPT (JVal.obj (ws ++ [("_parent_type", ntv)])) := by
            intro kv hkv
            rcases List.mem_append.mp hkv with hm | hm
            · exact hvals kv hm
            · have : kv = ("_parent_type", ntv) := by simpa using hm
              rw [this]
              exact hntv
          exact hvisit _ _ _ hvn hv
        subst hr11
        rw [hv] at h
        dsimp only at h
        rw [delKeyF_append_absent ws "_parent_type" ntv hkeys2] at h
        cases hw : walk_items visit ntv rest r12 with
        | none => rw [hw] at h; exact absurd h (by simp)
        | some r2 =>
          rw [hw] at h
          dsimp only at h
          simp only [Option.some.injEq] at h
          rw [← h]
          simp [ih r12 r2 hrest hw]
    | null =>
      simp only [walk_items] at h
      cases hw : walk_items visit ntv rest cs with
      | none => rw [hw] at h; exact absurd h (by simp)
      | some r2 =>
        rw [hw] at h
        dsimp only at h
        simp only [Option.some.injEq] at h
        rw [← h]
        simp [ih cs r2 hrest hw]
    | bool b =>
      simp only [walk_items] at h
      cases hw : walk_items visit ntv rest cs with
      | none => rw [hw] at h; exact absurd h (by simp)
      | some r2 =>
        rw [hw] at h
        dsimp only at h
        simp only [Option.some.injEq] at h
        rw [← h]
        simp [ih cs r2 hrest hw]
    | int n =>
      simp only [walk_items] at h
      cases hw : walk_items visit ntv rest cs with
      | none => rw [hw] at h; exact absurd h (by simp)
      | some r2 =>
        rw [hw] at h
        dsimp only at h
        simp only [Option.some.injEq] at h
        rw [← h]
        simp [ih cs r2 hrest hw]
    | str s =>
      simp only [walk_items] at h
      cases hw : walk_items visit ntv rest cs with
      | none => rw [hw] at h; exact absurd h (by simp)
      | some r2 =>
        rw [hw] at h
        dsimp only at h
        simp only [Option.some.injEq] at h
        rw [← h]
        simp [ih cs r2 hrest hw]
    | arr xs =>
      simp only [walk_items] at h
      cases hw : walk_items visit ntv rest cs with
      | none => rw [hw] at h; exact absurd h (by simp)
      | some r2 =>
        rw [hw] at h
        dsimp only at h
        simp only [Option.some.injEq] at h
        rw [← h]
        simp [ih cs r2 hrest hw]

theorem walk_fields_restores
    (visit : JVal → List CallInfo → Option (JVal × List CallInfo))
    (hvisit : ∀ v cs res, valsNoPT v → visit v cs = some res → res.1 = v)
    (ntv : JVal) (hntv : noPT ntv = true) :
    ∀ fs cs res, (∀ kv ∈ fs, noPT kv.2 = true) →
      walk_fields visit ntv fs cs = some res → res.1 = fs := by
  intro fs
  induction fs with
  | nil =>
    intro cs res _ h
    simp only [walk_fields, Option.some.injEq] at h
    rw [← h]
  | cons kw rest ih =>
    intro cs res hall h
    obtain ⟨k, w⟩ := kw
    have hw0 : noPT w = true := hall (k, w) (List.mem_cons_self _ _)
    have hrest : ∀ kv ∈ rest, noPT kv.2 = true :=
      fun kv hkv => hall kv (List.mem_cons_of_mem _ hkv)
    simp only [walk_fields] at h
    by_cases hk : k = "range" ∨ k = "loc" ∨ k = "decorators"
    · rw [if_pos hk] at h
      cases hwf : walk_fields visit ntv rest cs with
      | none => rw [hwf] at h; exact absurd h (by simp)
      | some r2 =>
        rw [hwf] at h
        dsimp only at h
        simp only [Option.some.injEq] at h
        rw [← h]
        simp [ih cs r2 hrest hwf]
    · rw [if_neg hk] at h
      cases w with
      | obj ws =>
        dsimp only at h
        obtain ⟨hvals, hkeys2⟩ := noPT_obj_vals ws hw0
        rw [setKeyF_absent ws "_parent_type" ntv hkeys2] at h
        cases hv : visit (.obj (ws ++ [("_parent_type", ntv)])) cs with
        | none => rw [hv] at h; exact absurd h (by simp)
        | some r1 =>
          obtain ⟨r11, r12⟩ := r1
          have hr11 : r11 = .obj (ws ++ [("_parent_type", ntv)]) := by
            have hvn : valsNoPT (JVal.obj (ws ++ [("_parent_type", ntv)])) := by
              intro kv hkv
              rcases List.mem_append.mp hkv with hm | hm
              · exact hvals kv hm
              · have : kv = ("_parent_type", ntv) := by simpa using hm
                rw [this]
                exact hntv
            exact hvisit _ _ _ hvn hv
          subst hr11
          rw [hv] at h
          dsimp only at h
          rw [delKeyF_append_absent ws "_parent_type" ntv hkeys2] at h
          cases hwf : walk_fields visit ntv rest r12 with
          | none => rw [hwf] at h; exact absurd h (by simp)
          | some r2 =>
            rw [hwf] at h
            dsimp only at h
            simp only [Option.some.injEq] at h
            rw [← h]
            simp [ih r12 r2 hrest hwf]
      | arr items =>
        dsimp only at h
        have helems : ∀ x ∈ items, noPT x = true := noPT_arr_elems items hw0
        cases hwi : walk_items visit ntv items cs with
        | none => rw [hwi] at h; exact absurd h (by simp)
        | some r1 =>
          obtain ⟨items2, cs2⟩ := r1
          have hi : items2 = items :=
            walk_items_restores visit hvisit ntv hntv items cs (items2, cs2)
              helems hwi
          rw [hwi] at h
          dsimp only at h
          cases hwf : walk_fields visit ntv rest cs2 with
          | none => rw [hwf] at h; exact absurd h (by simp)
          | some r2 =>
            rw [hwf] at h
            dsimp only at h
            simp only [Option.some.injEq] at h
            rw [← h]
            simp [ih cs2 r2 hrest hwf, hi]
      | null =>
        cases hwf : walk_fields visit ntv rest cs with
        | none => rw [hwf] at h; exact absurd h (by simp)
        | some r2 =>
          rw [hwf] at h
          dsimp only at h
          simp only [Option.some.injEq] at h
          rw [← h]
          simp [ih cs r2 hrest hwf]
      | bool b =>
        cases hwf : walk_fields visit ntv rest cs with
        | none => rw [hwf] at h; exact absurd h (by simp)
        | some r2 =>
          rw [hwf] at h
          dsimp only at h
          simp only [Option.some.injEq] at h
          rw [← h]
          simp [ih cs r2 hrest hwf]
      | int n =>
        cases hwf : walk_fields visit ntv rest cs with
        | none => rw [hwf] at h; exact absurd h (by simp)
        | some r2 =>
          rw [hwf] at h
          dsimp only at h
          simp only [Option.some.injEq] at h
          rw [← h]
          simp [ih cs r2 hrest hwf]
      | str s =>
        cases hwf : walk_fields visit ntv rest cs with
        | none => rw [hwf] at h; exact absurd h (by simp)
        | some r2 =>
          rw [hwf] at h
          dsimp only at h
          simp only [Option.some.injEq] at h
          rw [← h]
          simp [ih cs r2 hrest hwf]

theorem extract_calls_restore_aux : ∀ (fuel : Nat) (v : JVal)
    (cs : List CallInfo) (res : JVal × List CallInfo),
    valsNoPT v → extract_calls fuel v cs = some res → res.1 = v := by
  intro fuel
  induction fuel with
  | zero =>
    intro v cs res _ h
    simp [extract_calls] at h
  | succ fuel ih =>
    intro v cs res hv h
    cases v with
    | obj fs =>
      simp only [extract_calls] at h
      have hntv : noPT ((lookupF fs "type").getD .null) = true := by
        cases hl : lookupF fs "type" with
        | none => simp [hl, noPT]
        | some w =>
          have hm := lookupF_mem fs "type" w hl
          have := hv _ hm
          simpa [hl] using this
      cases hcs1 : (if (lookupF fs "type").getD .null = .str "CallExpression"
          then call_record_step fuel (.obj fs) cs else some cs) with
      | none => rw [hcs1] at h; exact absurd h (by simp)
      | some cs1 =>
        rw [hcs1] at h
        dsimp only at h
        cases hwf : walk_fields (extract_calls fuel) ((lookupF fs "type").getD .null)
            fs cs1 with
        | none => rw [hwf] at h; exact absurd h (by simp)
        | some r2 =>
          obtain ⟨fs2, cs2⟩ := r2
          have hfs2 : fs2 = fs :=
            walk_fields_restores (extract_calls fuel) ih
              ((lookupF fs "type").getD .null) hntv fs cs1 (fs2, cs2) hv hwf
          rw [hwf] at h
          dsimp only at h
          simp only [Option.some.injEq] at h
          rw [← h]
          simp [hfs2]
    | null =>
      simp only [extract_calls, Option.some.injEq] at h
      rw [← h]
    | bool b =>
      simp only [extract_calls, Option.some.injEq] at h
      rw [← h]
    | int n =>
      simp only [extract_calls, Option.some.injEq] at h
      rw [← h]
    | str s =>
      simp only [extract_calls, Option.some.injEq] at h
      rw [← h]
    | arr xs =>
      simp only [extract_calls, Option.some.injEq] at h
      rw [← h]

/-- C10 (amended): the call-site scanner determines is_await by reading a
temporary `_parent_type` marker that the walker mutates into each child
before descending and deletes afterwards — node mutation rather than an
immutable threaded parent context. For every input tree none of whose
nodes carries a `_parent_type` field, the tree returned after the scan
equals the original; trees that do carry such fields may be altered (the
fields are stripped). -/
theorem extract_calls_restores_unmarked_tree (fuel : Nat) (t : JVal)
    (cs : List CallInfo) (res : JVal × List CallInfo)
    (hpt : noPT t = true) (h : extract_calls fuel t cs = some res) :
    res.1 = t :=
  extract_calls_restore_aux fuel t cs res (valsNoPT_of_noPT t hpt) h

theorem extract_calls_restores_unmarked_tree_witness :
    noPT t_w10 = true ∧
    ∃ res, extract_calls 5 t_w10 [] = some res ∧ res.1 = t_w10 :=
  ⟨by decide, ⟨(t_w10, []), by decide,
    extract_calls_restores_unmarked_tree 5 t_w10 [] (t_w10, [])
      (by decide) (by decide)⟩⟩

theorem gta_no_wrapper (fuel : Nat) (fs : List (String × JVal))
    (h1 : lookupF fs "typeAnnotation" = none)
    (h2 : lookupF fs "parameter" = none)
    (h3 : lookupF fs "id" = none) :
    get_type_annotation_str (fuel + 1) (.obj fs) = some (.str "any") := by
  cases fs with
  | nil => rfl
  | cons p rest =>
    have ht : pyTruthy (.obj (p :: rest)) = true := by simp [pyTruthy]
    have hres : resolveTA (.obj (p :: rest)) = some .null := by
      unfold resolveTA
      simp only [pyGet, pyGetD, h1, h2, h3, Option.getD_none]
      rfl
    simp only [get_type_annotation_str, ht]
    simp [hres, pyTruthy]

theorem annToJVal_truthy (a : Ann) : pyTruthy (annToJVal a) = true := by
  cases a with
  | tag t => rfl
  | ref nm args => rfl
  | union ts => rfl
  | inter ts => rfl
  | arrOf e => cases e <;> rfl
  | tup ts => rfl

theorem gta_ann_unwrapped (fuel : Nat) (a : Ann) :
    get_type_annotation_str (fuel + 1) (annToJVal a) = some (.str "any") := by
  cases a with
  | tag t => exact gta_no_wrapper fuel _ rfl rfl rfl
  | ref nm args => exact gta_no_wrapper fuel _ rfl rfl rfl
  | union ts => exact gta_no_wrapper fuel _ rfl rfl rfl
  | inter ts => exact gta_no_wrapper fuel _ rfl rfl rfl
  | arrOf e =>
    cases e with
    | none => exact gta_no_wrapper fuel _ rfl rfl rfl
    | some a2 => exact gta_no_wrapper fuel _ rfl rfl rfl
  | tup ts => exact gta_no_wrapper fuel _ rfl rfl rfl

theorem mapM_gta_anylist (fuel : Nat) : ∀ (xs : List Ann),
    (annListToJVal xs).mapM (get_type_annotation_str (fuel + 1)) =
      some ((annListToJVal xs).map (fun _ => JVal.str "any")) := by
  intro xs
  induction xs with
  | nil => rfl
  | cons a rest ih =>
    simp only [annListToJVal, List.mapM_cons, gta_ann_unwrapped fuel a, ih,
      Option.pure_def, Option.bind_some, Option.bind_eq_bind, List.map_cons]
    rfl

theorem pyJoin_all_str (sep : String) : ∀ (xs : List JVal),
    (∀ x ∈ xs, ∃ s, x = .str s) → ∃ j, pyJoin sep xs = some j := by
  intro xs
  induction xs with
  | nil => exact fun _ => ⟨"", rfl⟩
  | cons x rest ih =>
    intro hall
    obtain ⟨s, hs⟩ := hall x (List.mem_cons_self _ _)
    subst hs
    cases rest with
    | nil => exact ⟨s, rfl⟩
    | cons y rest2 =>
      obtain ⟨j, hj⟩ := ih (fun z hz => hall z (List.mem_cons_of_mem _ hz))
      refine ⟨s ++ sep ++ j, ?_⟩
      simp only [pyJoin, hj, Option.map_some]
      rfl

theorem map_const_any_all_str (xs : List JVal) :
    ∀ x ∈ xs.map (fun _ => JVal.str "any"), ∃ s, x = .str s := by
  intro x hx
  obtain ⟨y, _, hy⟩ := List.mem_map.mp hx
  exact ⟨"any", hy.symm⟩

theorem gta_wrap_tag (fuel : Nat) (t : String) :
    ∃ s : String,
      get_type_annotation_str (fuel + 2) (wrapAnn (Ann.tag t)) = some (.str s) := by
  show ∃ s, get_type_annotation_str (Nat.succ (fuel + 1)) (wrapAnn (Ann.tag t)) =
    some (.str s)
  rw [get_type_annotation_str.eq_def]
  dsimp only
  rw [show resolveTA (wrapAnn (Ann.tag t)) = some (JVal.obj [("type", JVal.str t)]) from rfl]
  simp only [show pyTruthy (wrapAnn (Ann.tag t)) = true from rfl,
    show pyTruthy (JVal.obj [("type", JVal.str t)]) = true from rfl,
    show pyGet (JVal.obj [("type", JVal.str t)]) "type" = some (JVal.str t) from rfl,
    Bool.true_eq_false, if_false, ite_false]
  split_ifs with h1 h2 h3 h4 h5 h6 h7
  · subst h1; exact ⟨"unknown", rfl⟩
  · exact ⟨pyToLower (pyReplace (pyReplace t "Keyword" "") "TS" ""), rfl⟩
  · subst h3; exact ⟨"", rfl⟩
  · subst h4; exact ⟨"", rfl⟩
  · subst h5; exact ⟨"\x7b...\x7d", rfl⟩
  · subst h6; exact ⟨"any[]", rfl⟩
  · subst h7; exact ⟨"[]", rfl⟩
  · exact ⟨"any", rfl⟩

theorem mapM_loop_gta (fuel : Nat) : ∀ (xs : List Ann) (acc : List JVal),
    List.mapM.loop (get_type_annotation_str (fuel + 1)) (annListToJVal xs) acc =
      some (acc.reverse ++ (annListToJVal xs).map (fun _ => JVal.str "any")) := by
  intro xs
  induction xs with
  | nil => intro acc; simp [List.mapM.loop, annListToJVal]
  | cons a rest ih =>
    intro acc
    simp only [annListToJVal, List.mapM.loop, gta_ann_unwrapped fuel a, Option.bind_eq_bind,
      Option.some_bind, ih, List.reverse_cons, List.map_cons, List.append_assoc,
      List.cons_append, List.nil_append]

theorem gta_wrap_ref (fuel : Nat) (nm : Option String) (args : List Ann) :
    ∃ s : String,
      get_type_annotation_str (fuel + 2) (wrapAnn (Ann.ref nm args)) = some (.str s) := by
  obtain ⟨nv, hnv, hnn⟩ :
      ∃ nv : JVal, get_node_name (fuel + 1) (annNameToJVal nm) = some nv ∧
        (nv = .null ∨ ∃ n : String, nv = .str n) := by
    cases nm with
    | none => exact ⟨.null, rfl, Or.inl rfl⟩
    | some n => exact ⟨.str n, rfl, Or.inr ⟨n, rfl⟩⟩
  cases args with
  | nil =>
    show ∃ s, get_type_annotation_str (Nat.succ (fuel + 1)) (wrapAnn (Ann.ref nm [])) =
      some (.str s)
    rw [get_type_annotation_str.eq_def]
    dsimp only
    rw [show resolveTA (wrapAnn (Ann.ref nm [])) = some (annToJVal (Ann.ref nm [])) from rfl]
    simp [show pyTruthy (wrapAnn (Ann.ref nm [])) = true from rfl,
      show pyTruthy (annToJVal (Ann.ref nm [])) = true from rfl,
      show pyGet (annToJVal (Ann.ref nm [])) "type" = some (JVal.str "TSTypeReference") from rfl,
      show pyGet (annToJVal (Ann.ref nm [])) "typeName" = some (annNameToJVal nm) from rfl,
      hnv,
      show pyGetD (annToJVal (Ann.ref nm [])) "typeArguments" (JVal.obj []) =
        some (JVal.obj [("params", JVal.arr [])]) from rfl,
      show pyGetD (JVal.obj [("params", JVal.arr [])]) "params" (JVal.arr []) =
        some (JVal.arr []) from rfl,
      show pyTruthy (JVal.arr []) = false from rfl]
    rcases hnn with h | ⟨n, h⟩
    · subst h; exact ⟨"unknown", by simp [pyTruthy]⟩
    · subst h
      by_cases hb : pyTruthy (JVal.str n) = true
      · exact ⟨n, by simp [hb]⟩
      · exact ⟨"unknown", by simp [hb]⟩
  | cons a0 rest =>
    obtain ⟨j, hj⟩ := pyJoin_all_str ", "
      (List.replicate (annListToJVal (a0 :: rest)).length (JVal.str "any"))
      (fun x hx => ⟨"any", List.eq_of_mem_replicate hx⟩)
    refine ⟨pyStr nv ++ "<" ++ j ++ ">", ?_⟩
    show get_type_annotation_str (Nat.succ (fuel + 1)) (wrapAnn (Ann.ref nm (a0 :: rest))) = _
    rw [get_type_annotation_str.eq_def]
    dsimp only
    rw [show resolveTA (wrapAnn (Ann.ref nm (a0 :: rest))) =
      some (annToJVal (Ann.ref nm (a0 :: rest))) from rfl]
    simp [show pyTruthy (wrapAnn (Ann.ref nm (a0 :: rest))) = true from rfl,
      show pyTruthy (annToJVal (Ann.ref nm (a0 :: rest))) = true from rfl,
      show pyGet (annToJVal (Ann.ref nm (a0 :: rest))) "type" =
        some (JVal.str "TSTypeReference") from rfl,
      show pyGet (annToJVal (Ann.ref nm (a0 :: rest))) "typeName" =
        some (annNameToJVal nm) from rfl,
      hnv,
      show pyGetD (annToJVal (Ann.ref nm (a0 :: rest))) "typeArguments" (JVal.obj []) =
        some (JVal.obj [("params", JVal.arr (annListToJVal (a0 :: rest)))]) from rfl,
      show pyGetD (JVal.obj [("params", JVal.arr (annListToJVal (a0 :: rest)))]) "params"
        (JVal.arr []) = some (JVal.arr (annListToJVal (a0 :: rest))) from rfl,
      show pyTruthy (JVal.arr (annListToJVal (a0 :: rest))) = true from rfl,
      show pyIter (JVal.arr (annListToJVal (a0 :: rest))) =
        some (annListToJVal (a0 :: rest)) from rfl,
      mapM_loop_gta fuel (a0 :: rest),
      show tsArgFix (JVal.str "any") = JVal.str "any" from rfl,
      hj]

theorem gta_wrap_union (fuel : Nat) (ts : List Ann) :
    ∃ s : String,
      get_type_annotation_str (fuel + 2) (wrapAnn (Ann.union ts)) = some (.str s) := by
  cases ts with
  | nil => exact ⟨"", rfl⟩
  | cons a0 rest =>
    obtain ⟨j, hj⟩ := pyJoin_all_str " | "
      (List.replicate (annListToJVal (a0 :: rest)).length (JVal.str "any"))
      (fun x hx => ⟨"any", List.eq_of_mem_replicate hx⟩)
    refine ⟨j, ?_⟩
    show get_type_annotation_str (Nat.succ (fuel + 1)) (wrapAnn (Ann.union (a0 :: rest))) = _
    rw [get_type_annotation_str.eq_def]
    dsimp only
    rw [show resolveTA (wrapAnn (Ann.union (a0 :: rest))) =
      some (annToJVal (Ann.union (a0 :: rest))) from rfl]
    simp [show pyTruthy (wrapAnn (Ann.union (a0 :: rest))) = true from rfl,
      show pyTruthy (annToJVal (Ann.union (a0 :: rest))) = true from rfl,
      show pyGet (annToJVal (Ann.union (a0 :: rest))) "type" =
        some (JVal.str "TSUnionType") from rfl,
      show recognizedKeywords.contains "TSUnionType" = false from rfl,
      show pyGetD (annToJVal (Ann.union (a0 :: rest))) "types" (JVal.arr []) =
        some (JVal.arr (annListToJVal (a0 :: rest))) from rfl,
      show pyIter (JVal.arr (annListToJVal (a0 :: rest))) =
        some (annListToJVal (a0 :: rest)) from rfl,
      mapM_loop_gta fuel (a0 :: rest),
      hj]
    intro hmem
    exact absurd hmem (by decide)

theorem gta_wrap_inter (fuel : Nat) (ts : List Ann) :
    ∃ s : String,
      get_type_annotation_str (fuel + 2) (wrapAnn (Ann.inter ts)) = some (.str s) := by
  cases ts with
  | nil => exact ⟨"", rfl⟩
  | cons a0 rest =>
    obtain ⟨j, hj⟩ := pyJoin_all_str " & "
      (List.replicate (annListToJVal (a0 :: rest)).length (JVal.str "any"))
      (fun x hx => ⟨"any", List.eq_of_mem_replicate hx⟩)
    refine ⟨j, ?_⟩
    show get_type_annotation_str (Nat.succ (fuel + 1)) (wrapAnn (Ann.inter (a0 :: rest))) = _
    rw [get_type_annotation_str.eq_def]
    dsimp only
    rw [show resolveTA (wrapAnn (Ann.inter (a0 :: rest))) =
      some (annToJVal (Ann.inter (a0 :: rest))) from rfl]
    simp [show pyTruthy (wrapAnn (Ann.inter (a0 :: rest))) = true from rfl,
      show pyTruthy (annToJVal (Ann.inter (a0 :: rest))) = true from rfl,
      show pyGet (annToJVal (Ann.inter (a0 :: rest))) "type" =
        some (JVal.str "TSIntersectionType") from rfl,
      show recognizedKeywords.contains "TSIntersectionType" = false from rfl,
      show pyGetD (annToJVal (Ann.inter (a0 :: rest))) "types" (JVal.arr []) =
        some (JVal.arr (annListToJVal (a0 :: rest))) from rfl,
      show pyIter (JVal.arr (annListToJVal (a0 :: rest))) =
        some (annListToJVal (a0 :: rest)) from rfl,
      mapM_loop_gta fuel (a0 :: rest),
      hj]
    intro hmem
    exact absurd hmem (by decide)

theorem gta_wrap_tup (fuel : Nat) (ts : List Ann) :
    ∃ s : String,
      get_type_annotation_str (fuel + 2) (wrapAnn (Ann.tup ts)) = some (.str s) := by
  cases ts with
  | nil => exact ⟨"[]", rfl⟩
  | cons a0 rest =>
    obtain ⟨j, hj⟩ := pyJoin_all_str ", "
      (List.replicate (annListToJVal (a0 :: rest)).length (JVal.str "any"))
      (fun x hx => ⟨"any", List.eq_of_mem_replicate hx⟩)
    refine ⟨"[" ++ j ++ "]", ?_⟩
    show get_type_annotation_str (Nat.succ (fuel + 1)) (wrapAnn (Ann.tup (a0 :: rest))) = _
    rw [get_type_annotation_str.eq_def]
    dsimp only
    rw [show resolveTA (wrapAnn (Ann.tup (a0 :: rest))) =
      some (annToJVal (Ann.tup (a0 :: rest))) from rfl]
    simp [show pyTruthy (wrapAnn (Ann.tup (a0 :: rest))) = true from rfl,
      show pyTruthy (annToJVal (Ann.tup (a0 :: rest))) = true from rfl,
      show pyGet (annToJVal (Ann.tup (a0 :: rest))) "type" =
        some (JVal.str "TSTupleType") from rfl,
      show recognizedKeywords.contains "TSTupleType" = false from rfl,
      show pyGetD (annToJVal (Ann.tup (a0 :: rest))) "elementTypes" (JVal.arr []) =
        some (JVal.arr (annListToJVal (a0 :: rest))) from rfl,
      show pyIter (JVal.arr (annListToJVal (a0 :: rest))) =
        some (annListToJVal (a0 :: rest)) from rfl,
      mapM_loop_gta fuel (a0 :: rest),
      hj]
    intro hmem
    exact absurd hmem (by decide)

theorem gta_wrap_arrOf (fuel : Nat) (e : Option Ann) :
    ∃ s : String,
      get_type_annotation_str (fuel + 2) (wrapAnn (Ann.arrOf e)) = some (.str s) := by
  cases e with
  | none => exact ⟨"any[]", rfl⟩
  | some a2 =>
    refine ⟨"any[]", ?_⟩
    show get_type_annotation_str (Nat.succ (fuel + 1)) (wrapAnn (Ann.arrOf (some a2))) = _
    rw [get_type_annotation_str.eq_def]
    dsimp only
    rw [show resolveTA (wrapAnn (Ann.arrOf (some a2))) =
      some (annToJVal (Ann.arrOf (some a2))) from rfl]
    simp [show pyTruthy (wrapAnn (Ann.arrOf (some a2))) = true from rfl,
      show pyTruthy (annToJVal (Ann.arrOf (some a2))) = true from rfl,
      show pyGet (annToJVal (Ann.arrOf (some a2))) "type" =
        some (JVal.str "TSArrayType") from rfl,
      show recognizedKeywords.contains "TSArrayType" = false from rfl,
      show pyGet (annToJVal (Ann.arrOf (some a2))) "elementType" =
        some (annToJVal a2) from rfl,
      gta_ann_unwrapped fuel a2,
      show pyStr (JVal.str "any") = "any" from rfl]
    intro hmem
    exact absurd hmem (by decide)

theorem gta_wrap_tag_default (fuel : Nat) (t : String)
    (h1 : t ∉ structuredKinds) (h2 : t ∉ recognizedKeywords) :
    get_type_annotation_str (fuel + 2) (wrapAnn (Ann.tag t)) = some (.str "any") := by
  show get_type_annotation_str (Nat.succ (fuel + 1)) (wrapAnn (Ann.tag t)) =
    some (.str "any")
  rw [get_type_annotation_str.eq_def]
  dsimp only
  rw [show resolveTA (wrapAnn (Ann.tag t)) = some (JVal.obj [("type", JVal.str t)]) from rfl]
  simp only [show pyTruthy (wrapAnn (Ann.tag t)) = true from rfl,
    show pyTruthy (JVal.obj [("type", JVal.str t)]) = true from rfl,
    show pyGet (JVal.obj [("type", JVal.str t)]) "type" = some (JVal.str t) from rfl,
    Bool.true_eq_false, if_false, ite_false]
  split_ifs with hc1 hc2 hc3 hc4 hc5 hc6 hc7
  · exact absurd (hc1 ▸ (by decide : "TSTypeReference" ∈ structuredKinds)) (hc1 ▸ h1)
  · exact absurd (List.elem_iff.mp hc2) h2
  · exact absurd (hc3 ▸ (by decide : "TSUnionType" ∈ structuredKinds)) (hc3 ▸ h1)
  · exact absurd (hc4 ▸ (by decide : "TSIntersectionType" ∈ structuredKinds)) (hc4 ▸ h1)
  · exact absurd (hc5 ▸ (by decide : "TSTypeLiteral" ∈ structuredKinds)) (hc5 ▸ h1)
  · exact absurd (hc6 ▸ (by decide : "TSArrayType" ∈ structuredKinds)) (hc6 ▸ h1)
  · exact absurd (hc7 ▸ (by decide : "TSTupleType" ∈ structuredKinds)) (hc7 ▸ h1)
  · rfl

/-- C6 (amended): the annotation-to-string reconstruction never raises on
the documented annotation grammar: a missing annotation (Python None)
yields "any"; for every well-formed annotation node (arbitrarily nested
reference, union, intersection, array, tuple or keyword shapes, reached
through the `typeAnnotation` wrapper) the function returns some string;
and a node whose kind tag is neither one of the structured kinds nor a
recognized keyword collapses to the fixed placeholder "any". The original
claim that it does so for every mapping is refuted separately: a mapping
whose `typeAnnotation` value is a bare non-mapping scalar makes the
function raise instead. -/
theorem type_annotation_total_on_grammar :
    (∀ fuel : Nat, get_type_annotation_str (fuel + 1) .null = some (.str "any")) ∧
    (∀ (fuel : Nat) (a : Ann), ∃ s : String,
        get_type_annotation_str (fuel + 2) (wrapAnn a) = some (.str s)) ∧
    (∀ (fuel : Nat) (t : String), t ∉ structuredKinds → t ∉ recognizedKeywords →
        get_type_annotation_str (fuel + 2) (wrapAnn (Ann.tag t)) = some (.str "any")) := by
  refine ⟨fun fuel => rfl, fun fuel a => ?_,
    fun fuel t h1 h2 => gta_wrap_tag_default fuel t h1 h2⟩
  cases a with
  | tag t => exact gta_wrap_tag fuel t
  | ref nm args => exact gta_wrap_ref fuel nm args
  | union ts => exact gta_wrap_union fuel ts
  | inter ts => exact gta_wrap_inter fuel ts
  | arrOf e => exact gta_wrap_arrOf fuel e
  | tup ts => exact gta_wrap_tup fuel ts

/-- Witness: the hypotheses of the grammar-totality theorem hold at the
concrete unrecognized tag "TSFunctionType", and the theorem applied there
yields the placeholder. -/
theorem type_annotation_total_on_grammar_witness :
    ("TSFunctionType" ∉ structuredKinds ∧ "TSFunctionType" ∉ recognizedKeywords) ∧
    get_type_annotation_str 2 (wrapAnn (Ann.tag "TSFunctionType")) = some (.str "any") :=
  ⟨⟨by decide, by decide⟩,
    type_annotation_total_on_grammar.2.2 0 "TSFunctionType" (by decide) (by decide)⟩

theorem foldlM_rec_inv {α : Type} (f : FileRecord → α → Option FileRecord)
    (P : FileRecord → Prop)
    (hf : ∀ r r2 a, f r a = some r2 → P r → P r2) :
    ∀ (l : List α) (r0 rF : FileRecord), List.foldlM f r0 l = some rF → P r0 → P rF := by
  intro l
  induction l with
  | nil =>
    intro r0 rF h hp
    cases h
    exact hp
  | cons a rest ih =>
    intro r0 rF h hp
    rw [List.foldlM_cons] at h
    cases hf0 : f r0 a with
    | none =>
      rw [hf0] at h
      exact Option.noConfusion h
    | some r1 =>
      rw [hf0] at h
      simp only [Option.bind_eq_bind, Option.some_bind] at h
      exact ih r1 rF h (hf r0 r1 a hf0 hp)

theorem member_step_imports (fid eid : String) (fuel : Nat) (rec rec2 : FileRecord)
    (member : JVal) (h : member_step fid eid fuel rec member = some rec2) :
    rec2.imports = rec.imports := by
  unfold member_step at h
  repeat' split at h
  all_goals try exact Option.noConfusion h
  all_goals injection h with h2
  all_goals subst h2
  all_goals rfl

theorem entity_stmt_step_imports (fid : String) (fuel : Nat) (rec rec2 : FileRecord)
    (node : JVal) (nty : String)
    (h : entity_stmt_step fid fuel rec node nty = some rec2) :
    rec2.imports = rec.imports := by
  unfold entity_stmt_step at h
  repeat' split at h
  all_goals try exact Option.noConfusion h
  all_goals try (injection h with h2; subst h2; rfl)
  all_goals
    exact foldlM_rec_inv _ (fun r => r.imports = rec.imports)
      (fun r r2 a hf hp => (member_step_imports _ _ _ _ _ _ hf).trans hp)
      _ _ _ h rfl

theorem variable_stmt_step_imports (fid : String) (fuel : Nat) (rec rec2 : FileRecord)
    (node : JVal) (h : variable_stmt_step fid fuel rec node = some rec2) :
    rec2.imports = rec.imports := by
  unfold variable_stmt_step at h
  repeat' split at h
  all_goals try exact Option.noConfusion h
  all_goals
    refine foldlM_rec_inv _ (fun r => r.imports = rec.imports) ?_ _ _ _ h rfl
  all_goals intro r r2 a hf hp
  all_goals repeat' split at hf
  all_goals try exact Option.noConfusion hf
  all_goals injection hf with h2
  all_goals subst h2
  all_goals exact hp

theorem export_named_step_imports (fuel : Nat) (rec rec2 : FileRecord)
    (node : JVal) (h : export_named_step fuel rec node = some rec2) :
    rec2.imports = rec.imports := by
  unfold export_named_step at h
  repeat' split at h
  all_goals try exact Option.noConfusion h
  all_goals try (injection h with h2; subst h2; rfl)
  all_goals
    refine foldlM_rec_inv _ (fun r => r.imports = rec.imports) ?_ _ _ _ h rfl
  all_goals intro r r2 a hf hp
  all_goals repeat' split at hf
  all_goals try exact Option.noConfusion hf
  all_goals injection hf with h2
  all_goals subst h2
  all_goals exact hp

theorem export_default_step_imports (fuel : Nat) (rec rec2 : FileRecord)
    (node : JVal) (h : export_default_step fuel rec node = some rec2) :
    rec2.imports = rec.imports := by
  unfold export_default_step at h
  repeat' (first | split at h | dsimp only at h)
  all_goals try exact Option.noConfusion h
  all_goals injection h with h2
  all_goals subst h2
  all_goals rfl

theorem import_stmt_step_inv (fuel : Nat) (root : String) (rec rec2 : FileRecord)
    (node : JVal)
    (h : import_stmt_step fuel root rec node = some rec2)
    (hp : ∀ imp ∈ rec.imports, imp.is_external = !(external_rule root imp.source)) :
    ∀ imp ∈ rec2.imports, imp.is_external = !(external_rule root imp.source) := by
  unfold import_stmt_step at h
  repeat' (first | split at h | dsimp only at h)
  all_goals try exact Option.noConfusion h
  all_goals injection h with h2
  all_goals subst h2
  all_goals try exact hp
  all_goals intro imp hmem
  all_goals rcases List.mem_append.mp hmem with hm | hm
  all_goals try exact hp imp hm
  all_goals cases List.mem_singleton.mp hm
  all_goals rfl

theorem stmt_step_classif (root fid : String) (fuel : Nat) (r r2 : FileRecord)
    (node : JVal)
    (h : stmt_step root fid fuel r node = some r2)
    (hp : ∀ imp ∈ r.imports, imp.is_external = !(external_rule root imp.source)) :
    ∀ imp ∈ r2.imports, imp.is_external = !(external_rule root imp.source) := by
  unfold stmt_step at h
  repeat' split at h
  all_goals try exact Option.noConfusion h
  · exact import_stmt_step_inv _ _ _ _ _ h hp
  · rw [export_named_step_imports _ _ _ _ h]; exact hp
  · rw [export_default_step_imports _ _ _ _ h]; exact hp
  · rw [entity_stmt_step_imports _ _ _ _ _ _ h]; exact hp
  · rw [entity_stmt_step_imports _ _ _ _ _ _ h]; exact hp
  · rw [entity_stmt_step_imports _ _ _ _ _ _ h]; exact hp
  · rw [variable_stmt_step_imports _ _ _ _ _ h]; exact hp
  · injection h with h2; subst h2; exact hp

/-- C7: for every import record the feature extractor produces, the
is_external flag is false exactly when the import source string starts
with ".", starts with "/", or starts with the configured source-root
prefix (default "src/"). -/
theorem import_classification_iff (fuel : Nat) (relativize : String → String)
    (astData : JVal) (filePathStr : String) (cfgRoot : Option String)
    (rec : FileRecord) (diags : List String)
    (hex : extract_features_from_ast fuel relativize astData filePathStr cfgRoot =
      some (some rec, diags)) :
    ∀ imp ∈ rec.imports,
      (imp.is_external = false ↔
        (pyStartsWith imp.source "." = true ∨ pyStartsWith imp.source "/" = true ∨
          pyStartsWith imp.source (cfgRoot.getD "src/") = true)) := by
  have key : ∀ imp ∈ rec.imports,
      imp.is_external = !(external_rule (cfgRoot.getD "src/") imp.source) := by
    unfold extract_features_from_ast at hex
    repeat' (first | split at hex | dsimp only at hex)
    all_goals try exact Option.noConfusion hex
    · injection hex with h2
      injection h2 with h3 h4
      exact Option.noConfusion h3
    · injection hex with h2
      injection h2 with h3 h4
      injection h3 with h5
      subst h5
      intro imp hmem
      exact absurd hmem (by intro hx; exact (List.not_mem_nil imp) hx)
    · next hfold =>
      injection hex with h2
      injection h2 with h3 h4
      injection h3 with h5
      subst h5
      exact foldlM_rec_inv _
        (fun r => ∀ imp ∈ r.imports,
          imp.is_external = !(external_rule (cfgRoot.getD "src/") imp.source))
        (fun r r2 a hf hp => stmt_step_classif _ _ _ _ _ _ hf hp)
        _ _ _ hfold
        (fun imp hmem => absurd hmem (by intro hx; exact (List.not_mem_nil imp) hx))
  intro imp hmem
  rw [key imp hmem]
  unfold external_rule
  cases pyStartsWith imp.source "." <;>
    cases pyStartsWith imp.source "/" <;>
      cases pyStartsWith imp.source (cfgRoot.getD "src/") <;> simp

/-- Witness: the classification theorem applied to the concrete AST with
imports "lodash" and "./util" at default configuration. -/
theorem import_classification_iff_witness :
    extract_features_from_ast 3 (fun s => s) ast_c7 "x.ts" none =
      some (some { emptyRecord "x.ts" with
        imports := [⟨"lodash", [], true⟩, ⟨"./util", [], false⟩] }, []) ∧
    ((⟨"./util", [], false⟩ : ImportRecord).is_external = false ↔
      (pyStartsWith "./util" "." = true ∨ pyStartsWith "./util" "/" = true ∨
        pyStartsWith "./util" ((none : Option String).getD "src/") = true)) :=
  ⟨by decide,
   import_classification_iff 3 (fun s => s) ast_c7 "x.ts" none
     { emptyRecord "x.ts" with
       imports := [⟨"lodash", [], true⟩, ⟨"./util", [], false⟩] }
     [] (by decide) ⟨"./util", [], false⟩ (by decide)⟩

theorem alGet_alSet {α : Type} (l : List (String × α)) (k k2 : String) (v : α) :
    alGet (alSet l k v) k2 = if k2 = k then some v else alGet l k2 := by
  induction l with
  | nil =>
    simp only [alSet, alGet]
    by_cases h : k2 = k
    · subst h; simp
    · rw [if_neg (fun hh => h hh.symm), if_neg h]
  | cons p rest ih =>
    obtain ⟨pk, pv⟩ := p
    simp only [alSet]
    by_cases h1 : pk = k
    · rw [if_pos h1]
      simp only [alGet]
      by_cases h2 : pk = k2
      · rw [if_pos h2, if_pos (h2.symm.trans h1)]
      · rw [if_neg h2, if_neg (fun hh => h2 (h1.trans hh.symm)), if_neg h2]
    · rw [if_neg h1]
      simp only [alGet]
      by_cases h2 : pk = k2
      · rw [if_pos h2, if_neg (fun hh => h1 (h2.trans hh)), if_pos h2]
      · rw [if_neg h2, ih, if_neg h2]

theorem egGet_egSet (l : List ((String × String) × EdgeAttrs))
    (k k2 : String × String) (v : EdgeAttrs) :
    egGet (egSet l k v) k2 = if k2 = k then some v else egGet l k2 := by
  induction l with
  | nil =>
    simp only [egSet, egGet]
    by_cases h : k2 = k
    · subst h; simp
    · rw [if_neg (fun hh => h hh.symm), if_neg h]
  | cons p rest ih =>
    obtain ⟨pk, pv⟩ := p
    simp only [egSet]
    by_cases h1 : pk = k
    · rw [if_pos h1]
      simp only [egGet]
      by_cases h2 : pk = k2
      · rw [if_pos h2, if_pos (h2.symm.trans h1)]
      · rw [if_neg h2, if_neg (fun hh => h2 (h1.trans hh.symm)), if_neg h2]
    · rw [if_neg h1]
      simp only [egGet]
      by_cases h2 : pk = k2
      · rw [if_pos h2, if_neg (fun hh => h1 (h2.trans hh)), if_pos h2]
      · rw [if_neg h2, ih, if_neg h2]

theorem addNode_get (g : Graph) (id : String) (f : NodeAttrs → NodeAttrs)
    (x : String) :
    alGet (addNode g id f).nodes x =
      if x = id then some (f ((alGet g.nodes id).getD emptyAttrs))
      else alGet g.nodes x := by
  unfold addNode
  exact alGet_alSet g.nodes id x _

theorem addNode_edges (g : Graph) (id : String) (f : NodeAttrs → NodeAttrs) :
    (addNode g id f).edges = g.edges := rfl

theorem addEdge_get (g : Graph) (u v : String) (f : EdgeAttrs → EdgeAttrs)
    (q : String × String) :
    egGet (addEdge g u v f).edges q =
      if q = (u, v) then some (f ((egGet g.edges (u, v)).getD ⟨"", none⟩))
      else egGet g.edges q := by
  unfold addEdge
  exact egGet_egSet g.edges (u, v) q _

theorem addEdge_nodes (g : Graph) (u v : String) (f : EdgeAttrs → EdgeAttrs) :
    (addEdge g u v f).nodes = g.nodes := rfl

theorem add_entity_nodes_eq (fid : String) (g : Graph) (es : List (String × Entity)) :
    add_entity_nodes fid g es = es.foldl (enode_step fid) g := rfl

theorem add_method_nodes_eq (fid : String) (g : Graph) (ms : List (String × Method)) :
    add_method_nodes fid g ms = ms.foldl (mnode_step fid) g := rfl

theorem alGet_not_mem {α : Type} (l : List (String × α)) (k : String)
    (h : k ∉ l.map (·.1)) : alGet l k = none := by
  cases hv : alGet l k with
  | none => rfl
  | some v => exact absurd (alGet_mem l k v hv) h

theorem mnode_step_nodes (fid : String) (g : Graph) (p : String × Method) :
    (mnode_step fid g p).nodes = (addNode g p.1 (method_node_attrs fid p.2)).nodes := by
  unfold mnode_step
  dsimp only
  split_ifs <;> rfl

theorem entity_fold_nodes (fid : String) :
    ∀ (es : List (String × Entity)) (g0 : Graph) (x : String),
    (es.map (·.1)).Nodup →
    (∀ e ∈ es, alGet g0.nodes e.1 = none) →
    alGet (es.foldl (enode_step fid) g0).nodes x =
      (match alGet es x with
       | some e => some (entity_node_attrs fid e emptyAttrs)
       | none => alGet g0.nodes x) := by
  intro es
  induction es with
  | nil => intro g0 x _ _; rfl
  | cons p rest ih =>
    intro g0 x hnd hfresh
    rw [List.foldl_cons]
    rw [ih _ x (by simp only [List.map_cons, List.nodup_cons] at hnd; exact hnd.2)
      (fun e he => by
        rw [show (enode_step fid g0 p).nodes = (addNode g0 p.1 (entity_node_attrs fid p.2)).nodes from rfl]
        rw [addNode_get]
        rw [if_neg (fun hh => by
          simp only [List.map_cons, List.nodup_cons] at hnd
          exact hnd.1 (hh ▸ List.mem_map_of_mem (·.1) he))]
        exact hfresh e (List.mem_cons_of_mem p he))]
    by_cases hx : p.1 = x
    · have hrest : alGet rest x = none := by
        apply alGet_not_mem
        intro hmem
        simp only [List.map_cons, List.nodup_cons] at hnd
        exact hnd.1 (hx ▸ hmem)
      rw [show alGet (p :: rest) x = some p.2 from by rw [show alGet (p :: rest) x = if p.1 = x then some p.2 else alGet rest x from rfl, if_pos hx]]
      rw [hrest]
      rw [show (enode_step fid g0 p).nodes = (addNode g0 p.1 (entity_node_attrs fid p.2)).nodes from rfl]
      rw [addNode_get, if_pos (hx.symm)]
      rw [hfresh p (List.mem_cons_self p rest)]
      rfl
    · rw [show alGet (p :: rest) x = alGet rest x from by rw [show alGet (p :: rest) x = if p.1 = x then some p.2 else alGet rest x from rfl, if_neg hx]]
      cases hr : alGet rest x with
      | some e => rfl
      | none =>
        rw [show (enode_step fid g0 p).nodes = (addNode g0 p.1 (entity_node_attrs fid p.2)).nodes from rfl]
        rw [addNode_get, if_neg (fun hh => hx hh.symm)]

theorem enode_step_edges (fid : String) (g0 : Graph) (p : String × Entity)
    (hfr : egGet g0.edges (fid, p.1) = none) (q : String × String) :
    egGet (enode_step fid g0 p).edges q =
      if q = (fid, p.1) then some ⟨"CONTAINS", none⟩ else egGet g0.edges q := by
  unfold enode_step
  rw [addEdge_get]
  rw [show (addNode g0 p.1 (entity_node_attrs fid p.2)).edges = g0.edges from rfl]
  rw [hfr]
  rfl

theorem entity_fold_edges (fid : String) :
    ∀ (es : List (String × Entity)) (g0 : Graph) (q : String × String),
    (es.map (·.1)).Nodup →
    (∀ e ∈ es, egGet g0.edges (fid, e.1) = none) →
    egGet (es.foldl (enode_step fid) g0).edges q =
      (match alGet es q.2 with
       | some _ => if q.1 = fid then some ⟨"CONTAINS", none⟩ else egGet g0.edges q
       | none => egGet g0.edges q) := by
  intro es
  induction es with
  | nil => intro g0 q _ _; rfl
  | cons p rest ih =>
    intro g0 q hnd hfresh
    have hnd2 : (rest.map (·.1)).Nodup := by
      simp only [List.map_cons, List.nodup_cons] at hnd; exact hnd.2
    have hhd : p.1 ∉ rest.map (·.1) := by
      simp only [List.map_cons, List.nodup_cons] at hnd; exact hnd.1
    have hfr : egGet g0.edges (fid, p.1) = none :=
      hfresh p (List.mem_cons_self p rest)
    rw [List.foldl_cons]
    rw [ih _ q hnd2 (fun e he => by
      rw [enode_step_edges fid g0 p hfr]
      rw [if_neg (fun hh => by
        have : e.1 = p.1 := congrArg Prod.snd hh
        exact hhd (this ▸ List.mem_map_of_mem (·.1) he))]
      exact hfresh e (List.mem_cons_of_mem p he))]
    by_cases hx : p.1 = q.2
    · have hrest : alGet rest q.2 = none :=
        alGet_not_mem rest q.2 (fun hmem => hhd (hx ▸ hmem))
      have hps : alGet (p :: rest) q.2 = some p.2 := by
        rw [show alGet (p :: rest) q.2 =
          if p.1 = q.2 then some p.2 else alGet rest q.2 from rfl, if_pos hx]
      simp only [hrest, hps]
      rw [enode_step_edges fid g0 p hfr]
      by_cases hq : q.1 = fid
      · rw [if_pos (Prod.ext hq (hx.symm)), if_pos hq]
      · rw [if_neg (fun hh => hq (congrArg Prod.fst hh)), if_neg hq]
    · have hps : alGet (p :: rest) q.2 = alGet rest q.2 := by
        rw [show alGet (p :: rest) q.2 =
          if p.1 = q.2 then some p.2 else alGet rest q.2 from rfl, if_neg hx]
      rw [hps]
      have hne : q ≠ (fid, p.1) := fun hh => hx ((congrArg Prod.snd hh).symm)
      cases hr : alGet rest q.2 with
      | some e =>
        simp only [hr]
        by_cases hq : q.1 = fid
        · rw [if_pos hq, if_pos hq]
        · rw [if_neg hq, if_neg hq, enode_step_edges fid g0 p hfr, if_neg hne]
      | none =>
        simp only [hr]
        rw [enode_step_edges fid g0 p hfr, if_neg hne]

theorem hasNode_mnode_step (fid : String) (g : Graph) (p : String × Method)
    (x : String) (h : hasNode g x = true) : hasNode (mnode_step fid g p) x = true := by
  unfold hasNode at h ⊢
  rw [mnode_step_nodes, addNode_get]
  by_cases hx : x = p.1
  · rw [if_pos hx]; rfl
  · rw [if_neg hx]; exact h

theorem method_fold_nodes (fid : String) :
    ∀ (ms : List (String × Method)) (g0 : Graph) (x : String),
    (ms.map (·.1)).Nodup →
    (∀ m ∈ ms, alGet g0.nodes m.1 = none) →
    alGet (ms.foldl (mnode_step fid) g0).nodes x =
      (match alGet ms x with
       | some m => some (method_node_attrs fid m emptyAttrs)
       | none => alGet g0.nodes x) := by
  intro ms
  induction ms with
  | nil => intro g0 x _ _; rfl
  | cons p rest ih =>
    intro g0 x hnd hfresh
    have hnd2 : (rest.map (·.1)).Nodup := by
      simp only [List.map_cons, List.nodup_cons] at hnd; exact hnd.2
    have hhd : p.1 ∉ rest.map (·.1) := by
      simp only [List.map_cons, List.nodup_cons] at hnd; exact hnd.1
    rw [List.foldl_cons]
    rw [ih _ x hnd2 (fun m hm => by
      rw [mnode_step_nodes, addNode_get]
      rw [if_neg (fun hh : m.1 = p.1 => hhd (hh ▸ List.mem_map_of_mem (·.1) hm))]
      exact hfresh m (List.mem_cons_of_mem p hm))]
    by_cases hx : p.1 = x
    · have hrest : alGet rest x = none :=
        alGet_not_mem rest x (fun hmem => hhd (hx ▸ hmem))
      have hps : alGet (p :: rest) x = some p.2 := by
        rw [show alGet (p :: rest) x =
          if p.1 = x then some p.2 else alGet rest x from rfl, if_pos hx]
      simp only [hrest, hps]
      rw [mnode_step_nodes, addNode_get, if_pos hx.symm]
      rw [hfresh p (List.mem_cons_self p rest)]
      rfl
    · have hps : alGet (p :: rest) x = alGet rest x := by
        rw [show alGet (p :: rest) x =
          if p.1 = x then some p.2 else alGet rest x from rfl, if_neg hx]
      rw [hps]
      cases hr : alGet rest x with
      | some m => simp only [hr]
      | none =>
        simp only [hr]
        rw [mnode_step_nodes, addNode_get, if_neg (fun hh => hx hh.symm)]

theorem mnode_step_edges (fid : String) (g0 : Graph) (p : String × Method)
    (heid : p.2.mentity_id ≠ "") (hhas : hasNode g0 p.2.mentity_id = true)
    (hne : p.2.mentity_id ≠ p.1)
    (hfr : egGet g0.edges (p.2.mentity_id, p.1) = none) (q : String × String) :
    egGet (mnode_step fid g0 p).edges q =
      if q = (p.2.mentity_id, p.1) then some ⟨"HAS_METHOD", none⟩
      else egGet g0.edges q := by
  unfold mnode_step
  dsimp only
  have hg1 : hasNode (addNode g0 p.1 (method_node_attrs fid p.2)) p.2.mentity_id = true := by
    unfold hasNode at hhas ⊢
    rw [addNode_get, if_neg hne]
    exact hhas
  rw [if_pos ⟨heid, hg1⟩]
  rw [addEdge_get]
  rw [show (addNode g0 p.1 (method_node_attrs fid p.2)).edges = g0.edges from rfl]
  rw [hfr]
  rfl

theorem method_fold_edges (fid : String) :
    ∀ (ms : List (String × Method)) (g0 : Graph) (q : String × String),
    (ms.map (·.1)).Nodup →
    (∀ m ∈ ms, m.2.mentity_id ≠ "" ∧ hasNode g0 m.2.mentity_id = true ∧
      m.2.mentity_id ≠ m.1) →
    (∀ m ∈ ms, egGet g0.edges (m.2.mentity_id, m.1) = none) →
    egGet (ms.foldl (mnode_step fid) g0).edges q =
      (match alGet ms q.2 with
       | some m => if q.1 = m.mentity_id then some ⟨"HAS_METHOD", none⟩
                   else egGet g0.edges q
       | none => egGet g0.edges q) := by
  intro ms
  induction ms with
  | nil => intro g0 q _ _ _; rfl
  | cons p rest ih =>
    intro g0 q hnd hok hfresh
    have hnd2 : (rest.map (·.1)).Nodup := by
      simp only [List.map_cons, List.nodup_cons] at hnd; exact hnd.2
    have hhd : p.1 ∉ rest.map (·.1) := by
      simp only [List.map_cons, List.nodup_cons] at hnd; exact hnd.1
    obtain ⟨heid, hhas, hne⟩ := hok p (List.mem_cons_self p rest)
    have hfr : egGet g0.edges (p.2.mentity_id, p.1) = none :=
      hfresh p (List.mem_cons_self p rest)
    rw [List.foldl_cons]
    rw [ih _ q hnd2
      (fun m hm => by
        obtain ⟨h1, h2, h3⟩ := hok m (List.mem_cons_of_mem p hm)
        exact ⟨h1, hasNode_mnode_step fid g0 p _ h2, h3⟩)
      (fun m hm => by
        rw [mnode_step_edges fid g0 p heid hhas hne hfr]
        rw [if_neg (fun hh => by
          have : m.1 = p.1 := congrArg Prod.snd hh
          exact hhd (this ▸ List.mem_map_of_mem (·.1) hm))]
        exact hfresh m (List.mem_cons_of_mem p hm))]
    by_cases hx : p.1 = q.2
    · have hrest : alGet rest q.2 = none :=
        alGet_not_mem rest q.2 (fun hmem => hhd (hx ▸ hmem))
      have hps : alGet (p :: rest) q.2 = some p.2 := by
        rw [show alGet (p :: rest) q.2 =
          if p.1 = q.2 then some p.2 else alGet rest q.2 from rfl, if_pos hx]
      simp only [hrest, hps]
      rw [mnode_step_edges fid g0 p heid hhas hne hfr]
      by_cases hq : q.1 = p.2.mentity_id
      · rw [if_pos (Prod.ext hq (hx.symm)), if_pos hq]
      · rw [if_neg (fun hh => hq (congrArg Prod.fst hh)), if_neg hq]
    · have hps : alGet (p :: rest) q.2 = alGet rest q.2 := by
        rw [show alGet (p :: rest) q.2 =
          if p.1 = q.2 then some p.2 else alGet rest q.2 from rfl, if_neg hx]
      rw [hps]
      have hnq : q ≠ (p.2.mentity_id, p.1) := fun hh => hx ((congrArg Prod.snd hh).symm)
      cases hr : alGet rest q.2 with
      | some m =>
        simp only [hr]
        by_cases hq : q.1 = m.mentity_id
        · rw [if_pos hq, if_pos hq]
        · rw [if_neg hq, if_neg hq, mnode_step_edges fid g0 p heid hhas hne hfr,
            if_neg hnq]
      | none =>
        simp only [hr]
        rw [mnode_step_edges fid g0 p heid hhas hne hfr, if_neg hnq]

theorem record_ok_unpack (fid : String) (r : FileRecord)
    (h : record_ok fid r = true) :
    r.file_id = fid ∧
    (∀ e ∈ r.entities, e.1 = e.2.entity_id ∧ e.2.efile_id = fid ∧
      e.2.ekind ≠ "File" ∧ e.2.ekind ≠ "External" ∧ e.2.ekind ≠ "Method") ∧
    (∀ m ∈ r.methods, m.1 = m.2.method_id ∧
      m.2.mentity_id ∈ r.entities.map (·.1) ∧ m.2.mentity_id ≠ "") ∧
    (∀ c ∈ r.calls, c.1 ∈ r.methods.map (·.1)) ∧
    (∀ dp ∈ r.dependencies, dp.1 ∈ r.entities.map (·.1)) := by
  unfold record_ok at h
  simp only [Bool.and_eq_true, List.all_eq_true, beq_iff_eq, bne_iff_ne,
    ne_eq] at h
  obtain ⟨⟨⟨⟨hfid, hent⟩, hmeth⟩, hcall⟩, hdep⟩ := h
  refine ⟨hfid, ?_, ?_, ?_, ?_⟩
  · intro e he
    obtain ⟨⟨⟨⟨h1, h2⟩, h3⟩, h4⟩, h5⟩ := hent e he
    exact ⟨h1, h2, h3, h4, h5⟩
  · intro m hm
    obtain ⟨⟨h1, h2⟩, h3⟩ := hmeth m hm
    exact ⟨h1, List.elem_iff.mp h2, h3⟩
  · exact fun c hc => List.elem_iff.mp (hcall c hc)
  · exact fun dp hdp => List.elem_iff.mp (hdep dp hdp)

theorem alGet_of_mem_keys {α : Type} (l : List (String × α)) (k : String)
    (h : k ∈ l.map (·.1)) : ∃ v, alGet l k = some v := by
  induction l with
  | nil => simp at h
  | cons p rest ih =>
    by_cases hk : p.1 = k
    · exact ⟨p.2, by rw [show alGet (p :: rest) k =
        if p.1 = k then some p.2 else alGet rest k from rfl, if_pos hk]⟩
    · have : k ∈ rest.map (·.1) := by
        simp only [List.map_cons, List.mem_cons] at h
        exact h.resolve_left (fun hh => hk hh.symm)
      obtain ⟨v, hv⟩ := ih this
      exact ⟨v, by rw [show alGet (p :: rest) k =
        if p.1 = k then some p.2 else alGet rest k from rfl, if_neg hk, hv]⟩

theorem add_phase1_file_nodes (g : Graph) (p : String × FileRecord)
    (hN : (p.1 :: (p.2.entities.map (·.1) ++ p.2.methods.map (·.1))).Nodup)
    (hrec : record_ok p.1 p.2 = true)
    (hgN : ∀ y ∈ p.1 :: (p.2.entities.map (·.1) ++ p.2.methods.map (·.1)),
      alGet g.nodes y = none)
    (x : String) :
    alGet (add_phase1_file g p).nodes x =
      (if x = p.1 then some (file_node_attrs p.2 emptyAttrs)
       else match alGet p.2.entities x with
       | some e => some (entity_node_attrs p.1 e emptyAttrs)
       | none => match alGet p.2.methods x with
         | some m => some (method_node_attrs p.1 m emptyAttrs)
         | none => alGet g.nodes x) := by
  obtain ⟨hp1, hem⟩ := List.nodup_cons.mp hN
  obtain ⟨hNe, hNm, hdisj⟩ := List.nodup_append.mp hem
  have hp1e : p.1 ∉ p.2.entities.map (·.1) :=
    fun hh => hp1 (List.mem_append_left _ hh)
  have hp1m : p.1 ∉ p.2.methods.map (·.1) :=
    fun hh => hp1 (List.mem_append_right _ hh)
  have hG1 : ∀ y, alGet (addNode g p.1 (file_node_attrs p.2)).nodes y =
      if y = p.1 then some (file_node_attrs p.2 emptyAttrs) else alGet g.nodes y := by
    intro y
    rw [addNode_get, hgN p.1 (List.mem_cons_self _ _)]
    rfl
  have hfreshE : ∀ e ∈ p.2.entities,
      alGet (addNode g p.1 (file_node_attrs p.2)).nodes e.1 = none := by
    intro e he
    rw [hG1, if_neg (fun hh : e.1 = p.1 => hp1e (hh ▸ List.mem_map_of_mem (·.1) he))]
    exact hgN e.1 (List.mem_cons_of_mem _ (List.mem_append_left _
      (List.mem_map_of_mem (·.1) he)))
  have hfreshM : ∀ m ∈ p.2.methods,
      alGet (List.foldl (enode_step p.1)
        (addNode g p.1 (file_node_attrs p.2)) p.2.entities).nodes m.1 = none := by
    intro m hm
    rw [entity_fold_nodes p.1 p.2.entities _ m.1 hNe hfreshE]
    have hnot : alGet p.2.entities m.1 = none :=
      alGet_not_mem _ _ (fun hh => hdisj hh (List.mem_map_of_mem (·.1) hm))
    rw [hnot]
    rw [hG1, if_neg (fun hh : m.1 = p.1 => hp1m (hh ▸ List.mem_map_of_mem (·.1) hm))]
    exact hgN m.1 (List.mem_cons_of_mem _ (List.mem_append_right _
      (List.mem_map_of_mem (·.1) hm)))
  show alGet ((p.2.methods).foldl (mnode_step p.1)
    ((p.2.entities).foldl (enode_step p.1)
      (addNode g p.1 (file_node_attrs p.2)))).nodes x = _
  rw [method_fold_nodes p.1 p.2.methods _ x hNm hfreshM]
  by_cases hx : x = p.1
  · subst hx
    rw [alGet_not_mem p.2.methods p.1 hp1m]
    rw [entity_fold_nodes p.1 p.2.entities _ p.1 hNe hfreshE]
    rw [alGet_not_mem p.2.entities p.1 hp1e]
    rw [hG1 p.1]
    try rw [if_pos (rfl : p.1 = p.1)]
    try rw [if_pos (rfl : p.1 = p.1)]
    try rfl
  · cases hm : alGet p.2.methods x with
    | some m =>
      have hxm : x ∈ p.2.methods.map (·.1) := alGet_mem _ _ _ hm
      have hnot : alGet p.2.entities x = none :=
        alGet_not_mem _ _ (fun hh => hdisj hh hxm)
      rw [if_neg hx, hnot]
    | none =>
      rw [entity_fold_nodes p.1 p.2.entities _ x hNe hfreshE]
      cases he : alGet p.2.entities x with
      | some e => rw [if_neg hx]
      | none =>
        rw [hG1 x, if_neg hx]
        try rw [if_neg hx]
        try rfl

theorem add_phase1_file_edges (g : Graph) (p : String × FileRecord)
    (hN : (p.1 :: (p.2.entities.map (·.1) ++ p.2.methods.map (·.1))).Nodup)
    (hrec : record_ok p.1 p.2 = true)
    (hgN : ∀ y ∈ p.1 :: (p.2.entities.map (·.1) ++ p.2.methods.map (·.1)),
      alGet g.nodes y = none)
    (hgE1 : ∀ e ∈ p.2.entities, egGet g.edges (p.1, e.1) = none)
    (hgE2 : ∀ m ∈ p.2.methods, egGet g.edges (m.2.mentity_id, m.1) = none)
    (q : String × String) :
    egGet (add_phase1_file g p).edges q =
      (match alGet p.2.entities q.2 with
       | some _ => if q.1 = p.1 then some ⟨"CONTAINS", none⟩ else egGet g.edges q
       | none => match alGet p.2.methods q.2 with
         | some m => if q.1 = m.mentity_id then some ⟨"HAS_METHOD", none⟩
                     else egGet g.edges q
         | none => egGet g.edges q) := by
  obtain ⟨hp1, hem⟩ := List.nodup_cons.mp hN
  obtain ⟨hNe, hNm, hdisj⟩ := List.nodup_append.mp hem
  have hp1e : p.1 ∉ p.2.entities.map (·.1) :=
    fun hh => hp1 (List.mem_append_left _ hh)
  have hp1m : p.1 ∉ p.2.methods.map (·.1) :=
    fun hh => hp1 (List.mem_append_right _ hh)
  obtain ⟨-, hent, hmeth, -, -⟩ := record_ok_unpack p.1 p.2 hrec
  have hG1n : ∀ y, alGet (addNode g p.1 (file_node_attrs p.2)).nodes y =
      if y = p.1 then some (file_node_attrs p.2 emptyAttrs) else alGet g.nodes y := by
    intro y
    rw [addNode_get, hgN p.1 (List.mem_cons_self _ _)]
    rfl
  have hfreshE : ∀ e ∈ p.2.entities,
      alGet (addNode g p.1 (file_node_attrs p.2)).nodes e.1 = none := by
    intro e he
    rw [hG1n, if_neg (fun hh : e.1 = p.1 => hp1e (hh ▸ List.mem_map_of_mem (·.1) he))]
    exact hgN e.1 (List.mem_cons_of_mem _ (List.mem_append_left _
      (List.mem_map_of_mem (·.1) he)))
  have hG1e : (addNode g p.1 (file_node_attrs p.2)).edges = g.edges := rfl
  have hG2n : ∀ x, alGet (List.foldl (enode_step p.1)
      (addNode g p.1 (file_node_attrs p.2)) p.2.entities).nodes x =
      (match alGet p.2.entities x with
       | some e => some (entity_node_attrs p.1 e emptyAttrs)
       | none => alGet (addNode g p.1 (file_node_attrs p.2)).nodes x) :=
    fun x => entity_fold_nodes p.1 p.2.entities _ x hNe hfreshE
  have hG2e : ∀ q2, egGet (List.foldl (enode_step p.1)
      (addNode g p.1 (file_node_attrs p.2)) p.2.entities).edges q2 =
      (match alGet p.2.entities q2.2 with
       | some _ => if q2.1 = p.1 then some ⟨"CONTAINS", none⟩ else egGet g.edges q2
       | none => egGet g.edges q2) := by
    intro q2
    rw [entity_fold_edges p.1 p.2.entities _ q2 hNe
      (fun e he => by rw [hG1e]; exact hgE1 e he)]
    rw [hG1e]
  have hmok : ∀ m ∈ p.2.methods, m.2.mentity_id ≠ "" ∧
      hasNode (List.foldl (enode_step p.1)
        (addNode g p.1 (file_node_attrs p.2)) p.2.entities) m.2.mentity_id = true ∧
      m.2.mentity_id ≠ m.1 := by
    intro m hm
    obtain ⟨-, hmem, hne⟩ := hmeth m hm
    obtain ⟨e, hee⟩ := alGet_of_mem_keys p.2.entities m.2.mentity_id hmem
    refine ⟨hne, ?_, ?_⟩
    · unfold hasNode
      rw [hG2n, hee]
      rfl
    · exact fun hh => hdisj hmem (hh ▸ List.mem_map_of_mem (·.1) hm)
  have hmfr : ∀ m ∈ p.2.methods,
      egGet (List.foldl (enode_step p.1)
        (addNode g p.1 (file_node_attrs p.2)) p.2.entities).edges
        (m.2.mentity_id, m.1) = none := by
    intro m hm
    rw [hG2e]
    have hnot : alGet p.2.entities m.1 = none :=
      alGet_not_mem _ _ (fun hh => hdisj hh (List.mem_map_of_mem (·.1) hm))
    simp only [hnot]
    exact hgE2 m hm
  show egGet ((p.2.methods).foldl (mnode_step p.1)
    ((p.2.entities).foldl (enode_step p.1)
      (addNode g p.1 (file_node_attrs p.2)))).edges q = _
  rw [method_fold_edges p.1 p.2.methods _ q hNm hmok hmfr]
  cases hm : alGet p.2.methods q.2 with
  | some m =>
    have hq2m : q.2 ∈ p.2.methods.map (·.1) := alGet_mem _ _ _ hm
    have hnot : alGet p.2.entities q.2 = none :=
      alGet_not_mem _ _ (fun hh => hdisj hh hq2m)
    simp only [hnot]
    by_cases hq : q.1 = m.mentity_id
    · rw [if_pos hq, if_pos hq]
    · rw [if_neg hq, if_neg hq, hG2e]
      simp only [hnot]
  | none =>
    rw [hG2e]

theorem mem_entityKeysOf (d : List (String × FileRecord))
    (p : String × FileRecord) (hp : p ∈ d) (x : String)
    (hx : x ∈ p.2.entities.map (·.1)) : x ∈ entityKeysOf d := by
  unfold entityKeysOf
  exact List.mem_flatten.mpr ⟨p.2.entities.map (·.1),
    List.mem_map.mpr ⟨p, hp, rfl⟩, hx⟩

theorem mem_methodKeysOf (d : List (String × FileRecord))
    (p : String × FileRecord) (hp : p ∈ d) (x : String)
    (hx : x ∈ p.2.methods.map (·.1)) : x ∈ methodKeysOf d := by
  unfold methodKeysOf
  exact List.mem_flatten.mpr ⟨p.2.methods.map (·.1),
    List.mem_map.mpr ⟨p, hp, rfl⟩, hx⟩

theorem entOwner_none_of_not_mem (d : List (String × FileRecord)) (x : String)
    (h : x ∉ entityKeysOf d) : entOwner d x = none := by
  unfold entOwner
  rw [List.find?_eq_none]
  intro p hp
  have : alGet p.2.entities x = none := by
    apply alGet_not_mem
    intro hmem
    exact h (mem_entityKeysOf d p hp x hmem)
  rw [this]
  exact Bool.false_ne_true

theorem methOwner_none_of_not_mem (d : List (String × FileRecord)) (x : String)
    (h : x ∉ methodKeysOf d) : methOwner d x = none := by
  unfold methOwner
  rw [List.find?_eq_none]
  intro p hp
  have : alGet p.2.methods x = none := by
    apply alGet_not_mem
    intro hmem
    exact h (mem_methodKeysOf d p hp x hmem)
  rw [this]
  exact Bool.false_ne_true

theorem fileFind_none_of_not_mem (d : List (String × FileRecord)) (x : String)
    (h : x ∉ fileIdsOf d) : d.find? (fun p => p.1 == x) = none := by
  rw [List.find?_eq_none]
  intro p hp
  simp only [beq_iff_eq]
  intro hh
  exact h (hh ▸ List.mem_map.mpr ⟨p, hp, rfl⟩)

theorem p1_all_none (d : List (String × FileRecord)) (x : String)
    (h : x ∉ allIdsOf d) :
    p1attr d x = none ∧ parentOf d x = none ∧ p1etype d x = none := by
  have h1 : x ∉ fileIdsOf d :=
    fun hh => h (List.mem_append_left _ (List.mem_append_left _ hh))
  have h2 : x ∉ entityKeysOf d :=
    fun hh => h (List.mem_append_left _ (List.mem_append_right _ hh))
  have h3 : x ∉ methodKeysOf d :=
    fun hh => h (List.mem_append_right _ hh)
  have he := entOwner_none_of_not_mem d x h2
  have hm := methOwner_none_of_not_mem d x h3
  have hf := fileFind_none_of_not_mem d x h1
  unfold p1attr parentOf p1etype
  rw [he, hm, hf]
  exact ⟨rfl, rfl, rfl⟩

theorem p1_cons_skip (p : String × FileRecord) (rest : List (String × FileRecord))
    (x : String) (h1 : p.1 ≠ x) (h2 : x ∉ p.2.entities.map (·.1))
    (h3 : x ∉ p.2.methods.map (·.1)) :
    p1attr (p :: rest) x = p1attr rest x ∧
    parentOf (p :: rest) x = parentOf rest x ∧
    p1etype (p :: rest) x = p1etype rest x := by
  have he : alGet p.2.entities x = none := alGet_not_mem _ _ h2
  have hm : alGet p.2.methods x = none := alGet_not_mem _ _ h3
  have hfc : (p :: rest).find? (fun p2 => p2.1 == x) = rest.find? (fun p2 => p2.1 == x) := by
    rw [List.find?_cons_of_neg]
    simp only [beq_iff_eq]
    exact h1
  have hec : entOwner (p :: rest) x = entOwner rest x := by
    unfold entOwner
    rw [List.find?_cons_of_neg]
    rw [he]
    exact Bool.false_ne_true
  have hmc : methOwner (p :: rest) x = methOwner rest x := by
    unfold methOwner
    rw [List.find?_cons_of_neg]
    rw [hm]
    exact Bool.false_ne_true
  unfold p1attr parentOf p1etype
  rw [hfc, hec, hmc]
  exact ⟨rfl, rfl, rfl⟩

theorem p1_cons_file (p : String × FileRecord) (rest : List (String × FileRecord))
    (x : String) (hx : p.1 = x) :
    p1attr (p :: rest) x = some (file_node_attrs p.2 emptyAttrs) := by
  unfold p1attr
  rw [List.find?_cons_of_pos]
  · simp [hx]

theorem p1_cons_ent (p : String × FileRecord) (rest : List (String × FileRecord))
    (x : String) (hx : x ∈ p.2.entities.map (·.1))
    (hf : x ∉ fileIdsOf (p :: rest)) :
    p1attr (p :: rest) x =
      (alGet p.2.entities x).map (fun e => entity_node_attrs p.1 e emptyAttrs) ∧
    parentOf (p :: rest) x = some p.1 ∧
    p1etype (p :: rest) x = some "CONTAINS" := by
  obtain ⟨e, he⟩ := alGet_of_mem_keys _ _ hx
  have hec : entOwner (p :: rest) x = some p := by
    unfold entOwner
    rw [List.find?_cons_of_pos]
    rw [he]
    rfl
  unfold p1attr parentOf p1etype
  rw [fileFind_none_of_not_mem _ _ hf, hec]
  exact ⟨rfl, rfl, rfl⟩

theorem p1_cons_meth (p : String × FileRecord) (rest : List (String × FileRecord))
    (x : String) (hx : x ∈ p.2.methods.map (·.1))
    (hf : x ∉ fileIdsOf (p :: rest)) (hent : x ∉ entityKeysOf (p :: rest)) :
    p1attr (p :: rest) x =
      (alGet p.2.methods x).map (fun m => method_node_attrs p.1 m emptyAttrs) ∧
    parentOf (p :: rest) x = (alGet p.2.methods x).map (·.mentity_id) ∧
    p1etype (p :: rest) x = some "HAS_METHOD" := by
  obtain ⟨m, hm⟩ := alGet_of_mem_keys _ _ hx
  have hmc : methOwner (p :: rest) x = some p := by
    unfold methOwner
    rw [List.find?_cons_of_pos]
    rw [hm]
    rfl
  unfold p1attr parentOf p1etype
  rw [fileFind_none_of_not_mem _ _ hf, entOwner_none_of_not_mem _ _ hent, hmc]
  exact ⟨rfl, rfl, rfl⟩

theorem allIds_cons_perm (p : String × FileRecord)
    (rest : List (String × FileRecord)) :
    (allIdsOf (p :: rest)).Perm
      ((p.1 :: (p.2.entities.map (·.1) ++ p.2.methods.map (·.1))) ++ allIdsOf rest) := by
  apply List.perm_iff_count.mpr
  intro a
  unfold allIdsOf fileIdsOf entityKeysOf methodKeysOf
  simp only [List.map_cons, List.flatten_cons, List.count_append, List.count_cons]
  ring

theorem phase1_fold_aux :
    ∀ (l : List (String × FileRecord)) (g0 : Graph),
    (allIdsOf l).Nodup →
    (∀ p ∈ l, record_ok p.1 p.2 = true) →
    (∀ y ∈ allIdsOf l, alGet g0.nodes y = none) →
    (∀ p ∈ l, ∀ e ∈ p.2.entities, egGet g0.edges (p.1, e.1) = none) →
    (∀ p ∈ l, ∀ m ∈ p.2.methods, egGet g0.edges (m.2.mentity_id, m.1) = none) →
    (∀ x, alGet (l.foldl add_phase1_file g0).nodes x =
      (match p1attr l x with
       | some a => some a
       | none => alGet g0.nodes x)) ∧
    (∀ q, egGet (l.foldl add_phase1_file g0).edges q =
      (match parentOf l q.2, p1etype l q.2 with
       | some par, some t =>
          if q.1 = par then some ⟨t, none⟩ else egGet g0.edges q
       | _, _ => egGet g0.edges q)) := by
  intro l
  induction l with
  | nil => intro g0 _ _ _ _ _; exact ⟨fun x => rfl, fun q => rfl⟩
  | cons p rest ih =>
    intro g0 hN hrec hgN hgE1 hgE2
    have hperm := allIds_cons_perm p rest
    have hN2 := (hperm.nodup_iff).mp hN
    obtain ⟨hNp, hNrest, hdisjPR⟩ := List.nodup_append.mp hN2
    obtain ⟨hp1g, hemg⟩ := List.nodup_cons.mp hNp
    obtain ⟨hNe, hNm, hdisjEM⟩ := List.nodup_append.mp hemg
    have hmemA : ∀ y, y ∈ p.1 :: (p.2.entities.map (·.1) ++ p.2.methods.map (·.1)) →
        y ∈ allIdsOf (p :: rest) :=
      fun y hy => (hperm.mem_iff).mpr (List.mem_append_left _ hy)
    have hmemR : ∀ y, y ∈ allIdsOf rest → y ∈ allIdsOf (p :: rest) :=
      fun y hy => (hperm.mem_iff).mpr (List.mem_append_right _ hy)
    have hrp := hrec p (List.mem_cons_self _ _)
    have h1n := add_phase1_file_nodes g0 p hNp hrp
      (fun y hy => hgN y (hmemA y hy))
    have h1e := add_phase1_file_edges g0 p hNp hrp
      (fun y hy => hgN y (hmemA y hy))
      (hgE1 p (List.mem_cons_self _ _)) (hgE2 p (List.mem_cons_self _ _))
    have hfreshR : ∀ y ∈ allIdsOf rest, alGet (add_phase1_file g0 p).nodes y = none := by
      intro y hy
      have hyg : y ∉ p.1 :: (p.2.entities.map (·.1) ++ p.2.methods.map (·.1)) :=
        fun hh => hdisjPR hh hy
      rw [h1n y]
      rw [if_neg (fun hh : y = p.1 => hyg (by rw [hh]; exact List.mem_cons_self _ _))]
      have hye : alGet p.2.entities y = none := by
        apply alGet_not_mem
        intro hmem
        exact hyg (List.mem_cons_of_mem _ (List.mem_append_left _ hmem))
      have hym : alGet p.2.methods y = none := by
        apply alGet_not_mem
        intro hmem
        exact hyg (List.mem_cons_of_mem _ (List.mem_append_right _ hmem))
      simp only [hye, hym]
      exact hgN y (hmemR y hy)
    have hfreshE1 : ∀ p2 ∈ rest, ∀ e ∈ p2.2.entities,
        egGet (add_phase1_file g0 p).edges (p2.1, e.1) = none := by
      intro p2 hp2 e he
      have hek : e.1 ∈ allIdsOf rest := by
        apply List.mem_append_left
        apply List.mem_append_right
        exact mem_entityKeysOf rest p2 hp2 e.1 (List.mem_map_of_mem (·.1) he)
      have hyg : e.1 ∉ p.1 :: (p.2.entities.map (·.1) ++ p.2.methods.map (·.1)) :=
        fun hh => hdisjPR hh hek
      rw [h1e (p2.1, e.1)]
      have hye : alGet p.2.entities e.1 = none := by
        apply alGet_not_mem
        intro hmem
        exact hyg (List.mem_cons_of_mem _ (List.mem_append_left _ hmem))
      have hym : alGet p.2.methods e.1 = none := by
        apply alGet_not_mem
        intro hmem
        exact hyg (List.mem_cons_of_mem _ (List.mem_append_right _ hmem))
      simp only [hye, hym]
      exact hgE1 p2 (List.mem_cons_of_mem _ hp2) e he
    have hfreshE2 : ∀ p2 ∈ rest, ∀ m ∈ p2.2.methods,
        egGet (add_phase1_file g0 p).edges (m.2.mentity_id, m.1) = none := by
      intro p2 hp2 m hm
      have hmk : m.1 ∈ allIdsOf rest := by
        apply List.mem_append_right
        exact mem_methodKeysOf rest p2 hp2 m.1 (List.mem_map_of_mem (·.1) hm)
      have hyg : m.1 ∉ p.1 :: (p.2.entities.map (·.1) ++ p.2.methods.map (·.1)) :=
        fun hh => hdisjPR hh hmk
      rw [h1e (m.2.mentity_id, m.1)]
      have hye : alGet p.2.entities m.1 = none := by
        apply alGet_not_mem
        intro hmem
        exact hyg (List.mem_cons_of_mem _ (List.mem_append_left _ hmem))
      have hym : alGet p.2.methods m.1 = none := by
        apply alGet_not_mem
        intro hmem
        exact hyg (List.mem_cons_of_mem _ (List.mem_append_right _ hmem))
      simp only [hye, hym]
      exact hgE2 p2 (List.mem_cons_of_mem _ hp2) m hm
    obtain ⟨ihn, ihe⟩ := ih (add_phase1_file g0 p) hNrest
      (fun p2 hp2 => hrec p2 (List.mem_cons_of_mem _ hp2))
      hfreshR hfreshE1 hfreshE2
    constructor
    · intro x
      rw [List.foldl_cons, ihn x]
      by_cases hx1 : x = p.1
      · have hxr : x ∉ allIdsOf rest := by
          rw [hx1]
          intro hh
          exact hdisjPR (List.mem_cons_self _ _) hh
        obtain ⟨ha, -, -⟩ := p1_all_none rest x hxr
        rw [ha, h1n x, if_pos hx1, p1_cons_file p rest x hx1.symm]
      · by_cases hx2 : x ∈ p.2.entities.map (·.1)
        · have hgmem : x ∈ p.1 :: (p.2.entities.map (·.1) ++ p.2.methods.map (·.1)) :=
            List.mem_cons_of_mem _ (List.mem_append_left _ hx2)
          have hxr : x ∉ allIdsOf rest := fun hh => hdisjPR hgmem hh
          have hf : x ∉ fileIdsOf (p :: rest) := by
            intro hh
            cases List.mem_cons.mp hh with
            | inl h => exact hx1 h
            | inr h =>
              exact hdisjPR hgmem (List.mem_append_left _ (List.mem_append_left _ h))
          obtain ⟨ha, -, -⟩ := p1_cons_ent p rest x hx2 hf
          obtain ⟨haR, -, -⟩ := p1_all_none rest x hxr
          rw [haR, h1n x, if_neg hx1, ha]
          obtain ⟨e, he⟩ := alGet_of_mem_keys _ _ hx2
          rw [he]
          rfl
        · by_cases hx3 : x ∈ p.2.methods.map (·.1)
          · have hgmem : x ∈ p.1 :: (p.2.entities.map (·.1) ++ p.2.methods.map (·.1)) :=
              List.mem_cons_of_mem _ (List.mem_append_right _ hx3)
            have hxr : x ∉ allIdsOf rest := fun hh => hdisjPR hgmem hh
            have hf : x ∉ fileIdsOf (p :: rest) := by
              intro hh
              cases List.mem_cons.mp hh with
              | inl h => exact hx1 h
              | inr h =>
                exact hdisjPR hgmem (List.mem_append_left _ (List.mem_append_left _ h))
            have hent : x ∉ entityKeysOf (p :: rest) := by
              intro hh
              unfold entityKeysOf at hh
              simp only [List.map_cons, List.flatten_cons] at hh
              cases List.mem_append.mp hh with
              | inl h => exact hx2 h
              | inr h =>
                exact hdisjPR hgmem
                  (List.mem_append_left _ (List.mem_append_right _ h))
            obtain ⟨ha, -, -⟩ := p1_cons_meth p rest x hx3 hf hent
            obtain ⟨haR, -, -⟩ := p1_all_none rest x hxr
            rw [haR, h1n x, if_neg hx1, ha]
            have hxe : alGet p.2.entities x = none := alGet_not_mem _ _ hx2
            rw [hxe]
            obtain ⟨m, hm⟩ := alGet_of_mem_keys _ _ hx3
            rw [hm]
            rfl
          · obtain ⟨ha, -, -⟩ := p1_cons_skip p rest x (fun hh => hx1 hh.symm) hx2 hx3
            rw [ha]
            cases hr : p1attr rest x with
            | some a => rfl
            | none =>
              rw [h1n x, if_neg hx1]
              have hxe : alGet p.2.entities x = none := alGet_not_mem _ _ hx2
              have hxm : alGet p.2.methods x = none := alGet_not_mem _ _ hx3
              rw [hxe, hxm]
    · intro q
      rw [List.foldl_cons, ihe q]
      by_cases hx1 : q.2 = p.1
      · have hxr : q.2 ∉ allIdsOf rest := by
          rw [hx1]
          intro hh
          exact hdisjPR (List.mem_cons_self _ _) hh
        obtain ⟨-, hpr, htr⟩ := p1_all_none rest q.2 hxr
        have hxe : alGet p.2.entities q.2 = none := by
          apply alGet_not_mem
          intro hmem
          exact hp1g (hx1 ▸ List.mem_append_left _ hmem)
        have hxm : alGet p.2.methods q.2 = none := by
          apply alGet_not_mem
          intro hmem
          exact hp1g (hx1 ▸ List.mem_append_right _ hmem)
        have hentC : q.2 ∉ entityKeysOf (p :: rest) := by
          intro hh
          unfold entityKeysOf at hh
          simp only [List.map_cons, List.flatten_cons] at hh
          cases List.mem_append.mp hh with
          | inl h => exact hp1g (hx1 ▸ List.mem_append_left _ h)
          | inr h =>
            exact hxr (List.mem_append_left _ (List.mem_append_right _ h))
        have hmethC : q.2 ∉ methodKeysOf (p :: rest) := by
          intro hh
          unfold methodKeysOf at hh
          simp only [List.map_cons, List.flatten_cons] at hh
          cases List.mem_append.mp hh with
          | inl h => exact hp1g (hx1 ▸ List.mem_append_right _ h)
          | inr h => exact hxr (List.mem_append_right _ h)
        have hpc : parentOf (p :: rest) q.2 = none := by
          unfold parentOf
          rw [entOwner_none_of_not_mem _ _ hentC, methOwner_none_of_not_mem _ _ hmethC]
        rw [hpr, htr, hpc, h1e q, hxe, hxm]
      · by_cases hx2 : q.2 ∈ p.2.entities.map (·.1)
        · have hgmem : q.2 ∈ p.1 :: (p.2.entities.map (·.1) ++ p.2.methods.map (·.1)) :=
            List.mem_cons_of_mem _ (List.mem_append_left _ hx2)
          have hxr : q.2 ∉ allIdsOf rest := fun hh => hdisjPR hgmem hh
          have hf : q.2 ∉ fileIdsOf (p :: rest) := by
            intro hh
            cases List.mem_cons.mp hh with
            | inl h => exact hx1 h
            | inr h =>
              exact hdisjPR hgmem (List.mem_append_left _ (List.mem_append_left _ h))
          obtain ⟨-, hpar, hty⟩ := p1_cons_ent p rest q.2 hx2 hf
          obtain ⟨-, hprR, htyR⟩ := p1_all_none rest q.2 hxr
          rw [hprR, htyR, hpar, hty, h1e q]
          obtain ⟨e, he⟩ := alGet_of_mem_keys _ _ hx2
          rw [he]
        · by_cases hx3 : q.2 ∈ p.2.methods.map (·.1)
          · have hgmem : q.2 ∈ p.1 :: (p.2.entities.map (·.1) ++ p.2.methods.map (·.1)) :=
              List.mem_cons_of_mem _ (List.mem_append_right _ hx3)
            have hxr : q.2 ∉ allIdsOf rest := fun hh => hdisjPR hgmem hh
            have hf : q.2 ∉ fileIdsOf (p :: rest) := by
              intro hh
              cases List.mem_cons.mp hh with
              | inl h => exact hx1 h
              | inr h =>
                exact hdisjPR hgmem (List.mem_append_left _ (List.mem_append_left _ h))
            have hent : q.2 ∉ entityKeysOf (p :: rest) := by
              intro hh
              unfold entityKeysOf at hh
              simp only [List.map_cons, List.flatten_cons] at hh
              cases List.mem_append.mp hh with
              | inl h => exact hx2 h
              | inr h =>
                exact hdisjPR hgmem
                  (List.mem_append_left _ (List.mem_append_right _ h))
            obtain ⟨-, hpar, hty⟩ := p1_cons_meth p rest q.2 hx3 hf hent
            obtain ⟨-, hprR, htyR⟩ := p1_all_none rest q.2 hxr
            rw [hprR, htyR, hpar, hty, h1e q]
            have hxe : alGet p.2.entities q.2 = none := alGet_not_mem _ _ hx2
            obtain ⟨m, hm⟩ := alGet_of_mem_keys _ _ hx3
            rw [hxe, hm]
            rfl
          · obtain ⟨-, hpar, hty⟩ :=
              p1_cons_skip p rest q.2 (fun hh => hx1 hh.symm) hx2 hx3
            rw [hpar, hty]
            have hxe : alGet p.2.entities q.2 = none := alGet_not_mem _ _ hx2
            have hxm : alGet p.2.methods q.2 = none := alGet_not_mem _ _ hx3
            cases hpr : parentOf rest q.2 with
            | none => rw [h1e q, hxe, hxm]
            | some par =>
              cases hty2 : p1etype rest q.2 with
              | none => rw [h1e q, hxe, hxm]
              | some t =>
                dsimp only
                by_cases hq : q.1 = par
                · rw [if_pos hq, if_pos hq]
                · rw [if_neg hq, if_neg hq, h1e q, hxe, hxm]

theorem phase1_nodes_char (d : List (String × FileRecord))
    (hN : (allIdsOf d).Nodup) (hrec : ∀ p ∈ d, record_ok p.1 p.2 = true)
    (x : String) : alGet (phase1_graph d).nodes x = p1attr d x := by
  have h := phase1_fold_aux d ⟨[], []⟩ hN hrec
    (fun y _ => rfl) (fun p _ e _ => rfl) (fun p _ m _ => rfl)
  rw [show phase1_graph d = d.foldl add_phase1_file ⟨[], []⟩ from rfl, h.1 x]
  cases hp : p1attr d x <;> rfl

theorem phase1_edges_char (d : List (String × FileRecord))
    (hN : (allIdsOf d).Nodup) (hrec : ∀ p ∈ d, record_ok p.1 p.2 = true)
    (q : String × String) :
    egGet (phase1_graph d).edges q =
      (match parentOf d q.2, p1etype d q.2 with
       | some par, some t => if q.1 = par then some ⟨t, none⟩ else none
       | _, _ => none) := by
  have h := phase1_fold_aux d ⟨[], []⟩ hN hrec
    (fun y _ => rfl) (fun p _ e _ => rfl) (fun p _ m _ => rfl)
  rw [show phase1_graph d = d.foldl add_phase1_file ⟨[], []⟩ from rfl, h.2 q]
  cases hp : parentOf d q.2 with
  | none => rfl
  | some par =>
    cases ht : p1etype d q.2 with
    | none => rfl
    | some t =>
      dsimp only
      split_ifs <;> rfl

theorem foldl_pres {α β : Type} (f : β → α → β) (P : β → Prop) :
    ∀ (l : List α), (∀ a ∈ l, ∀ b, P b → P (f b a)) →
    ∀ b0, P b0 → P (l.foldl f b0) := by
  intro l
  induction l with
  | nil => intro _ b0 hp; exact hp
  | cons a rest ih =>
    intro hf b0 hp
    rw [List.foldl_cons]
    exact ih (fun a2 ha2 => hf a2 (List.mem_cons_of_mem _ ha2)) _
      (hf a (List.mem_cons_self _ _) b0 hp)

theorem foldlM_pres {α β : Type} (f : β → α → Option β) (P : β → Prop) :
    ∀ (l : List α), (∀ a ∈ l, ∀ b b2, f b a = some b2 → P b → P b2) →
    ∀ b0 bF, List.foldlM f b0 l = some bF → P b0 → P bF := by
  intro l
  induction l with
  | nil =>
    intro _ b0 bF h hp
    cases h
    exact hp
  | cons a rest ih =>
    intro hf b0 bF h hp
    rw [List.foldlM_cons] at h
    cases hf0 : f b0 a with
    | none => rw [hf0] at h; exact Option.noConfusion h
    | some b1 =>
      rw [hf0] at h
      simp only [Option.bind_eq_bind, Option.some_bind] at h
      exact ih (fun a2 ha2 => hf a2 (List.mem_cons_of_mem _ ha2)) b1 bF h
        (hf a (List.mem_cons_self _ _) b0 b1 hf0 hp)

theorem edges_inv_addEdge (d : List (String × FileRecord)) (g : Graph)
    (u v t : String) (l : JVal) (hinv : edges_inv d g)
    (hnp : parentOf d v ≠ some u)
    (ht : t ≠ "CONTAINS" ∧ t ≠ "CONTAINS_FUNC" ∧ t ≠ "HAS_METHOD") :
    edges_inv d (addEdge g u v (labeled_edge t l)) := by
  constructor
  · intro a b hab
    rw [addEdge_get]
    rw [if_neg (fun hh : (a, b) = (u, v) => by
      have ha : a = u := congrArg Prod.fst hh
      have hb : b = v := congrArg Prod.snd hh
      exact hnp (hb ▸ ha ▸ hab))]
    exact hinv.1 a b hab
  · intro a b e hab hsome
    rw [addEdge_get] at hsome
    by_cases hh : (a, b) = (u, v)
    · rw [if_pos hh] at hsome
      injection hsome with he
      rw [← he]
      exact ht
    · rw [if_neg hh] at hsome
      exact hinv.2 a b e hab hsome

theorem edges_inv_addNode (d : List (String × FileRecord)) (g : Graph)
    (id : String) (f : NodeAttrs → NodeAttrs) (hinv : edges_inv d g) :
    edges_inv d (addNode g id f) := by
  constructor
  · intro a b hab
    rw [show (addNode g id f).edges = g.edges from rfl]
    exact hinv.1 a b hab
  · intro a b e hab hsome
    rw [show (addNode g id f).edges = g.edges from rfl] at hsome
    exact hinv.2 a b e hab hsome

theorem nodes_inv_addEdge (d : List (String × FileRecord)) (g : Graph)
    (u v : String) (f : EdgeAttrs → EdgeAttrs) (hinv : nodes_inv d g) :
    nodes_inv d (addEdge g u v f) := by
  constructor
  · intro x hx
    rw [show (addEdge g u v f).nodes = g.nodes from rfl]
    exact hinv.1 x hx
  · intro x a hx hsome
    rw [show (addEdge g u v f).nodes = g.nodes from rfl] at hsome
    exact hinv.2 x a hx hsome

theorem nodes_inv_addExternal (d : List (String × FileRecord)) (g : Graph)
    (src : String) (hinv : nodes_inv d g) (hni : src ∉ allIdsOf d)
    (hsrc : src ∈ extSourcesOf d) :
    nodes_inv d (addNode g src (external_node_attrs src)) := by
  constructor
  · intro x hx
    rw [addNode_get, if_neg (fun hh : x = src => hni (hh ▸ hx))]
    exact hinv.1 x hx
  · intro x a hx hsome
    rw [addNode_get] at hsome
    by_cases hh : x = src
    · rw [if_pos hh] at hsome
      injection hsome with he
      rw [← he]
      exact ⟨rfl, hh ▸ hsrc⟩
    · rw [if_neg hh] at hsome
      exact hinv.2 x a hx hsome

theorem mem_extSourcesOf (d : List (String × FileRecord))
    (p : String × FileRecord) (hp : p ∈ d) (imp : ImportRecord)
    (himp : imp ∈ p.2.imports) (hext : imp.is_external = true) :
    imp.source ∈ extSourcesOf d := by
  unfold extSourcesOf
  apply List.mem_flatten.mpr
  refine ⟨(p.2.imports.filter (·.is_external)).map (·.source),
    List.mem_map.mpr ⟨p, hp, rfl⟩, ?_⟩
  exact List.mem_map.mpr ⟨imp, List.mem_filter.mpr ⟨himp, hext⟩, rfl⟩

theorem nodup_segments (d : List (String × FileRecord))
    (hN : (allIdsOf d).Nodup) :
    (∀ x ∈ fileIdsOf d, x ∉ entityKeysOf d ∧ x ∉ methodKeysOf d) ∧
    (∀ x ∈ entityKeysOf d, x ∉ methodKeysOf d) := by
  unfold allIdsOf at hN
  obtain ⟨h12, h3, hd13⟩ := List.nodup_append.mp hN
  obtain ⟨h1, h2, hd12⟩ := List.nodup_append.mp h12
  refine ⟨fun x hx => ⟨fun hh => hd12 hx hh, ?_⟩, fun x hx hh => ?_⟩
  · exact fun hh => hd13 (List.mem_append_left _ hx) hh
  · exact hd13 (List.mem_append_right _ hx) hh

theorem entOwner_mem (d : List (String × FileRecord)) (x : String)
    (p : String × FileRecord) (h : entOwner d x = some p) :
    p ∈ d ∧ ∃ e, alGet p.2.entities x = some e := by
  unfold entOwner at h
  refine ⟨List.mem_of_find?_eq_some h, ?_⟩
  have := List.find?_some h
  cases he : alGet p.2.entities x with
  | some e => exact ⟨e, rfl⟩
  | none => rw [he] at this; exact absurd this (by simp)

theorem methOwner_mem (d : List (String × FileRecord)) (x : String)
    (p : String × FileRecord) (h : methOwner d x = some p) :
    p ∈ d ∧ ∃ m, alGet p.2.methods x = some m := by
  unfold methOwner at h
  refine ⟨List.mem_of_find?_eq_some h, ?_⟩
  have := List.find?_some h
  cases he : alGet p.2.methods x with
  | some m => exact ⟨m, rfl⟩
  | none => rw [he] at this; exact absurd this (by simp)

theorem alGet_pair_mem {α : Type} (l : List (String × α)) (k : String) (v : α)
    (h : alGet l k = some v) : (k, v) ∈ l := by
  induction l with
  | nil => exact absurd h (by simp [alGet])
  | cons p rest ih =>
    rw [show alGet (p :: rest) k =
      if p.1 = k then some p.2 else alGet rest k from rfl] at h
    by_cases hk : p.1 = k
    · rw [if_pos hk] at h
      injection h with h2
      exact List.mem_cons.mpr (Or.inl (by rw [← hk, ← h2]))
    · rw [if_neg hk] at h
      exact List.mem_cons_of_mem _ (ih h)

theorem parentOf_ran (d : List (String × FileRecord))
    (hrec : ∀ p ∈ d, record_ok p.1 p.2 = true) (a b : String)
    (h : parentOf d b = some a) :
    a ∈ fileIdsOf d ∨ a ∈ entityKeysOf d := by
  unfold parentOf at h
  cases heo : entOwner d b with
  | some p =>
    rw [heo] at h
    dsimp only at h
    injection h with h2
    left
    obtain ⟨hp, -⟩ := entOwner_mem d b p heo
    exact h2 ▸ List.mem_map.mpr ⟨p, hp, rfl⟩
  | none =>
    rw [heo] at h
    dsimp only at h
    cases hmo : methOwner d b with
    | none =>
      rw [hmo] at h
      dsimp only at h
      exact Option.noConfusion h
    | some p =>
      rw [hmo] at h
      dsimp only at h
      obtain ⟨hp, m, hm⟩ := methOwner_mem d b p hmo
      rw [hm] at h
      have h2 : m.mentity_id = a := by simpa using h
      right
      obtain ⟨-, -, hmeth, -, -⟩ := record_ok_unpack p.1 p.2 (hrec p hp)
      obtain ⟨-, hmem, -⟩ := hmeth (b, m) (alGet_pair_mem p.2.methods b m hm)
      exact h2 ▸ mem_entityKeysOf d p hp m.mentity_id hmem

theorem parentOf_eq_none (d : List (String × FileRecord)) (x : String)
    (h2 : x ∉ entityKeysOf d) (h3 : x ∉ methodKeysOf d) :
    parentOf d x = none := by
  unfold parentOf
  rw [entOwner_none_of_not_mem _ _ h2, methOwner_none_of_not_mem _ _ h3]

theorem entOwner_some_of_mem (d : List (String × FileRecord)) (t : String)
    (ht : t ∈ entityKeysOf d) : ∃ p, entOwner d t = some p := by
  unfold entityKeysOf at ht
  obtain ⟨lk, hlk, htl⟩ := List.mem_flatten.mp ht
  obtain ⟨p, hp, hpe⟩ := List.mem_map.mp hlk
  obtain ⟨e, he⟩ := alGet_of_mem_keys p.2.entities t (hpe ▸ htl)
  have : (entOwner d t).isSome := by
    unfold entOwner
    rw [List.find?_isSome]
    exact ⟨p, hp, by rw [he]; rfl⟩
  exact Option.isSome_iff_exists.mp this

theorem parentOf_of_ent (d : List (String × FileRecord)) (t : String)
    (ht : t ∈ entityKeysOf d) (a : String) (h : parentOf d t = some a) :
    a ∈ fileIdsOf d := by
  obtain ⟨p, hpo⟩ := entOwner_some_of_mem d t ht
  unfold parentOf at h
  rw [hpo] at h
  dsimp only at h
  injection h with h2
  obtain ⟨hp, -⟩ := entOwner_mem d t p hpo
  exact h2 ▸ List.mem_map.mpr ⟨p, hp, rfl⟩

theorem own_entity_lookup_mem (es : List (String × Entity)) (t : JVal)
    (s : String) (h : own_entity_lookup es t = some s) : s ∈ es.map (·.1) := by
  unfold own_entity_lookup at h
  cases hf : es.find? (fun p => p.2.ename = t) with
  | none => rw [hf] at h; exact Option.noConfusion h
  | some p =>
    rw [hf] at h
    injection h with h2
    exact h2 ▸ List.mem_map.mpr ⟨p, List.mem_of_find?_eq_some hf, rfl⟩

theorem global_entity_lookup_mem (d : List (String × FileRecord)) (t : JVal)
    (s : String) (h : global_entity_lookup d t = some s) :
    s ∈ entityKeysOf d := by
  unfold global_entity_lookup at h
  cases hf : ((d.map (·.2.entities)).flatten).find? (fun p => p.2.ename = t) with
  | none => rw [hf] at h; exact Option.noConfusion h
  | some p =>
    rw [hf] at h
    injection h with h2
    have hmem := List.mem_of_find?_eq_some hf
    obtain ⟨lk, hlk, hpl⟩ := List.mem_flatten.mp hmem
    obtain ⟨p2, hp2, hpe⟩ := List.mem_map.mp hlk
    subst h2
    apply mem_entityKeysOf d p2 hp2
    exact List.mem_map.mpr ⟨p, hpe ▸ hpl, rfl⟩

theorem import_edge_step_pres (d : List (String × FileRecord))
    (resolver : String → String → List String → Option String)
    (p : String × FileRecord) (hp : p ∈ d)
    (hN : (allIdsOf d).Nodup)
    (hext : ∀ p2 ∈ d, ∀ imp ∈ p2.2.imports, imp.is_external = true →
      imp.source ∉ allIdsOf d)
    (hres : resolver_ok resolver)
    (imp : ImportRecord) (himp : imp ∈ p.2.imports)
    (st st2 : BuildSt)
    (h : import_edge_step resolver (d.map (·.1)) p.1 p.2.file_path st imp = some st2)
    (hinv : edges_inv d st.g ∧ nodes_inv d st.g) :
    edges_inv d st2.g ∧ nodes_inv d st2.g := by
  unfold import_edge_step at h
  by_cases hie : imp.is_external
  · rw [if_pos hie] at h
    have hni : imp.source ∉ allIdsOf d := hext p hp imp himp hie
    have hsrc : imp.source ∈ extSourcesOf d := mem_extSourcesOf d p hp imp himp hie
    have hpar : parentOf d imp.source = none := (p1_all_none d imp.source hni).2.1
    have hst1 : edges_inv d (if imp.source ∈ st.seen then st
        else { st with
          g := addNode st.g imp.source (external_node_attrs imp.source),
          seen := st.seen ++ [imp.source] }).g ∧
        nodes_inv d (if imp.source ∈ st.seen then st
        else { st with
          g := addNode st.g imp.source (external_node_attrs imp.source),
          seen := st.seen ++ [imp.source] }).g := by
      by_cases hmem : imp.source ∈ st.seen
      · rw [if_pos hmem]; exact hinv
      · rw [if_neg hmem]
        exact ⟨edges_inv_addNode d st.g imp.source _ hinv.1,
          nodes_inv_addExternal d st.g imp.source hinv.2 hni hsrc⟩
    cases hj : pyJoin ", " imp.specifiers with
    | none => rw [hj] at h; exact Option.noConfusion h
    | some lbl =>
      rw [hj] at h
      dsimp only at h
      injection h with h2
      subst h2
      refine ⟨edges_inv_addEdge d _ p.1 imp.source "IMPORTS_EXT" (.str lbl)
        hst1.1 (by rw [hpar]; exact fun hh => Option.noConfusion hh)
        ⟨by decide, by decide, by decide⟩,
        nodes_inv_addEdge d _ p.1 imp.source _ hst1.2⟩
  · rw [if_neg hie] at h
    cases hr : resolver p.2.file_path imp.source (d.map (·.1)) with
    | none =>
      rw [hr] at h
      dsimp only at h
      injection h with h2
      subst h2
      exact hinv
    | some t =>
      rw [hr] at h
      dsimp only at h
      have htf : t ∈ fileIdsOf d := hres p.2.file_path imp.source _ t hr
      have hseg := nodup_segments d hN
      have hpar : parentOf d t = none :=
        parentOf_eq_none d t (hseg.1 t htf).1 (hseg.1 t htf).2
      by_cases hc : t ≠ "" ∧ hasNode st.g t = true
      · rw [if_pos hc] at h
        injection h with h2
        subst h2
        refine ⟨edges_inv_addEdge d _ p.1 t "IMPORTS_INT" _
          hinv.1 (by rw [hpar]; exact fun hh => Option.noConfusion hh)
          ⟨by decide, by decide, by decide⟩,
          nodes_inv_addEdge d _ p.1 t _ hinv.2⟩
      · rw [if_neg hc] at h
        injection h with h2
        subst h2
        exact hinv

theorem inject_step_pres (d : List (String × FileRecord))
    (data : FileRecord) (hdata : ∃ fid, (fid, data) ∈ d)
    (hN : (allIdsOf d).Nodup)
    (eid : String) (heid : eid ∈ entityKeysOf d)
    (deps : List Dep) (st : BuildSt)
    (hinv : edges_inv d st.g ∧ nodes_inv d st.g) :
    edges_inv d (inject_step d data st eid deps).g ∧
    nodes_inv d (inject_step d data st eid deps).g := by
  unfold inject_step
  by_cases hg : hasNode st.g eid = false
  · rw [if_pos hg]; exact hinv
  · rw [if_neg hg]
    apply foldl_pres _ (fun s => edges_inv d s.g ∧ nodes_inv d s.g) deps _ st hinv
    intro dep _ s hs
    obtain ⟨fid0, hd0⟩ := hdata
    have hseg := nodup_segments d hN
    have htgt : ∀ t2, (if (own_entity_lookup data.entities dep.dtype |>.getD "") = ""
        then global_entity_lookup d dep.dtype
        else own_entity_lookup data.entities dep.dtype) = some t2 →
        t2 = "" ∨ t2 ∈ entityKeysOf d := by
      intro t2 ht2
      by_cases ho : (own_entity_lookup data.entities dep.dtype |>.getD "") = ""
      · rw [if_pos ho] at ht2
        exact Or.inr (global_entity_lookup_mem d dep.dtype t2 ht2)
      · rw [if_neg ho] at ht2
        right
        have := own_entity_lookup_mem data.entities dep.dtype t2 ht2
        exact mem_entityKeysOf d (fid0, data) hd0 t2 this
    dsimp only
    cases ht : (if (own_entity_lookup data.entities dep.dtype |>.getD "") = ""
        then global_entity_lookup d dep.dtype
        else own_entity_lookup data.entities dep.dtype) with
    | none => exact hs
    | some t =>
      dsimp only
      by_cases hc : t ≠ "" ∧ hasNode s.g t = true
      · rw [if_pos hc]
        have htE : t ∈ entityKeysOf d := by
          cases htgt t ht with
          | inl hh => exact absurd hh hc.1
          | inr hh => exact hh
        have hnp : parentOf d t ≠ some eid := by
          intro hpar
          have hfid := parentOf_of_ent d t htE eid hpar
          exact (hseg.1 eid hfid).1 heid
        exact ⟨edges_inv_addEdge d _ eid t "INJECTS" _ hs.1 hnp
          ⟨by decide, by decide, by decide⟩,
          nodes_inv_addEdge d _ eid t _ hs.2⟩
      · rw [if_neg hc]
        exact hs

theorem call_one_step_g (d : List (String × FileRecord)) (data : FileRecord)
    (mid : String) (ceid : Option String) (st : BuildSt) (call : CallInfo) :
    (call_one_step d data mid ceid st call).g = st.g ∨
    ∃ v t l, (call_one_step d data mid ceid st call).g =
      addEdge st.g mid v (labeled_edge t l) ∧
      (t = "CALLS" ∨ t = "CALLS_EXT") := by
  unfold call_one_step
  dsimp only
  split_ifs <;>
    first
      | (left; rfl)
      | (right; exact ⟨_, "CALLS", _, rfl, Or.inl rfl⟩)
      | (cases hb : call.base_expression <;>
          first
            | (left; rfl)
            | (dsimp only
               split_ifs <;>
                 first
                   | (right; exact ⟨_, "CALLS_EXT", _, rfl, Or.inr rfl⟩)
                   | (left; rfl)))

theorem call_one_step_pres (d : List (String × FileRecord))
    (hN : (allIdsOf d).Nodup)
    (hrec : ∀ p ∈ d, record_ok p.1 p.2 = true)
    (data : FileRecord) (mid : String) (ceid : Option String)
    (hmid : mid ∈ methodKeysOf d) (st : BuildSt) (call : CallInfo)
    (hinv : edges_inv d st.g ∧ nodes_inv d st.g) :
    edges_inv d (call_one_step d data mid ceid st call).g ∧
    nodes_inv d (call_one_step d data mid ceid st call).g := by
  have hseg := nodup_segments d hN
  have hnp : ∀ v : String, parentOf d v ≠ some mid := by
    intro v hpar
    cases parentOf_ran d hrec mid v hpar with
    | inl hh => exact (hseg.1 mid hh).2 hmid
    | inr hh => exact hseg.2 mid hh hmid
  cases call_one_step_g d data mid ceid st call with
  | inl hg => rw [hg]; exact hinv
  | inr hex =>
    obtain ⟨v, t, l, hg, ht⟩ := hex
    rw [hg]
    refine ⟨edges_inv_addEdge d st.g mid v t l hinv.1 (hnp v) ?_,
      nodes_inv_addEdge d st.g mid v _ hinv.2⟩
    cases ht with
    | inl hh => subst hh; exact ⟨by decide, by decide, by decide⟩
    | inr hh => subst hh; exact ⟨by decide, by decide, by decide⟩

theorem calls_step_pres (d : List (String × FileRecord))
    (hN : (allIdsOf d).Nodup)
    (hrec : ∀ p ∈ d, record_ok p.1 p.2 = true)
    (data : FileRecord) (mid : String) (hmid : mid ∈ methodKeysOf d)
    (st : BuildSt) (calls : List CallInfo)
    (hinv : edges_inv d st.g ∧ nodes_inv d st.g) :
    edges_inv d (calls_step d data st mid calls).g ∧
    nodes_inv d (calls_step d data st mid calls).g := by
  unfold calls_step
  by_cases hg : hasNode st.g mid = false
  · rw [if_pos hg]; exact hinv
  · rw [if_neg hg]
    apply foldl_pres _ (fun s => edges_inv d s.g ∧ nodes_inv d s.g) calls _ st hinv
    intro call _ s hs
    exact call_one_step_pres d hN hrec data mid _ hmid s call hs

theorem add_phase2_file_pres (d : List (String × FileRecord))
    (resolver : String → String → List String → Option String)
    (hN : (allIdsOf d).Nodup)
    (hrec : ∀ p2 ∈ d, record_ok p2.1 p2.2 = true)
    (hext : ∀ p2 ∈ d, ∀ imp ∈ p2.2.imports, imp.is_external = true →
      imp.source ∉ allIdsOf d)
    (hres : resolver_ok resolver)
    (p : String × FileRecord) (hp : p ∈ d) (st st2 : BuildSt)
    (h : add_phase2_file d resolver (d.map (·.1)) st p = some st2)
    (hinv : edges_inv d st.g ∧ nodes_inv d st.g) :
    edges_inv d st2.g ∧ nodes_inv d st2.g := by
  unfold add_phase2_file at h
  cases himp : p.2.imports.foldlM
      (import_edge_step resolver (d.map (·.1)) p.1 p.2.file_path) st with
  | none => rw [himp] at h; exact Option.noConfusion h
  | some st1 =>
    rw [himp] at h
    dsimp only at h
    injection h with h2
    subst h2
    have hinv1 : edges_inv d st1.g ∧ nodes_inv d st1.g := by
      apply foldlM_pres _ (fun s => edges_inv d s.g ∧ nodes_inv d s.g)
        p.2.imports _ st st1 himp hinv
      intro imp himem s s2 hstep hs
      exact import_edge_step_pres d resolver p hp hN hext hres imp himem s s2 hstep hs
    obtain ⟨-, -, -, -, hdep⟩ := record_ok_unpack p.1 p.2 (hrec p hp)
    obtain ⟨-, -, hmeth2, hcall2, -⟩ := record_ok_unpack p.1 p.2 (hrec p hp)
    have hinv2 : edges_inv d (p.2.dependencies.foldl
        (fun s q => inject_step d p.2 s q.1 q.2) st1).g ∧
        nodes_inv d (p.2.dependencies.foldl
        (fun s q => inject_step d p.2 s q.1 q.2) st1).g := by
      apply foldl_pres _ (fun s => edges_inv d s.g ∧ nodes_inv d s.g)
        p.2.dependencies _ st1 hinv1
      intro q hq s hs
      apply inject_step_pres d p.2 ⟨p.1, hp⟩ hN q.1 _ q.2 s hs
      exact mem_entityKeysOf d p hp q.1 (hdep q hq)
    apply foldl_pres _ (fun s : BuildSt => edges_inv d s.g ∧ nodes_inv d s.g)
      p.2.calls _ _ hinv2
    intro q hq s hs
    apply calls_step_pres d hN hrec p.2 q.1 _ s q.2 hs
    exact mem_methodKeysOf d p hp q.1 (hcall2 q hq)

theorem build_graph_inv (d : List (String × FileRecord))
    (resolver : String → String → List String → Option String)
    (hN : (allIdsOf d).Nodup)
    (hrec : ∀ p ∈ d, record_ok p.1 p.2 = true)
    (hext : ∀ p ∈ d, ∀ imp ∈ p.2.imports, imp.is_external = true →
      imp.source ∉ allIdsOf d)
    (hres : resolver_ok resolver)
    (g : Graph) (diags : List String)
    (h : build_graph d resolver = some (g, diags)) :
    edges_inv d g ∧ nodes_inv d g := by
  unfold build_graph at h
  cases hf : d.foldlM (add_phase2_file d resolver (d.map (·.1)))
      ⟨phase1_graph d, [], []⟩ with
  | none => rw [hf] at h; exact Option.noConfusion h
  | some st =>
    rw [hf] at h
    dsimp only at h
    injection h with h2
    have hg : st.g = g := congrArg Prod.fst h2
    have hbase : edges_inv d (phase1_graph d) ∧ nodes_inv d (phase1_graph d) := by
      refine ⟨⟨fun a b hab => rfl, fun a b e hab hsome => ?_⟩,
        ⟨fun x hx => rfl, fun x a hx hsome => ?_⟩⟩
      · rw [phase1_edges_char d hN hrec (a, b)] at hsome
        cases hpar : parentOf d b with
        | none => rw [hpar] at hsome; exact Option.noConfusion hsome
        | some par =>
          rw [hpar] at hsome
          cases hty : p1etype d b with
          | none => rw [hty] at hsome; exact Option.noConfusion hsome
          | some t =>
            rw [hty] at hsome
            dsimp only at hsome
            by_cases hq : a = par
            · exact absurd (hq ▸ hpar) hab
            · rw [if_neg hq] at hsome
              exact Option.noConfusion hsome
      · rw [phase1_nodes_char d hN hrec x, (p1_all_none d x hx).1] at hsome
        exact Option.noConfusion hsome
    have := foldlM_pres _ (fun s : BuildSt => edges_inv d s.g ∧ nodes_inv d s.g) d
      (fun p hp s s2 hstep hs =>
        add_phase2_file_pres d resolver hN hrec hext hres p hp s s2 hstep hs)
      ⟨phase1_graph d, [], []⟩ st hf hbase
    exact hg ▸ this

theorem methOwner_some_of_mem (d : List (String × FileRecord)) (t : String)
    (ht : t ∈ methodKeysOf d) : ∃ p, methOwner d t = some p := by
  unfold methodKeysOf at ht
  obtain ⟨lk, hlk, htl⟩ := List.mem_flatten.mp ht
  obtain ⟨p, hp, hpe⟩ := List.mem_map.mp hlk
  obtain ⟨m, hm⟩ := alGet_of_mem_keys p.2.methods t (hpe ▸ htl)
  have : (methOwner d t).isSome := by
    unfold methOwner
    rw [List.find?_isSome]
    exact ⟨p, hp, by rw [hm]; rfl⟩
  exact Option.isSome_iff_exists.mp this

theorem parentOf_of_mem_ent (d : List (String × FileRecord)) (x : String)
    (hx : x ∈ entityKeysOf d) :
    ∃ f, parentOf d x = some f ∧ f ∈ fileIdsOf d := by
  obtain ⟨p, hpo⟩ := entOwner_some_of_mem d x hx
  obtain ⟨hp, -⟩ := entOwner_mem d x p hpo
  refine ⟨p.1, ?_, List.mem_map.mpr ⟨p, hp, rfl⟩⟩
  unfold parentOf
  rw [hpo]

theorem parentOf_of_mem_meth (d : List (String × FileRecord))
    (hN : (allIdsOf d).Nodup)
    (hrec : ∀ p ∈ d, record_ok p.1 p.2 = true) (x : String)
    (hx : x ∈ methodKeysOf d) :
    ∃ e, parentOf d x = some e ∧ e ∈ entityKeysOf d := by
  have hseg := nodup_segments d hN
  have hxe : x ∉ entityKeysOf d := fun hh => hseg.2 x hh hx
  obtain ⟨p, hpo⟩ := methOwner_some_of_mem d x hx
  obtain ⟨hp, m, hm⟩ := methOwner_mem d x p hpo
  refine ⟨m.mentity_id, ?_, ?_⟩
  · unfold parentOf
    rw [entOwner_none_of_not_mem d x hxe, hpo]
    dsimp only
    rw [hm]
    rfl
  · obtain ⟨-, -, hmeth, -, -⟩ := record_ok_unpack p.1 p.2 (hrec p hp)
    obtain ⟨-, hmem, -⟩ := hmeth (x, m) (alGet_pair_mem p.2.methods x m hm)
    exact mem_entityKeysOf d p hp m.mentity_id hmem

theorem p1etype_of_parent (d : List (String × FileRecord)) (a b : String)
    (h : parentOf d b = some a) :
    ∃ t, p1etype d b = some t ∧ (t = "CONTAINS" ∨ t = "HAS_METHOD") := by
  unfold parentOf at h
  unfold p1etype
  cases heo : entOwner d b with
  | some p => exact ⟨"CONTAINS", rfl, Or.inl rfl⟩
  | none =>
    rw [heo] at h
    dsimp only at h ⊢
    cases hmo : methOwner d b with
    | none =>
      rw [hmo] at h
      dsimp only at h
      exact Option.noConfusion h
    | some p => exact ⟨"HAS_METHOD", rfl, Or.inr rfl⟩

theorem fileFind_some_of_mem (d : List (String × FileRecord)) (f : String)
    (h : f ∈ fileIdsOf d) :
    ∃ p, d.find? (fun p2 => p2.1 == f) = some p ∧ p.1 = f ∧ p ∈ d := by
  have : (d.find? (fun p2 => p2.1 == f)).isSome := by
    rw [List.find?_isSome]
    obtain ⟨p, hp, hpe⟩ := List.mem_map.mp h
    exact ⟨p, hp, by simp [hpe]⟩
  obtain ⟨p, hp⟩ := Option.isSome_iff_exists.mp this
  refine ⟨p, hp, ?_, List.mem_of_find?_eq_some hp⟩
  have := List.find?_some hp
  simpa using this

theorem restricted_char (d : List (String × FileRecord))
    (hN : (allIdsOf d).Nodup)
    (hrec : ∀ p ∈ d, record_ok p.1 p.2 = true)
    (g : Graph) (hE : edges_inv d g) (a b : String) :
    restricted_step g a b ↔ parentOf d b = some a := by
  constructor
  · intro hstep
    obtain ⟨e, hedge, hty⟩ := hstep
    by_cases hp : parentOf d b = some a
    · exact hp
    · obtain ⟨h1, h2, h3⟩ := hE.2 a b e hp hedge
      cases hty with
      | inl hh => exact absurd hh h1
      | inr hh => cases hh with
        | inl hh2 => exact absurd hh2 h2
        | inr hh2 => exact absurd hh2 h3
  · intro hp
    obtain ⟨t, hty, htv⟩ := p1etype_of_parent d a b hp
    refine ⟨⟨t, none⟩, ?_, ?_⟩
    · rw [hE.1 a b hp, phase1_edges_char d hN hrec (a, b), hp, hty]
      dsimp only
      rw [if_pos rfl]
    · cases htv with
      | inl hh => exact Or.inl hh
      | inr hh => exact Or.inr (Or.inr hh)

theorem file_node_char (d : List (String × FileRecord))
    (hN : (allIdsOf d).Nodup)
    (hrec : ∀ p ∈ d, record_ok p.1 p.2 = true)
    (g : Graph) (hNo : nodes_inv d g) (f : String) :
    is_file_node g f ↔ f ∈ fileIdsOf d := by
  constructor
  · intro hf
    unfold is_file_node node_type_of at hf
    cases ha : alGet g.nodes f with
    | none => rw [ha] at hf; exact Option.noConfusion hf
    | some a =>
      rw [ha] at hf
      have hat : a.ntype = "File" := by
        injection hf
      by_cases hmem : f ∈ allIdsOf d
      · rw [hNo.1 f hmem, phase1_nodes_char d hN hrec f] at ha
        unfold p1attr at ha
        cases hff : d.find? (fun p2 => p2.1 == f) with
        | some p =>
          rw [hff] at ha
          have := List.find?_some hff
          obtain ⟨pf⟩ : ∃ _ : p.1 = f, True := ⟨by simpa using this, trivial⟩
          exact pf ▸ List.mem_map.mpr ⟨p, List.mem_of_find?_eq_some hff, rfl⟩
        | none =>
          rw [hff] at ha
          cases heo : entOwner d f with
          | some p =>
            rw [heo] at ha
            dsimp only at ha
            obtain ⟨hp, e, he⟩ := entOwner_mem d f p heo
            rw [he] at ha
            injection ha with ha2
            obtain ⟨-, hent, -, -, -⟩ := record_ok_unpack p.1 p.2 (hrec p hp)
            obtain ⟨-, -, hkind, -, -⟩ := hent (f, e) (alGet_pair_mem p.2.entities f e he)
            exact absurd (by rw [← ha2] at hat; exact hat) hkind
          | none =>
            rw [heo] at ha
            dsimp only at ha
            cases hmo : methOwner d f with
            | none =>
              rw [hmo] at ha
              dsimp only at ha
              exact Option.noConfusion ha
            | some p =>
              rw [hmo] at ha
              dsimp only at ha
              obtain ⟨hp, m, hm⟩ := methOwner_mem d f p hmo
              rw [hm] at ha
              injection ha with ha2
              have : a.ntype = "Method" := by rw [← ha2]; rfl
              rw [this] at hat
              exact absurd hat (by decide)
      · obtain ⟨hExt, -⟩ := hNo.2 f a hmem ha
        rw [hExt] at hat
        exact absurd hat (by decide)
  · intro hmem
    obtain ⟨p, hff, hpf, hp⟩ := fileFind_some_of_mem d f hmem
    have hall : f ∈ allIdsOf d :=
      List.mem_append_left _ (List.mem_append_left _ hmem)
    unfold is_file_node node_type_of
    rw [hNo.1 f hall, phase1_nodes_char d hN hrec f]
    unfold p1attr
    rw [hff]
    rfl

/-- C8 (amended): under well-formed data (distinct identities, internally
consistent records, and no external import source colliding with a data
identity) and an import resolver that only answers known file ids, every
node of the built graph that is not of type External is reachable from
exactly one File node along CONTAINS / CONTAINS_FUNC / HAS_METHOD edges.
Without the collision premise this fails: an external import source equal
to a file id turns that file node into an External node and orphans its
entities (see the counterexample). -/
theorem reachability_unique_file (d : List (String × FileRecord))
    (resolver : String → String → List String → Option String)
    (g : Graph) (diags : List String)
    (hwf : wf_data d) (hres : resolver_ok resolver)
    (hbg : build_graph d resolver = some (g, diags)) :
    ∀ x a, alGet g.nodes x = some a → a.ntype ≠ "External" →
      ∃! f, is_file_node g f ∧ ReachR g f x := by
  obtain ⟨hN, hrec, hext⟩ := hwf
  obtain ⟨hE, hNo⟩ := build_graph_inv d resolver hN hrec hext hres g diags hbg
  have hstep : ∀ a b, restricted_step g a b ↔ parentOf d b = some a :=
    fun a b => restricted_char d hN hrec g hE a b
  have hfile : ∀ f, is_file_node g f ↔ f ∈ fileIdsOf d :=
    fun f => file_node_char d hN hrec g hNo f
  have hseg := nodup_segments d hN
  have hnof : ∀ f, f ∈ fileIdsOf d → ∀ c, ¬restricted_step g c f := by
    intro f hf c hc
    rw [hstep] at hc
    rw [parentOf_eq_none d f (hseg.1 f hf).1 (hseg.1 f hf).2] at hc
    exact Option.noConfusion hc
  have hreach_file : ∀ f x, x ∈ fileIdsOf d → ReachR g f x → f = x := by
    intro f x hx hr
    cases hr.cases_tail with
    | inl hh => exact hh.symm
    | inr hh =>
      obtain ⟨c, -, hc⟩ := hh
      exact absurd hc (hnof x hx c)
  intro x a hxa hnext
  have hxall : x ∈ allIdsOf d := by
    by_contra hxn
    exact hnext (hNo.2 x a hxn hxa).1
  rcases List.mem_append.mp hxall with h12 | hxm
  · rcases List.mem_append.mp h12 with hxf | hxe
    · refine ⟨x, ⟨(hfile x).mpr hxf, Relation.ReflTransGen.refl⟩, ?_⟩
      rintro f' ⟨hf', hr'⟩
      exact hreach_file f' x hxf hr'
    · obtain ⟨fid, hpar, hfidf⟩ := parentOf_of_mem_ent d x hxe
      refine ⟨fid, ⟨(hfile fid).mpr hfidf,
        Relation.ReflTransGen.single ((hstep fid x).mpr hpar)⟩, ?_⟩
      rintro f' ⟨hf', hr'⟩
      have hf'mem := (hfile f').mp hf'
      cases hr'.cases_tail with
      | inl hh =>
        have : x ∈ fileIdsOf d := by rw [hh]; exact hf'mem
        exact absurd hxe (hseg.1 x this).1
      | inr hh =>
        obtain ⟨c, hrc, hcx⟩ := hh
        have hc2 : parentOf d x = some c := (hstep c x).mp hcx
        have hcfid : c = fid := by
          rw [hpar] at hc2
          injection hc2 with h3
          exact h3.symm
        exact hreach_file f' fid hfidf (hcfid ▸ hrc)
  · obtain ⟨eid, hparx, heidE⟩ := parentOf_of_mem_meth d hN hrec x hxm
    obtain ⟨fid, hpare, hfidf⟩ := parentOf_of_mem_ent d eid heidE
    refine ⟨fid, ⟨(hfile fid).mpr hfidf,
      Relation.ReflTransGen.head ((hstep fid eid).mpr hpare)
        (Relation.ReflTransGen.single ((hstep eid x).mpr hparx))⟩, ?_⟩
    rintro f' ⟨hf', hr'⟩
    have hf'mem := (hfile f').mp hf'
    cases hr'.cases_tail with
    | inl hh =>
      have : x ∈ fileIdsOf d := by rw [hh]; exact hf'mem
      exact absurd hxm (hseg.1 x this).2
    | inr hh =>
      obtain ⟨c, hrc, hcx⟩ := hh
      have hc2 : parentOf d x = some c := (hstep c x).mp hcx
      have hceid : c = eid := by
        rw [hparx] at hc2
        injection hc2 with h3
        exact h3.symm
      subst hceid
      cases hrc.cases_tail with
      | inl hh2 =>
        have : c ∈ fileIdsOf d := by rw [hh2]; exact hf'mem
        exact absurd heidE (hseg.1 c this).1
      | inr hh2 =>
        obtain ⟨c2, hrc2, hc2x⟩ := hh2
        have hc3 : parentOf d c = some c2 := (hstep c2 c).mp hc2x
        have hc2fid : c2 = fid := by
          rw [hpare] at hc3
          injection hc3 with h3
          exact h3.symm
        exact hreach_file f' fid hfidf (hc2fid ▸ hrc2)

/-- Witness: the reachability theorem applied to the concrete well-formed
single-file data d_c9 at the entity node f.ts::E. -/
theorem reachability_unique_file_witness :
    wf_data d_c9 ∧
    (∃! f, is_file_node ((build_graph d_c9 res_none).getD (⟨[], []⟩, [])).1 f ∧
      ReachR ((build_graph d_c9 res_none).getD (⟨[], []⟩, [])).1 f "f.ts::E") := by
  have hwf : wf_data d_c9 := ⟨by decide, by decide, by decide⟩
  have hres : resolver_ok res_none := fun fp src ids t h => Option.noConfusion h
  refine ⟨hwf, ?_⟩
  exact reachability_unique_file d_c9 res_none
    ((build_graph d_c9 res_none).getD (⟨[], []⟩, [])).1
    ((build_graph d_c9 res_none).getD (⟨[], []⟩, [])).2
    hwf hres (by decide) "f.ts::E"
    ⟨"Class", .str "E", some (.str "E"), some "f.ts", none, none,
      some ("Kind: Class\nFile: f.ts"), some none, none⟩ (by decide) (by decide)

theorem foldlM_append_decomp {α β : Type} (f : β → α → Option β) :
    ∀ (l1 l2 : List α) (b0 bF : β),
    List.foldlM f b0 (l1 ++ l2) = some bF →
    ∃ b1, List.foldlM f b0 l1 = some b1 ∧ List.foldlM f b1 l2 = some bF := by
  intro l1
  induction l1 with
  | nil =>
    intro l2 b0 bF h
    exact ⟨b0, rfl, h⟩
  | cons a rest ih =>
    intro l2 b0 bF h
    rw [List.cons_append, List.foldlM_cons] at h
    cases hf0 : f b0 a with
    | none => rw [hf0] at h; exact Option.noConfusion h
    | some b1 =>
      rw [hf0] at h
      simp only [Option.bind_eq_bind, Option.some_bind] at h
      obtain ⟨b2, hb2, hb3⟩ := ih l2 b1 bF h
      refine ⟨b2, ?_, hb3⟩
      rw [List.foldlM_cons, hf0]
      simpa using hb2

theorem ext_node_keep_addNode (g : Graph) (src k : String) (a0 : NodeAttrs)
    (h : alGet g.nodes src = some a0) (ha : a0.ntype = "External") :
    ∃ a, alGet (addNode g k (external_node_attrs k)).nodes src = some a ∧
      a.ntype = "External" := by
  rw [addNode_get]
  by_cases hk : src = k
  · exact ⟨_, by rw [if_pos hk], rfl⟩
  · exact ⟨a0, by rw [if_neg hk]; exact h, ha⟩

theorem foldl_keeps {α : Type} (f : BuildSt → α → BuildSt) (W : String → Prop)
    (hf : ∀ s a, (f s a).g.nodes = s.g.nodes ∧ (f s a).seen = s.seen ∧
      (∀ q, egGet (f s a).g.edges q ≠ egGet s.g.edges q → W q.1)) :
    ∀ (l : List α) (s : BuildSt),
      (l.foldl f s).g.nodes = s.g.nodes ∧ (l.foldl f s).seen = s.seen ∧
      (∀ q, egGet (l.foldl f s).g.edges q ≠ egGet s.g.edges q → W q.1) := by
  intro l
  induction l with
  | nil => intro s; exact ⟨rfl, rfl, fun q hq => absurd rfl hq⟩
  | cons a rest ih =>
    intro s
    rw [List.foldl_cons]
    obtain ⟨h1, h2, h3⟩ := ih (f s a)
    obtain ⟨g1, g2, g3⟩ := hf s a
    refine ⟨h1.trans g1, h2.trans g2, ?_⟩
    intro q hq
    by_cases hmid : egGet (rest.foldl f (f s a)).g.edges q = egGet (f s a).g.edges q
    · exact g3 q (fun hh => hq (hmid.trans hh))
    · exact h3 q hmid

theorem inject_step_keeps (d : List (String × FileRecord)) (data : FileRecord)
    (st : BuildSt) (eid : String) (deps : List Dep) :
    (inject_step d data st eid deps).g.nodes = st.g.nodes ∧
    (inject_step d data st eid deps).seen = st.seen ∧
    (∀ q, egGet (inject_step d data st eid deps).g.edges q ≠
      egGet st.g.edges q → q.1 = eid) := by
  unfold inject_step
  by_cases hg : hasNode st.g eid = false
  · rw [if_pos hg]; exact ⟨rfl, rfl, fun q hq => absurd rfl hq⟩
  · rw [if_neg hg]
    apply foldl_keeps _ (fun x => x = eid)
    intro s dep
    dsimp only
    cases ht : (if (own_entity_lookup data.entities dep.dtype |>.getD "") = ""
        then global_entity_lookup d dep.dtype
        else own_entity_lookup data.entities dep.dtype) with
    | none => exact ⟨rfl, rfl, fun q hq => absurd rfl hq⟩
    | some t =>
      dsimp only
      by_cases hc : t ≠ "" ∧ hasNode s.g t = true
      · rw [if_pos hc]
        refine ⟨rfl, rfl, ?_⟩
        intro q hq
        rw [addEdge_get] at hq
        split at hq
        · next hqe => exact congrArg Prod.fst hqe
        · exact absurd rfl hq
      · rw [if_neg hc]
        exact ⟨rfl, rfl, fun q hq => absurd rfl hq⟩

theorem call_one_step_keeps (d : List (String × FileRecord)) (data : FileRecord)
    (mid : String) (ceid : Option String) (st : BuildSt) (call : CallInfo) :
    (call_one_step d data mid ceid st call).g.nodes = st.g.nodes ∧
    (call_one_step d data mid ceid st call).seen = st.seen ∧
    (∀ q, egGet (call_one_step d data mid ceid st call).g.edges q ≠
      egGet st.g.edges q → q.1 = mid) := by
  unfold call_one_step
  dsimp only
  split_ifs <;>
    first
      | exact ⟨rfl, rfl, fun q hq => absurd rfl hq⟩
      | (refine ⟨rfl, rfl, ?_⟩
         intro q hq
         rw [addEdge_get] at hq
         split at hq
         · next hqe => exact congrArg Prod.fst hqe
         · exact absurd rfl hq)
      | (cases hb : call.base_expression <;>
          first
            | exact ⟨rfl, rfl, fun q hq => absurd rfl hq⟩
            | (dsimp only
               split_ifs <;>
                 first
                   | exact ⟨rfl, rfl, fun q hq => absurd rfl hq⟩
                   | (refine ⟨rfl, rfl, ?_⟩
                      intro q hq
                      rw [addEdge_get] at hq
                      split at hq
                      · next hqe => exact congrArg Prod.fst hqe
                      · exact absurd rfl hq)))

theorem calls_step_keeps (d : List (String × FileRecord)) (data : FileRecord)
    (st : BuildSt) (mid : String) (calls : List CallInfo) :
    (calls_step d data st mid calls).g.nodes = st.g.nodes ∧
    (calls_step d data st mid calls).seen = st.seen ∧
    (∀ q, egGet (calls_step d data st mid calls).g.edges q ≠
      egGet st.g.edges q → q.1 = mid) := by
  unfold calls_step
  by_cases hg : hasNode st.g mid = false
  · rw [if_pos hg]; exact ⟨rfl, rfl, fun q hq => absurd rfl hq⟩
  · rw [if_neg hg]
    apply foldl_keeps _ (fun x => x = mid)
    intro s call
    exact call_one_step_keeps d data mid _ s call

theorem import_edge_step_keeps
    (resolver : String → String → List String → Option String)
    (allIds : List String) (fid fpath : String) (st st2 : BuildSt)
    (imp : ImportRecord)
    (h : import_edge_step resolver allIds fid fpath st imp = some st2) :
    (∀ s2, (∃ a, alGet st.g.nodes s2 = some a ∧ a.ntype = "External") →
      ∃ a, alGet st2.g.nodes s2 = some a ∧ a.ntype = "External") ∧
    (∀ q, egGet st2.g.edges q ≠ egGet st.g.edges q →
      q.1 = fid ∧ (q.2 = imp.source ∨
        ∃ t, resolver fpath imp.source allIds = some t ∧ q.2 = t)) := by
  unfold import_edge_step at h
  by_cases hie : imp.is_external
  · rw [if_pos hie] at h
    cases hj : pyJoin ", " imp.specifiers with
    | none => rw [hj] at h; exact Option.noConfusion h
    | some lbl =>
      rw [hj] at h
      dsimp only at h
      injection h with h2
      subst h2
      constructor
      · intro s2 hs2
        obtain ⟨a0, ha0, hat⟩ := hs2
        by_cases hmem : imp.source ∈ st.seen
        · rw [if_pos hmem]
          exact ⟨a0, ha0, hat⟩
        · rw [if_neg hmem]
          exact ext_node_keep_addNode st.g s2 imp.source a0 ha0 hat
      · intro q hq
        have hseq : egGet (addEdge (if imp.source ∈ st.seen then st
            else { st with
              g := addNode st.g imp.source (external_node_attrs imp.source),
              seen := st.seen ++ [imp.source] }).g fid imp.source
            (labeled_edge "IMPORTS_EXT" (.str lbl))).edges q ≠
            egGet st.g.edges q := hq
        rw [addEdge_get] at hseq
        have hst1e : (if imp.source ∈ st.seen then st
            else { st with
              g := addNode st.g imp.source (external_node_attrs imp.source),
              seen := st.seen ++ [imp.source] }).g.edges = st.g.edges := by
          by_cases hmem : imp.source ∈ st.seen
          · rw [if_pos hmem]
          · rw [if_neg hmem]
            rfl
        rw [hst1e] at hseq
        split at hseq
        · next hqe =>
          exact ⟨congrArg Prod.fst hqe, Or.inl (congrArg Prod.snd hqe)⟩
        · exact absurd rfl hseq
  · rw [if_neg hie] at h
    cases hr : resolver fpath imp.source allIds with
    | none =>
      rw [hr] at h
      dsimp only at h
      injection h with h2
      subst h2
      exact ⟨fun s2 hs2 => hs2, fun q hq => absurd rfl hq⟩
    | some t =>
      rw [hr] at h
      dsimp only at h
      by_cases hc : t ≠ "" ∧ hasNode st.g t = true
      · rw [if_pos hc] at h
        injection h with h2
        subst h2
        refine ⟨fun s2 hs2 => hs2, ?_⟩
        intro q hq
        have hseq := hq
        rw [addEdge_get] at hseq
        split at hseq
        · next hqe =>
          exact ⟨congrArg Prod.fst hqe, Or.inr ⟨t, rfl, congrArg Prod.snd hqe⟩⟩
        · exact absurd rfl hseq
      · rw [if_neg hc] at h
        injection h with h2
        subst h2
        exact ⟨fun s2 hs2 => hs2, fun q hq => absurd rfl hq⟩

theorem import_edge_step_seen_ok
    (resolver : String → String → List String → Option String)
    (allIds : List String) (fid fpath : String) (st st2 : BuildSt)
    (imp : ImportRecord)
    (h : import_edge_step resolver allIds fid fpath st imp = some st2)
    (hs : seen_ok st) : seen_ok st2 := by
  unfold import_edge_step at h
  by_cases hie : imp.is_external
  · rw [if_pos hie] at h
    cases hj : pyJoin ", " imp.specifiers with
    | none => rw [hj] at h; exact Option.noConfusion h
    | some lbl =>
      rw [hj] at h
      dsimp only at h
      injection h with h2
      subst h2
      intro s hsm
      by_cases hmem : imp.source ∈ st.seen
      · rw [if_pos hmem] at hsm ⊢
        exact hs s hsm
      · rw [if_neg hmem] at hsm ⊢
        dsimp only at hsm ⊢
        rcases List.mem_append.mp hsm with hold | hnew
        · obtain ⟨a0, ha0, hat⟩ := hs s hold
          exact ext_node_keep_addNode st.g s imp.source a0 ha0 hat
        · have hse : s = imp.source := List.mem_singleton.mp hnew
          subst hse
          show ∃ a, alGet (addNode st.g imp.source
            (external_node_attrs imp.source)).nodes imp.source = some a ∧
            a.ntype = "External"
          rw [addNode_get, if_pos rfl]
          exact ⟨_, rfl, rfl⟩
  · rw [if_neg hie] at h
    cases hr : resolver fpath imp.source allIds with
    | none =>
      rw [hr] at h
      dsimp only at h
      injection h with h2
      subst h2
      exact hs
    | some t =>
      rw [hr] at h
      dsimp only at h
      by_cases hc : t ≠ "" ∧ hasNode st.g t = true
      · rw [if_pos hc] at h
        injection h with h2
        subst h2
        exact hs
      · rw [if_neg hc] at h
        injection h with h2
        subst h2
        exact hs

theorem import_edge_step_mark
    (resolver : String → String → List String → Option String)
    (allIds : List String) (fid fpath : String) (st st2 : BuildSt)
    (imp : ImportRecord)
    (h : import_edge_step resolver allIds fid fpath st imp = some st2)
    (hie : imp.is_external = true) (hs : seen_ok st) :
    ∃ lbl, pyJoin ", " imp.specifiers = some lbl ∧
      ext_mark fid imp.source lbl st2.g := by
  unfold import_edge_step at h
  rw [if_pos hie] at h
  cases hj : pyJoin ", " imp.specifiers with
  | none => rw [hj] at h; exact Option.noConfusion h
  | some lbl =>
    rw [hj] at h
    dsimp only at h
    injection h with h2
    subst h2
    refine ⟨lbl, rfl, ?_, ?_⟩
    · by_cases hmem : imp.source ∈ st.seen
      · rw [if_pos hmem]
        exact hs imp.source hmem
      · rw [if_neg hmem]
        dsimp only
        show ∃ a, alGet (addNode st.g imp.source
          (external_node_attrs imp.source)).nodes imp.source = some a ∧
          a.ntype = "External"
        rw [addNode_get, if_pos rfl]
        exact ⟨_, rfl, rfl⟩
    · rw [addEdge_get, if_pos rfl]
      rfl

theorem foldlM_keeps {α : Type} (f : BuildSt → α → Option BuildSt)
    (WQ : String × String → Prop) :
    ∀ (l : List α),
    (∀ a ∈ l, ∀ b b2, f b a = some b2 →
      (∀ s2, (∃ x, alGet b.g.nodes s2 = some x ∧ x.ntype = "External") →
        ∃ x, alGet b2.g.nodes s2 = some x ∧ x.ntype = "External") ∧
      (seen_ok b → seen_ok b2) ∧
      (∀ q, egGet b2.g.edges q ≠ egGet b.g.edges q → WQ q)) →
    ∀ b0 bF, List.foldlM f b0 l = some bF →
      (∀ s2, (∃ x, alGet b0.g.nodes s2 = some x ∧ x.ntype = "External") →
        ∃ x, alGet bF.g.nodes s2 = some x ∧ x.ntype = "External") ∧
      (seen_ok b0 → seen_ok bF) ∧
      (∀ q, egGet bF.g.edges q ≠ egGet b0.g.edges q → WQ q) := by
  intro l
  induction l with
  | nil =>
    intro _ b0 bF h
    cases h
    exact ⟨fun s2 hs2 => hs2, fun hs => hs, fun q hq => absurd rfl hq⟩
  | cons a rest ih =>
    intro hf b0 bF h
    rw [List.foldlM_cons] at h
    cases hf0 : f b0 a with
    | none => rw [hf0] at h; exact Option.noConfusion h
    | some b1 =>
      rw [hf0] at h
      simp only [Option.bind_eq_bind, Option.some_bind] at h
      obtain ⟨t1, t2, t3⟩ := hf a (List.mem_cons_self _ _) b0 b1 hf0
      obtain ⟨u1, u2, u3⟩ := ih (fun a2 ha2 => hf a2 (List.mem_cons_of_mem _ ha2))
        b1 bF h
      refine ⟨fun s2 hs2 => u1 s2 (t1 s2 hs2), fun hs => u2 (t2 hs), ?_⟩
      intro q hq
      by_cases hmid : egGet bF.g.edges q = egGet b1.g.edges q
      · exact t3 q (fun hh => hq (hmid.trans hh))
      · exact u3 q hmid

theorem file_marks (resolver : String → String → List String → Option String)
    (allIds : List String) (fid fpath : String) (imports : List ImportRecord)
    (st stI : BuildSt)
    (h : List.foldlM (import_edge_step resolver allIds fid fpath) st imports =
      some stI)
    (hs : seen_ok st)
    (hnd : (imports.map (·.source)).Nodup)
    (hres : resolver_ok resolver)
    (hni : ∀ imp ∈ imports, imp.is_external = true → imp.source ∉ allIds) :
    ∀ imp ∈ imports, imp.is_external = true →
      ∃ lbl, pyJoin ", " imp.specifiers = some lbl ∧
        ext_mark fid imp.source lbl stI.g := by
  intro imp hmem hie
  obtain ⟨pre, post, hsplit⟩ := List.append_of_mem hmem
  subst hsplit
  obtain ⟨st_pre, hpre, hrest⟩ := foldlM_append_decomp _ pre (imp :: post) st stI h
  rw [List.foldlM_cons] at hrest
  cases hstep : import_edge_step resolver allIds fid fpath st_pre imp with
  | none => rw [hstep] at hrest; exact Option.noConfusion hrest
  | some st_mid =>
    rw [hstep] at hrest
    simp only [Option.bind_eq_bind, Option.some_bind] at hrest
    have hs_pre : seen_ok st_pre := by
      have := foldlM_keeps _ (fun _ => True) pre
        (fun a _ b b2 hstep2 =>
          ⟨(import_edge_step_keeps resolver allIds fid fpath b b2 a hstep2).1,
           import_edge_step_seen_ok resolver allIds fid fpath b b2 a hstep2,
           fun q _ => trivial⟩) st st_pre hpre
      exact this.2.1 hs
    obtain ⟨lbl, hj, hmark⟩ :=
      import_edge_step_mark resolver allIds fid fpath st_pre st_mid imp hstep hie hs_pre
    refine ⟨lbl, hj, ?_⟩
    have hpost := foldlM_keeps _
      (fun q => q.1 = fid ∧ (q.2 ∈ post.map (·.source) ∨ q.2 ∈ allIds)) post
      (fun a ha b b2 hstep2 =>
        ⟨(import_edge_step_keeps resolver allIds fid fpath b b2 a hstep2).1,
         import_edge_step_seen_ok resolver allIds fid fpath b b2 a hstep2,
         fun q hq => by
          obtain ⟨hq1, hq2⟩ :=
            (import_edge_step_keeps resolver allIds fid fpath b b2 a hstep2).2 q hq
          refine ⟨hq1, ?_⟩
          cases hq2 with
          | inl hh => exact Or.inl (hh ▸ List.mem_map_of_mem (·.source) ha)
          | inr hh =>
            obtain ⟨t, hres2, hqt⟩ := hh
            right
            rw [hqt]
            exact hres fpath a.source allIds t hres2⟩)
      st_mid stI hrest
    have hsrc_post : imp.source ∉ post.map (·.source) := by
      rw [List.map_append, List.map_cons] at hnd
      obtain ⟨-, hmid, -⟩ := List.nodup_append.mp hnd
      exact (List.nodup_cons.mp hmid).1
    have hsrc_all : imp.source ∉ allIds :=
      hni imp (by
        apply List.mem_append_right
        exact List.mem_cons_self _ _) hie
    refine ⟨hpost.1 imp.source hmark.1, ?_⟩
    by_cases hch : egGet stI.g.edges (fid, imp.source) =
        egGet st_mid.g.edges (fid, imp.source)
    · rw [hch]
      exact hmark.2
    · obtain ⟨-, hq2⟩ := hpost.2.2 (fid, imp.source) hch
      cases hq2 with
      | inl hh => exact absurd hh hsrc_post
      | inr hh => exact absurd hh hsrc_all

theorem foldl_keeps_mem {α : Type} (f : BuildSt → α → BuildSt) (W : String → Prop) :
    ∀ (l : List α),
    (∀ a ∈ l, ∀ s, (f s a).g.nodes = s.g.nodes ∧ (f s a).seen = s.seen ∧
      (∀ q, egGet (f s a).g.edges q ≠ egGet s.g.edges q → W q.1)) →
    ∀ (s : BuildSt),
      (l.foldl f s).g.nodes = s.g.nodes ∧ (l.foldl f s).seen = s.seen ∧
      (∀ q, egGet (l.foldl f s).g.edges q ≠ egGet s.g.edges q → W q.1) := by
  intro l
  induction l with
  | nil => intro _ s; exact ⟨rfl, rfl, fun q hq => absurd rfl hq⟩
  | cons a rest ih =>
    intro hf s
    rw [List.foldl_cons]
    obtain ⟨h1, h2, h3⟩ := ih (fun a2 ha2 => hf a2 (List.mem_cons_of_mem _ ha2)) (f s a)
    obtain ⟨g1, g2, g3⟩ := hf a (List.mem_cons_self _ _) s
    refine ⟨h1.trans g1, h2.trans g2, ?_⟩
    intro q hq
    by_cases hmid : egGet (rest.foldl f (f s a)).g.edges q = egGet (f s a).g.edges q
    · exact g3 q (fun hh => hq (hmid.trans hh))
    · exact h3 q hmid

theorem add_phase2_file_keeps (d : List (String × FileRecord))
    (resolver : String → String → List String → Option String)
    (hres : resolver_ok resolver)
    (p : String × FileRecord) (st st2 : BuildSt)
    (h : add_phase2_file d resolver (d.map (·.1)) st p = some st2) :
    (∀ s2, (∃ x, alGet st.g.nodes s2 = some x ∧ x.ntype = "External") →
      ∃ x, alGet st2.g.nodes s2 = some x ∧ x.ntype = "External") ∧
    (seen_ok st → seen_ok st2) ∧
    (∀ q, egGet st2.g.edges q ≠ egGet st.g.edges q →
      (q.1 = p.1 ∧ (q.2 ∈ p.2.imports.map (·.source) ∨ q.2 ∈ d.map (·.1))) ∨
      q.1 ∈ p.2.dependencies.map (·.1) ∨ q.1 ∈ p.2.calls.map (·.1)) := by
  unfold add_phase2_file at h
  cases himp : p.2.imports.foldlM
      (import_edge_step resolver (d.map (·.1)) p.1 p.2.file_path) st with
  | none => rw [himp] at h; exact Option.noConfusion h
  | some st1 =>
    rw [himp] at h
    dsimp only at h
    injection h with h2
    subst h2
    have himps := foldlM_keeps _
      (fun q => q.1 = p.1 ∧ (q.2 ∈ p.2.imports.map (·.source) ∨ q.2 ∈ d.map (·.1)))
      p.2.imports
      (fun a ha b b2 hstep2 =>
        ⟨(import_edge_step_keeps resolver _ p.1 p.2.file_path b b2 a hstep2).1,
         import_edge_step_seen_ok resolver _ p.1 p.2.file_path b b2 a hstep2,
         fun q hq => by
          obtain ⟨hq1, hq2⟩ :=
            (import_edge_step_keeps resolver _ p.1 p.2.file_path b b2 a hstep2).2 q hq
          refine ⟨hq1, ?_⟩
          cases hq2 with
          | inl hh => exact Or.inl (hh ▸ List.mem_map_of_mem (·.source) ha)
          | inr hh =>
            obtain ⟨t, hres2, hqt⟩ := hh
            right
            rw [hqt]
            exact hres p.2.file_path a.source _ t hres2⟩)
      st st1 himp
    have hdeps := foldl_keeps_mem (fun s q => inject_step d p.2 s q.1 q.2)
      (fun x => x ∈ p.2.dependencies.map (·.1)) p.2.dependencies
      (fun a ha s => by
        obtain ⟨k1, k2, k3⟩ := inject_step_keeps d p.2 s a.1 a.2
        exact ⟨k1, k2, fun q hq => (k3 q hq) ▸ List.mem_map_of_mem (·.1) ha⟩)
      st1
    have hcalls := foldl_keeps_mem (fun s q => calls_step d p.2 s q.1 q.2)
      (fun x => x ∈ p.2.calls.map (·.1)) p.2.calls
      (fun a ha s => by
        obtain ⟨k1, k2, k3⟩ := calls_step_keeps d p.2 s a.1 a.2
        exact ⟨k1, k2, fun q hq => (k3 q hq) ▸ List.mem_map_of_mem (·.1) ha⟩)
      (p.2.dependencies.foldl (fun s q => inject_step d p.2 s q.1 q.2) st1)
    obtain ⟨d1, d2, d3⟩ := hdeps
    obtain ⟨c1, c2, c3⟩ := hcalls
    refine ⟨?_, ?_, ?_⟩
    · intro s2 hs2
      have h1 := himps.1 s2 hs2
      rw [← d1] at h1
      rw [← c1] at h1
      exact h1
    · intro hs
      have h1 := himps.2.1 hs
      unfold seen_ok at h1 ⊢
      rw [← d2, ← d1] at h1
      rw [← c2, ← c1] at h1
      exact h1
    · intro q hq
      by_cases hcq : egGet (List.foldl (fun s q2 => calls_step d p.2 s q2.1 q2.2)
          (List.foldl (fun s q2 => inject_step d p.2 s q2.1 q2.2) st1
            p.2.dependencies) p.2.calls).g.edges q =
          egGet (List.foldl (fun s q2 => inject_step d p.2 s q2.1 q2.2) st1
            p.2.dependencies).g.edges q
      · by_cases hdq : egGet (List.foldl (fun s q2 => inject_step d p.2 s q2.1 q2.2)
            st1 p.2.dependencies).g.edges q = egGet st1.g.edges q
        · exact Or.inl (himps.2.2 q (fun hh => hq (hcq.trans (hdq.trans hh))))
        · exact Or.inr (Or.inl (d3 q hdq))
      · exact Or.inr (Or.inr (c3 q hcq))

theorem data_node_type (d : List (String × FileRecord))
    (hN : (allIdsOf d).Nodup)
    (hrec : ∀ p ∈ d, record_ok p.1 p.2 = true)
    (g : Graph) (hNo : nodes_inv d g) (x : String)
    (hx : x ∈ allIdsOf d) (a : NodeAttrs) (ha : alGet g.nodes x = some a) :
    a.ntype ≠ "External" := by
  rw [hNo.1 x hx, phase1_nodes_char d hN hrec x] at ha
  unfold p1attr at ha
  cases hff : d.find? (fun p2 => p2.1 == x) with
  | some p =>
    rw [hff] at ha
    dsimp only at ha
    injection ha with ha2
    rw [← ha2]
    show (file_node_attrs p.2 emptyAttrs).ntype ≠ "External"
    rw [show (file_node_attrs p.2 emptyAttrs).ntype = "File" from rfl]
    exact by decide
  | none =>
    rw [hff] at ha
    dsimp only at ha
    cases heo : entOwner d x with
    | some p =>
      rw [heo] at ha
      dsimp only at ha
      obtain ⟨hp, e, he⟩ := entOwner_mem d x p heo
      rw [he] at ha
      injection ha with ha2
      obtain ⟨-, hent, -, -, -⟩ := record_ok_unpack p.1 p.2 (hrec p hp)
      obtain ⟨-, -, -, hkind, -⟩ := hent (x, e) (alGet_pair_mem p.2.entities x e he)
      rw [← ha2]
      exact hkind
    | none =>
      rw [heo] at ha
      dsimp only at ha
      cases hmo : methOwner d x with
      | none =>
        rw [hmo] at ha
        dsimp only at ha
        exact absurd ha (by simp)
      | some p =>
        rw [hmo] at ha
        dsimp only at ha
        obtain ⟨hp, m, hm⟩ := methOwner_mem d x p hmo
        rw [hm] at ha
        injection ha with ha2
        rw [← ha2]
        show (method_node_attrs p.1 m emptyAttrs).ntype ≠ "External"
        rw [show (method_node_attrs p.1 m emptyAttrs).ntype = "Method" from rfl]
        exact by decide

/-- C5 (amended): under well-formed data (no external source colliding
with a data identity), a resolver that only answers known file ids, and
per-file distinct import sources, the built graph holds one External node
per external import source (shared across importers), every node of type
External is such a source, and each importing file keeps its IMPORTS_EXT
edge to the shared node, labeled with the comma-joined specifiers. Without
the collision premises an internal import of the same file resolving onto
the external source id overwrites the IMPORTS_EXT edge (see the
counterexample). -/
theorem external_import_nodes_and_edges (d : List (String × FileRecord))
    (resolver : String → String → List String → Option String)
    (g : Graph) (diags : List String)
    (hwf : wf_data d) (hres : resolver_ok resolver)
    (hsrcs : ∀ p ∈ d, (p.2.imports.map (·.source)).Nodup)
    (hbg : build_graph d resolver = some (g, diags)) :
    (∀ p ∈ d, ∀ imp ∈ p.2.imports, imp.is_external = true →
      (∃ a, alGet g.nodes imp.source = some a ∧ a.ntype = "External") ∧
      (∃ lbl, pyJoin ", " imp.specifiers = some lbl ∧
        egGet g.edges (p.1, imp.source) =
          some ⟨"IMPORTS_EXT", some (.str lbl)⟩)) ∧
    (∀ x a, alGet g.nodes x = some a → a.ntype = "External" →
      x ∈ extSourcesOf d) := by
  obtain ⟨hN, hrec, hext⟩ := hwf
  obtain ⟨hE, hNo⟩ := build_graph_inv d resolver hN hrec hext hres g diags hbg
  have hseg := nodup_segments d hN
  have hfN : (fileIdsOf d).Nodup := by
    unfold allIdsOf at hN
    exact ((List.nodup_append.mp ((List.nodup_append.mp hN).1)).1)
  constructor
  · intro p hp imp himp hie
    obtain ⟨dpre, dpost, hdsplit⟩ := List.append_of_mem hp
    unfold build_graph at hbg
    cases hfold : d.foldlM (add_phase2_file d resolver (d.map (·.1)))
        ⟨phase1_graph d, [], []⟩ with
    | none => rw [hfold] at hbg; exact Option.noConfusion hbg
    | some stF =>
      rw [hfold] at hbg
      dsimp only at hbg
      injection hbg with hbg2
      have hgF : stF.g = g := congrArg Prod.fst hbg2
      have hfold2 : List.foldlM (add_phase2_file d resolver (d.map (·.1)))
          ⟨phase1_graph d, [], []⟩ (dpre ++ p :: dpost) = some stF := by
        rw [← hdsplit]
        exact hfold
      obtain ⟨st_pre, hpre, hrest⟩ :=
        foldlM_append_decomp _ dpre (p :: dpost) _ stF hfold2
      rw [List.foldlM_cons] at hrest
      cases hstep : add_phase2_file d resolver (d.map (·.1)) st_pre p with
      | none => rw [hstep] at hrest; exact Option.noConfusion hrest
      | some st_p =>
        rw [hstep] at hrest
        simp only [Option.bind_eq_bind, Option.some_bind] at hrest
        have hs0 : seen_ok (⟨phase1_graph d, [], []⟩ : BuildSt) :=
          fun s hs => absurd hs (List.not_mem_nil s)
        have hs_pre : seen_ok st_pre := by
          have := foldlM_keeps _ (fun _ => True) dpre
            (fun a _ b b2 hstep2 =>
              ⟨(add_phase2_file_keeps d resolver hres a b b2 hstep2).1,
               (add_phase2_file_keeps d resolver hres a b b2 hstep2).2.1,
               fun q _ => trivial⟩) _ st_pre hpre
          exact this.2.1 hs0
        unfold add_phase2_file at hstep
        cases himps : p.2.imports.foldlM
            (import_edge_step resolver (d.map (·.1)) p.1 p.2.file_path) st_pre with
        | none => rw [himps] at hstep; exact Option.noConfusion hstep
        | some st1 =>
          rw [himps] at hstep
          dsimp only at hstep
          injection hstep with hstep2
          obtain ⟨lbl, hj, hmark1⟩ := file_marks resolver (d.map (·.1)) p.1
            p.2.file_path p.2.imports st_pre st1 himps hs_pre (hsrcs p hp) hres
            (fun imp2 himp2 hie2 => by
              intro hmem
              exact hext p hp imp2 himp2 hie2
                (List.mem_append_left _ (List.mem_append_left _ hmem)))
            imp himp hie
          obtain ⟨-, -, -, hcall0, hdep0⟩ := record_ok_unpack p.1 p.2 (hrec p hp)
          have hp1file : p.1 ∈ fileIdsOf d := List.mem_map.mpr ⟨p, hp, rfl⟩
          have hdeps := foldl_keeps_mem (fun s q => inject_step d p.2 s q.1 q.2)
            (fun x => x ∈ p.2.dependencies.map (·.1)) p.2.dependencies
            (fun a ha s => by
              obtain ⟨k1, k2, k3⟩ := inject_step_keeps d p.2 s a.1 a.2
              exact ⟨k1, k2, fun q hq => (k3 q hq) ▸ List.mem_map_of_mem (·.1) ha⟩)
            st1
          have hcalls := foldl_keeps_mem (fun s q => calls_step d p.2 s q.1 q.2)
            (fun x => x ∈ p.2.calls.map (·.1)) p.2.calls
            (fun a ha s => by
              obtain ⟨k1, k2, k3⟩ := calls_step_keeps d p.2 s a.1 a.2
              exact ⟨k1, k2, fun q hq => (k3 q hq) ▸ List.mem_map_of_mem (·.1) ha⟩)
            (p.2.dependencies.foldl (fun s q => inject_step d p.2 s q.1 q.2) st1)
          have hmark_p : ext_mark p.1 imp.source lbl st_p.g := by
            rw [← hstep2]
            constructor
            · obtain ⟨a0, ha0, hat⟩ := hmark1.1
              refine ⟨a0, ?_, hat⟩
              rw [hcalls.1, hdeps.1]
              exact ha0
            · by_cases hcq : egGet (List.foldl (fun s q => calls_step d p.2 s q.1 q.2)
                  (List.foldl (fun s q => inject_step d p.2 s q.1 q.2) st1
                    p.2.dependencies) p.2.calls).g.edges (p.1, imp.source) =
                  egGet (List.foldl (fun s q => inject_step d p.2 s q.1 q.2) st1
                    p.2.dependencies).g.edges (p.1, imp.source)
              · rw [hcq]
                by_cases hdq : egGet (List.foldl
                    (fun s q => inject_step d p.2 s q.1 q.2) st1
                    p.2.dependencies).g.edges (p.1, imp.source) =
                    egGet st1.g.edges (p.1, imp.source)
                · rw [hdq]
                  exact hmark1.2
                · exfalso
                  have hmem2 := hdeps.2.2 (p.1, imp.source) hdq
                  obtain ⟨q2, hq2, hq2e⟩ := List.mem_map.mp hmem2
                  have hin : p.1 ∈ entityKeysOf d :=
                    mem_entityKeysOf d p hp p.1 (hq2e ▸ hdep0 q2 hq2)
                  exact (hseg.1 p.1 hp1file).1 hin
              · exfalso
                have hmem2 := hcalls.2.2 (p.1, imp.source) hcq
                obtain ⟨q2, hq2, hq2e⟩ := List.mem_map.mp hmem2
                have hin : p.1 ∈ methodKeysOf d :=
                  mem_methodKeysOf d p hp p.1 (hq2e ▸ hcall0 q2 hq2)
                exact (hseg.1 p.1 hp1file).2 hin
          have hp1post : ∀ p2 ∈ dpost, p2.1 ≠ p.1 := by
            intro p2 hp2 hh
            have hfN2 := hfN
            rw [hdsplit] at hfN2
            unfold fileIdsOf at hfN2
            rw [List.map_append, List.map_cons] at hfN2
            obtain ⟨-, hmid2, -⟩ := List.nodup_append.mp hfN2
            exact (List.nodup_cons.mp hmid2).1 (hh ▸ List.mem_map_of_mem (·.1) hp2)
          have hdpost := foldlM_keeps _ (fun q => q.1 ≠ p.1) dpost
            (fun a ha b b2 hstep3 =>
              ⟨(add_phase2_file_keeps d resolver hres a b b2 hstep3).1,
               (add_phase2_file_keeps d resolver hres a b b2 hstep3).2.1,
               fun q hq => by
                have ha_d : a ∈ d := by
                  rw [hdsplit]
                  exact List.mem_append_right _ (List.mem_cons_of_mem _ ha)
                have hws := (add_phase2_file_keeps d resolver hres a b b2
                  hstep3).2.2 q hq
                show q.1 ≠ p.1
                rcases hws with ⟨hq1, -⟩ | hq1 | hq1
                · rw [hq1]
                  exact hp1post a ha
                · intro hh
                  obtain ⟨q2, hq2, hq2e⟩ := List.mem_map.mp hq1
                  obtain ⟨-, -, -, -, hdepA⟩ :=
                    record_ok_unpack a.1 a.2 (hrec a ha_d)
                  have hin : q.1 ∈ entityKeysOf d :=
                    mem_entityKeysOf d a ha_d q.1 (hq2e ▸ hdepA q2 hq2)
                  exact (hseg.1 p.1 hp1file).1 (hh ▸ hin)
                · intro hh
                  obtain ⟨q2, hq2, hq2e⟩ := List.mem_map.mp hq1
                  obtain ⟨-, -, -, hcallA, -⟩ :=
                    record_ok_unpack a.1 a.2 (hrec a ha_d)
                  have hin : q.1 ∈ methodKeysOf d :=
                    mem_methodKeysOf d a ha_d q.1 (hq2e ▸ hcallA q2 hq2)
                  exact (hseg.1 p.1 hp1file).2 (hh ▸ hin)⟩)
            st_p stF hrest
          have hfin : ext_mark p.1 imp.source lbl stF.g := by
            constructor
            · exact hdpost.1 imp.source hmark_p.1
            · by_cases hch : egGet stF.g.edges (p.1, imp.source) =
                  egGet st_p.g.edges (p.1, imp.source)
              · rw [hch]
                exact hmark_p.2
              · exact absurd rfl (hdpost.2.2 (p.1, imp.source) hch)
          rw [hgF] at hfin
          exact ⟨hfin.1, lbl, hj, hfin.2⟩
  · intro x a hxa hext2
    by_cases hmem : x ∈ allIdsOf d
    · exact absurd hext2 (data_node_type d hN hrec g hNo x hmem a hxa)
    · exact (hNo.2 x a hmem hxa).2

/-- Witness: the external-import theorem applied to one concrete file
importing lodash. -/
theorem external_import_nodes_and_edges_witness :
    wf_data [("x.ts", { emptyRecord "x.ts" with
      imports := [⟨"lodash", [JVal.str "A"], true⟩] })] ∧
    ((∃ a, alGet ((build_graph [("x.ts", { emptyRecord "x.ts" with
        imports := [⟨"lodash", [JVal.str "A"], true⟩] })] res_none).getD
        (⟨[], []⟩, [])).1.nodes "lodash" = some a ∧ a.ntype = "External") ∧
     (∃ lbl, pyJoin ", " [JVal.str "A"] = some lbl ∧
       egGet ((build_graph [("x.ts", { emptyRecord "x.ts" with
         imports := [⟨"lodash", [JVal.str "A"], true⟩] })] res_none).getD
         (⟨[], []⟩, [])).1.edges ("x.ts", "lodash") =
         some ⟨"IMPORTS_EXT", some (.str lbl)⟩)) :=
  ⟨⟨by decide, by decide, by decide⟩,
   (external_import_nodes_and_edges
     [("x.ts", { emptyRecord "x.ts" with
       imports := [⟨"lodash", [JVal.str "A"], true⟩] })] res_none
     ((build_graph [("x.ts", { emptyRecord "x.ts" with
       imports := [⟨"lodash", [JVal.str "A"], true⟩] })] res_none).getD
       (⟨[], []⟩, [])).1
     ((build_graph [("x.ts", { emptyRecord "x.ts" with
       imports := [⟨"lodash", [JVal.str "A"], true⟩] })] res_none).getD
       (⟨[], []⟩, [])).2
     ⟨by decide, by decide, by decide⟩
     (fun fp src ids t h => Option.noConfusion h)
     (by decide) (by decide)).1
     ("x.ts", { emptyRecord "x.ts" with
       imports := [⟨"lodash", [JVal.str "A"], true⟩] })
     (by decide) ⟨"lodash", [JVal.str "A"], true⟩ (by decide) (by decide)⟩

theorem str_concat_ne_empty (c s : String) : c ++ "::" ++ s ≠ "" := by
  intro hh
  have h2 := congrArg String.length hh
  rw [String.length_append, String.length_append] at h2
  have h3 : ("::" : String).length = 2 := rfl
  have h4 : ("" : String).length = 0 := rfl
  omega

/-- C2 (amended): for a recorded call with base `this` from method mid of
entity c, the builder targets c::N where N is the called name: if that
node exists the CALLS edge (labeled "await" exactly for await calls) is
added, and if it does not exist the build state is returned completely
unchanged — no edge and, contrary to the original claim, no diagnostic is
recorded (the logging branches require the target id to be unresolved,
but the this-branch always sets one). -/
theorem this_call_edge_iff (d : List (String × FileRecord)) (data : FileRecord)
    (mid c : String) (hc : c ≠ "") (st : BuildSt) (nme : JVal) (astr : String)
    (aw : Bool) :
    (hasNode st.g (c ++ "::" ++ pyStr nme) = true →
      call_one_step d data mid (some c) st ⟨.str "this", nme, astr, aw⟩ =
        { st with g := (addEdge st.g mid (c ++ "::" ++ pyStr nme)
            (labeled_edge "CALLS" (.str (if aw then "await" else "")))) }) ∧
    (hasNode st.g (c ++ "::" ++ pyStr nme) = false →
      call_one_step d data mid (some c) st ⟨.str "this", nme, astr, aw⟩ = st) := by
  have htgt : decide ((c ++ "::" ++ pyStr nme) ≠ "") = true :=
    decide_eq_true (str_concat_ne_empty c (pyStr nme))
  have hcnd : (JVal.str "this" = JVal.str "this" ∧ decide (c ≠ "") = true) :=
    ⟨rfl, by simp [hc]⟩
  constructor
  · intro hn
    unfold call_one_step
    dsimp only
    rw [if_pos hcnd]
    dsimp only [Option.getD]
    rw [if_pos ⟨htgt, hn⟩]
  · intro hn
    unfold call_one_step
    dsimp only
    rw [if_pos hcnd]
    dsimp only [Option.getD]
    rw [if_neg (fun (hh : _ ∧ _) => by rw [hn] at hh; exact Bool.noConfusion hh.2)]
    rw [if_neg (fun (hh : _ ∧ _) => by rw [htgt] at hh; exact Bool.noConfusion hh.2)]
    rw [if_neg (fun (hh : _ ∧ _) => by
      have h5 := hh.1
      rw [show pyTruthy (JVal.str "this") = true from rfl] at h5
      exact Bool.noConfusion h5)]

/-- Witness: the this-call theorem applied to the concrete single-file
data d_c2, where method M calls this.n() and no method n exists: the
build state is returned unchanged. -/
theorem this_call_edge_iff_witness :
    (("f.ts::E" : String) ≠ "" ∧
     hasNode (phase1_graph d_c2) ("f.ts::E" ++ "::" ++ pyStr (.str "n")) = false) ∧
    call_one_step d_c2 rec_f "f.ts::E::M" (some "f.ts::E")
      ⟨phase1_graph d_c2, [], []⟩ ⟨.str "this", .str "n", "()", false⟩ =
      ⟨phase1_graph d_c2, [], []⟩ :=
  ⟨⟨by decide, by decide⟩,
   (this_call_edge_iff d_c2 rec_f "f.ts::E::M" "f.ts::E" (by decide)
     ⟨phase1_graph d_c2, [], []⟩ (.str "n") "()" false).2 (by decide)⟩

/-- C1 (amended): for a recorded call whose base is a non-this expression
matching the name of a dependency declared on the caller's entity, the
builder resolves the dependency's type string with the global entity
search alone — the first same-named entity over all files in map order —
and, when that entity exists in the graph, adds the CALLS edge targeting
{that_entity_id}::{called_method_name}. Contrary to the original claim it
does not search the owning file's entities first (see the
counterexample). -/
theorem call_dep_resolution_global (d : List (String × FileRecord))
    (data : FileRecord) (mid c : String) (st : BuildSt)
    (b nme : JVal) (astr : String) (aw : Bool) (dep : Dep) (deid : String)
    (hb : b ≠ .str "this") (hbt : pyTruthy b = true)
    (hfind : List.find? (fun dp => dp.dname = b)
      ((alGet data.dependencies c).getD []) = some dep)
    (hglob : global_entity_lookup d dep.dtype = some deid)
    (hne : deid ≠ "")
    (hnode : hasNode st.g (deid ++ "::" ++ pyStr nme) = true) :
    call_one_step d data mid (some c) st ⟨b, nme, astr, aw⟩ =
      { st with g := (addEdge st.g mid (deid ++ "::" ++ pyStr nme)
          (labeled_edge "CALLS" (.str (if aw then "await" else "")))) } := by
  unfold call_one_step
  dsimp only
  rw [if_neg (fun (hh : b = JVal.str "this" ∧ decide (c ≠ "") = true) => hb hh.1)]
  rw [if_pos hbt]
  rw [hfind]
  dsimp only
  rw [hglob]
  dsimp only
  rw [if_pos hne]
  dsimp only [Option.getD]
  rw [if_pos ⟨decide_eq_true (str_concat_ne_empty deid (pyStr nme)), hnode⟩]

/-- Witness: the global-resolution theorem applied to d_c1, where the
owning file b.ts also declares a class B yet the dependency b : B of
b.ts::A resolves to the earlier file's a.ts::B. -/
theorem call_dep_resolution_global_witness :
    ((JVal.str "b") ≠ JVal.str "this" ∧ pyTruthy (JVal.str "b") = true ∧
     List.find? (fun dp => dp.dname = JVal.str "b")
       ((alGet rec_b.dependencies "b.ts::A").getD []) =
       some ⟨.str "b", .str "B", .null, .bool false⟩ ∧
     global_entity_lookup d_c1 (JVal.str "B") = some "a.ts::B" ∧
     hasNode (phase1_graph d_c1) ("a.ts::B" ++ "::" ++ pyStr (.str "go")) = true) ∧
    call_one_step d_c1 rec_b "b.ts::A::m" (some "b.ts::A")
      ⟨phase1_graph d_c1, [], []⟩ ⟨.str "b", .str "go", "()", false⟩ =
      { (⟨phase1_graph d_c1, [], []⟩ : BuildSt) with
        g := (addEdge (phase1_graph d_c1) "b.ts::A::m"
          ("a.ts::B" ++ "::" ++ pyStr (.str "go"))
          (labeled_edge "CALLS" (.str (if false then "await" else "")))) } :=
  ⟨⟨by decide, by decide, by decide, by decide, by decide⟩,
   call_dep_resolution_global d_c1 rec_b "b.ts::A::m" "b.ts::A"
     ⟨phase1_graph d_c1, [], []⟩ (.str "b") (.str "go") "()" false
     ⟨.str "b", .str "B", .null, .bool false⟩ "a.ts::B"
     (by decide) (by decide) (by decide) (by decide) (by decide) (by decide)⟩
